import Mathlib

/-!
# ColorizedFolders: theme manager and colorization pass

A shallow embedding of `UColorizedFoldersManager`
(`Source/ColorizedFolders/Private/Themes/ColorizedFoldersManager.{h,cpp}`), of the theme
data types (`ColorizedFoldersTheme.h`), of the theme editor's save and delete handlers
(`Customization/ColorizedFoldersDetailCustomization.cpp`) and of the colorization pass and
its change handlers (`ColorizedFoldersModule.cpp`, `ColorizedFoldersSettings.h`), followed
by theorems about theme loading, merging, activation, removal, duplication and saving, and
about the colours the pass assigns.

Conventions of the embedding

* A member function that mutates the manager becomes a function from the manager state to
  the new manager state. A function that dereferences the result of `FindByKey` without a
  null check, or indexes an array, returns `Option`: `none` stands for the fault (null
  dereference, index out of range, copy past the end of the destination).
* Everything the plugin calls in the host engine (file manager, JSON reader and writer,
  GUID parsing, path concatenation, colour parsing) is not part of the plugin's source.
  It is taken as a parameter, the record `FEngine`, so every theorem holds for every
  behaviour of the engine.
* Observable effects (`OnThemeChanged().Broadcast`, `SaveConfig`, file operations, colour
  assignments) are recorded as lists. Where a statement is about the content of files, the
  recorded file operations are run on `FFileSystem`, a model of the engine's file system in
  which a write may fail.
* Structs are values. `FMemory::Memcpy` in `ApplyTheme` copies schemes bytewise, after
  which the active slots and the loaded slots of the current theme share the character
  buffers of their strings; the embedding gives the values right after the copy and does
  not follow later writes through a shared buffer.
* `ColorizedFoldersUtils.h`, which holds `ColorizeDirsAccordingToScheme` and the matching
  rules of a scheme, is not among the source files. These parts are modelled from the
  specification; each such definition says so in its first words.
-/

namespace ColorizedFolders

/-! ## Data model -/

/-- The engine's 128-bit identifier: four 32-bit words. -/
structure FGuid where
  A : Nat := 0
  B : Nat := 0
  C : Nat := 0
  D : Nat := 0
deriving DecidableEq, Repr

/-- `FGuid::IsValid`: some word is non-zero. -/
def FGuid.IsValid (G : FGuid) : Bool :=
  (G.A ||| G.B ||| G.C ||| G.D) != 0

/-- The engine's RGBA colour; each channel is the value held by the float. -/
structure FLinearColor where
  R : Rat := 0
  G : Rat := 0
  B : Rat := 0
  A : Rat := 0
deriving DecidableEq, Repr

/-- `NUM_FOLDER_SCHEMES` of `ColorizedFoldersTheme.h`. -/
abbrev NUM_FOLDER_SCHEMES : Nat := 32

/-- `FColorizedFolderColorScheme`: comma-separated folder names, comma-separated explicit
paths, and the colour. -/
structure FColorizedFolderColorScheme where
  FolderNames : String := ""
  ExplicitPaths : String := ""
  SchemeColor : FLinearColor := {}
deriving DecidableEq, Repr

/-- `FColorizedFolderColorSchemeList`: the two C arrays of `NUM_FOLDER_SCHEMES` slots. -/
structure FColorizedFolderColorSchemeList where
  Schemes : Fin NUM_FOLDER_SCHEMES → FColorizedFolderColorScheme
  DisplayNames : Fin NUM_FOLDER_SCHEMES → String

/-- `FColorizedFolderTheme`. The field defaults are those of the C++ default constructor
(zero id, empty text, empty file name, empty array). -/
structure FColorizedFolderTheme where
  Id : FGuid := {}
  DisplayName : String := ""
  Filename : String := ""
  LoadedDefaultColorSchemes : List FColorizedFolderColorScheme := []
deriving DecidableEq, Repr

/-- A file-system call issued by the manager or by the settings customization, in the order
of the calls: `IPlatformFile::SetReadOnly`, `IFileManager::Move`,
`FFileHelper::SaveStringToFile`, `IFileManager::Delete`, `IPlatformFile::DeleteFile`. -/
inductive FFileOp where
  | SetReadOnly (Filename : String) (bNewReadOnlyValue : Bool)
  | Move (Dest : String) (Src : String)
  | SaveStringToFile (Content : String) (Filename : String)
  | Delete (Filename : String)
  | DeleteFile (Filename : String)
deriving DecidableEq, Repr

/-- A call on the engine's `TJsonWriter`, in the order of the calls. -/
inductive FJsonWriterCall where
  | WriteObjectStart
  | WriteObjectStartNamed (Identifier : String)
  | WriteValueInt (Identifier : String) (Value : Int)
  | WriteValueString (Identifier : String) (Value : String)
  | WriteArrayStart (Identifier : String)
  | WriteArrayValue (Value : String)
  | WriteArrayEnd
  | WriteObjectEnd
  | Close
deriving DecidableEq, Repr

/-- The host engine as one call of the manager sees it. `Json` is the engine's
`FJsonObject`; the other fields are the engine functions the manager calls. -/
structure FEngine where
  /-- `FJsonObject`. -/
  Json : Type
  /-- `IFileManager::FindFiles(Result, Directory, Extension)`: the file names found. -/
  FindFiles : String → String → List String
  /-- `FFileHelper::LoadFileToString`: the content, or `none` when the call returns false. -/
  LoadFileToString : String → Option String
  /-- `IPlatformFile::FileExists`. -/
  FileExists : String → Bool
  /-- `FJsonSerializer::Deserialize(Reader, ObjectPtr) && ObjectPtr.IsValid()`. -/
  Deserialize : String → Option Json
  /-- `FJsonObject::TryGetNumberField(Name, int32&)`. -/
  TryGetNumberField : Json → String → Option Int
  /-- `FJsonObject::TryGetStringField`. -/
  TryGetStringField : Json → String → Option String
  /-- `FJsonObject::HasField`. -/
  HasField : Json → String → Bool
  /-- `FJsonObject::TryGetObjectField`. -/
  TryGetObjectField : Json → String → Option Json
  /-- `FJsonObject::TryGetStringArrayField`. -/
  TryGetStringArrayField : Json → String → Option (List String)
  /-- The string a `TJsonWriter` has produced after the given calls. -/
  JsonWriterOutput : List FJsonWriterCall → String
  /-- `FGuid::Parse`: the parsed id, or `none` when the call returns false. -/
  GuidParse : String → Option FGuid
  /-- `FGuid::ToString`. -/
  GuidToString : FGuid → String
  /-- `FLinearColor::InitFromString`: the colour after the call (the returned flag is
  ignored by the manager). -/
  InitFromString : FLinearColor → String → FLinearColor
  /-- `FLinearColor::ToString`. -/
  ColorToString : FLinearColor → String
  /-- `FString::operator/`: path concatenation. -/
  PathCombine : String → String → String
  /-- `TArray<FString>::Sort`. -/
  SortStrings : List String → List String
  /-- `FPaths::EngineContentDir()`. -/
  EngineContentDir : String
  /-- `FPaths::ProjectContentDir()`. -/
  ProjectContentDir : String
  /-- `FPlatformProcess::UserSettingsDir()`. -/
  UserSettingsDir : String
  /-- `FApp::GetEpicProductIdentifier()`. -/
  EpicProductIdentifier : String
  /-- `FindPlugin("ColorizedFolders")->GetContentDir()`. -/
  PluginContentDir : String
  /-- `FindPlugin("ColorizedFolders")->GetBaseDir()`. -/
  PluginBaseDir : String

/-- `UColorizedFoldersManager`: the members of the class, then the record of its
observable effects. -/
structure UColorizedFoldersManager where
  DefaultTheme : FColorizedFolderTheme
  LoadedThemes : List FColorizedFolderTheme
  DefaultColorSchemes : Fin NUM_FOLDER_SCHEMES → FColorizedFolderColorScheme
  CurrentThemeId : FGuid
  ActiveSchemes : FColorizedFolderColorSchemeList
  /-- The ids passed to `OnThemeChanged().Broadcast`, oldest first. -/
  ThemeChangedBroadcasts : List FGuid
  /-- The value of the config property `CurrentThemeId` at each `SaveConfig()`, oldest
  first. `ActiveSchemes` is `Transient` and is not written. -/
  SavedConfigs : List FGuid

/-! ## Engine containers and strings -/

/-- `TArray::FindByKey` on the theme list: the first theme whose `operator==(const FGuid&)`
accepts the key. -/
def FindByKey (Themes : List FColorizedFolderTheme) (Key : FGuid) :
    Option FColorizedFolderTheme :=
  match Themes with
  | [] => none
  | T :: Rest => if T.Id = Key then some T else FindByKey Rest Key

/-- A write through the pointer returned by `FindByKey`: `Fn` is applied to the first theme
with the key, in place. -/
def ModifyByKey (Themes : List FColorizedFolderTheme) (Key : FGuid)
    (Fn : FColorizedFolderTheme → FColorizedFolderTheme) : List FColorizedFolderTheme :=
  match Themes with
  | [] => []
  | T :: Rest => if T.Id = Key then Fn T :: Rest else T :: ModifyByKey Rest Key Fn

/-- `TArray::Contains(const FGuid&)` on the theme list. -/
def Contains (Themes : List FColorizedFolderTheme) (Key : FGuid) : Bool :=
  (FindByKey Themes Key).isSome

/-- `TArray::AddUnique`: themes compare by `operator==(const FColorizedFolderTheme&)`, that
is by id; the item is appended only when no theme equals it. -/
def AddUnique (Themes : List FColorizedFolderTheme) (Item : FColorizedFolderTheme) :
    List FColorizedFolderTheme :=
  if Contains Themes Item.Id then Themes else Themes ++ [Item]

/-- `TArray::RemoveAll` with the predicate `TestTheme.Id == ThemeId`. -/
def RemoveAll (Themes : List FColorizedFolderTheme) (ThemeId : FGuid) :
    List FColorizedFolderTheme :=
  Themes.filter (fun TestTheme => !decide (TestTheme.Id = ThemeId))

/-- `FString::FromInt` for a scheme index. -/
def FromInt (N : Nat) : String := toString N

/-- `FMemory::Memcpy(Dest, Src.GetData(), sizeof(Scheme) * Src.Num())` into a C array of
`NUM_FOLDER_SCHEMES` slots: the first `Src.Num()` slots are overwritten. The result gives
the value each slot holds when the call returns. The copy is bytewise and a scheme holds
two `FString` members, so in the program a copied slot shares its character buffers with
the slot it was copied from; this sharing is not represented, and nothing below is stated
about a write to a slot after the copy. -/
def Memcpy (Dest : Fin NUM_FOLDER_SCHEMES → FColorizedFolderColorScheme)
    (Src : List FColorizedFolderColorScheme) :
    Fin NUM_FOLDER_SCHEMES → FColorizedFolderColorScheme :=
  fun I => match Src[I.val]? with
    | some S => S
    | none => Dest I

/-- `MakeArrayView(Array, NUM_FOLDER_SCHEMES)` converted to a `TArray`: a copy of the slots
in index order. -/
def MakeArrayView (Slots : Fin NUM_FOLDER_SCHEMES → FColorizedFolderColorScheme) :
    List FColorizedFolderColorScheme :=
  List.ofFn Slots

/-- A write to `Array[Index]` of a `TArray`: `none` when the index is out of range. -/
def ModifyAt (Schemes : List FColorizedFolderColorScheme) (Index : Nat)
    (Fn : FColorizedFolderColorScheme → FColorizedFolderColorScheme) :
    Option (List FColorizedFolderColorScheme) :=
  match Schemes[Index]? with
  | some S => some (Schemes.set Index (Fn S))
  | none => none

/-- `FString::Replace(TEXT(" "), TEXT(""))`. -/
def RemoveSpaces (S : String) : String :=
  String.mk (S.data.filter (fun Ch => Ch != ' '))

/-- `FString::ParseIntoArray(Out, TEXT(","), true)`: the pieces between commas, empty
pieces culled. -/
def ParseIntoArray (S : String) : List String :=
  ((S.data.splitOn ',').filter (fun Piece => !Piece.isEmpty)).map String.mk

/-! ## `ColorizedFoldersTheme.h` -/

/-- The loop of `SaveArrayToFolders` and `SaveArrayToPaths`: the names joined by commas. -/
def JoinWithCommas (Names : List String) : String :=
  match Names with
  | [] => ""
  | [Name] => Name
  | Name :: Rest => Name ++ "," ++ JoinWithCommas Rest

/-- `FColorizedFolderColorScheme::ResolveFolderNames`. -/
def FColorizedFolderColorScheme.ResolveFolderNames (E : FEngine)
    (S : FColorizedFolderColorScheme) : List String :=
  E.SortStrings (ParseIntoArray S.FolderNames)

/-- `FColorizedFolderColorScheme::SaveArrayToFolders`. -/
def FColorizedFolderColorScheme.SaveArrayToFolders (S : FColorizedFolderColorScheme)
    (InFolderNames : List String) : FColorizedFolderColorScheme :=
  if InFolderNames.length = 0 then { S with FolderNames := "" }
  else { S with FolderNames := RemoveSpaces (JoinWithCommas InFolderNames) }

/-- `FColorizedFolderColorScheme::ResolveExplicitPaths`. -/
def FColorizedFolderColorScheme.ResolveExplicitPaths (E : FEngine)
    (S : FColorizedFolderColorScheme) : List String :=
  E.SortStrings (ParseIntoArray S.ExplicitPaths)

/-- `FColorizedFolderColorScheme::SaveArrayToPaths`. -/
def FColorizedFolderColorScheme.SaveArrayToPaths (S : FColorizedFolderColorScheme)
    (InExplicitPaths : List String) : FColorizedFolderColorScheme :=
  if InExplicitPaths.length = 0 then { S with ExplicitPaths := "" }
  else { S with ExplicitPaths := RemoveSpaces (JoinWithCommas InExplicitPaths) }

/-! ## `ColorizedFoldersManager.cpp` -/

/-- The file-static `ThemesSubDir`. -/
def ThemesSubDir : String := "Slate/Themes/ContentBrowser"

/-- `UColorizedFoldersManager::GetEngineThemeDir`. -/
def GetEngineThemeDir (E : FEngine) : String :=
  E.PathCombine E.EngineContentDir ThemesSubDir

/-- `UColorizedFoldersManager::GetProjectThemeDir`. -/
def GetProjectThemeDir (E : FEngine) : String :=
  E.PathCombine E.ProjectContentDir ThemesSubDir

/-- `UColorizedFoldersManager::GetUserThemeDir`. -/
def GetUserThemeDir (E : FEngine) : String :=
  E.PathCombine (E.PathCombine E.UserSettingsDir E.EpicProductIdentifier) ThemesSubDir

/-- `UColorizedFoldersManager::GetPluginThemeDir`. -/
def GetPluginThemeDir (E : FEngine) : String :=
  E.PathCombine E.PluginContentDir ThemesSubDir

/-- `UColorizedFoldersManager::DoesThemeExist`. -/
def DoesThemeExist (M : UColorizedFoldersManager) (ThemeId : FGuid) : Bool :=
  M.LoadedThemes.any (fun Theme => decide (Theme.Id = ThemeId))

/-- `UColorizedFoldersManager::ReadTheme`: the returned flag and the out-parameter after the
call. When `FGuid::Parse` fails the out-parameter is left as it was; the caller discards
it in that case. -/
def ReadTheme (E : FEngine) (ThemeData : String) (OutTheme : FColorizedFolderTheme) :
    Bool × FColorizedFolderTheme :=
  match E.Deserialize ThemeData with
  | some ObjectPtr =>
    match E.TryGetNumberField ObjectPtr "Version" with
    | none => (false, OutTheme)
    | some _ =>
      match E.TryGetStringField ObjectPtr "Id" with
      | none => (false, OutTheme)
      | some IdString =>
        match E.GuidParse IdString with
        | none => (false, OutTheme)
        | some Id =>
          match E.TryGetStringField ObjectPtr "DisplayName" with
          | none => (false, { OutTheme with Id := Id })
          | some DisplayString =>
            -- Just check that the theme has schemes.
            if !E.HasField ObjectPtr "Schemes" then
              (false, { OutTheme with Id := Id, DisplayName := DisplayString })
            else
              (true, { OutTheme with Id := Id, DisplayName := DisplayString })
  | none => (false, OutTheme)

/-- The body of the loop of `LoadThemesFromDirectory`, for one file name of the directory:
the theme list after the iteration. -/
def LoadThemeFile (E : FEngine) (Directory : String)
    (LoadedThemes : List FColorizedFolderTheme) (ThemeFile : String) :
    List FColorizedFolderTheme :=
  let ThemeFilename := E.PathCombine Directory ThemeFile
  match E.LoadFileToString ThemeFilename with
  | some ThemeData =>
    match ReadTheme E ThemeData {} with
    | (true, Theme) =>
      match FindByKey LoadedThemes Theme.Id with
      | some _ =>
        -- Just update the existing theme.
        ModifyByKey LoadedThemes Theme.Id (fun ExistingTheme =>
          { ExistingTheme with Filename := ThemeFilename })
      | none =>
        -- Theme not found, add a new one
        LoadedThemes ++ [{ Theme with Filename := ThemeFilename }]
    | (false, _) => LoadedThemes
  | none => LoadedThemes

/-- `UColorizedFoldersManager::LoadThemesFromDirectory`. -/
def LoadThemesFromDirectory (E : FEngine) (Directory : String)
    (M : UColorizedFoldersManager) : UColorizedFoldersManager :=
  { M with LoadedThemes :=
      (E.FindFiles Directory ".json").foldl (LoadThemeFile E Directory) M.LoadedThemes }

/-- The id the built-in theme is given in `EnsureValidCurrentTheme`. -/
def DefaultThemeId : FGuid :=
  { A := 0x13438026, B := 0x5FBB4A9C, C := 0xA00A1DC9, D := 0x770217B8 }

/-- `UColorizedFoldersManager::EnsureValidCurrentTheme`. -/
def EnsureValidCurrentTheme (E : FEngine) (M : UColorizedFoldersManager) :
    UColorizedFoldersManager :=
  let DefaultTheme : FColorizedFolderTheme :=
    { M.DefaultTheme with
      DisplayName := "No Theme"
      Id := DefaultThemeId
      Filename := E.PathCombine E.PluginBaseDir "Resources/Themes/NoTheme.json" }
  let LoadedThemes := AddUnique M.LoadedThemes DefaultTheme
  let CurrentThemeId :=
    if !M.CurrentThemeId.IsValid || !Contains LoadedThemes M.CurrentThemeId then
      DefaultTheme.Id
    else M.CurrentThemeId
  { M with
    DefaultTheme := DefaultTheme
    LoadedThemes := LoadedThemes
    CurrentThemeId := CurrentThemeId }

/-- The body of the loop of `LoadThemeFolderSchemes` for one scheme index: the theme's
scheme array after the iteration, `none` when `operator[]` is out of range. -/
def LoadSchemeSlot (E : FEngine) (SchemesObject : E.Json)
    (Schemes : List FColorizedFolderColorScheme) (SchemeIndex : Nat) :
    Option (List FColorizedFolderColorScheme) :=
  match E.TryGetObjectField SchemesObject (FromInt SchemeIndex) with
  | some SchemeObject =>
    (match E.TryGetStringField SchemeObject "SchemeColor" with
      | some ColorString =>
        ModifyAt Schemes SchemeIndex (fun S =>
          { S with SchemeColor := E.InitFromString S.SchemeColor ColorString })
      | none => some Schemes).bind fun Schemes1 =>
    (match E.TryGetStringArrayField SchemeObject "FolderNames" with
      | some FolderNames =>
        ModifyAt Schemes1 SchemeIndex (fun S => S.SaveArrayToFolders FolderNames)
      | none => some Schemes1).bind fun Schemes2 =>
    (match E.TryGetStringArrayField SchemeObject "ExplicitPaths" with
      | some PathNames =>
        ModifyAt Schemes2 SchemeIndex (fun S => S.SaveArrayToPaths PathNames)
      | none => some Schemes2)
  | none => some Schemes

/-- The loop of `LoadThemeFolderSchemes` over the given scheme indices, in order. -/
def LoadSchemeSlots (E : FEngine) (SchemesObject : E.Json)
    (Schemes : List FColorizedFolderColorScheme) (Indices : List Nat) :
    Option (List FColorizedFolderColorScheme) :=
  match Indices with
  | [] => some Schemes
  | SchemeIndex :: Rest =>
    (LoadSchemeSlot E SchemesObject Schemes SchemeIndex).bind fun Schemes1 =>
      LoadSchemeSlots E SchemesObject Schemes1 Rest

/-- `UColorizedFoldersManager::LoadThemeFolderSchemes`: the theme after the call. -/
def LoadThemeFolderSchemes (E : FEngine)
    (DefaultColorSchemes : Fin NUM_FOLDER_SCHEMES → FColorizedFolderColorScheme)
    (Theme : FColorizedFolderTheme) : Option FColorizedFolderTheme :=
  let Theme1 : FColorizedFolderTheme :=
    if Theme.LoadedDefaultColorSchemes.isEmpty then
      { Theme with LoadedDefaultColorSchemes := MakeArrayView DefaultColorSchemes }
    else Theme
  match E.LoadFileToString Theme1.Filename with
  | some ThemeData =>
    match E.Deserialize ThemeData with
    | some ObjectPtr =>
      match E.TryGetObjectField ObjectPtr "Schemes" with
      | some SchemesObject =>
        (LoadSchemeSlots E SchemesObject Theme1.LoadedDefaultColorSchemes
          (List.range NUM_FOLDER_SCHEMES)).map fun Schemes =>
            { Theme1 with LoadedDefaultColorSchemes := Schemes }
      | none => some Theme1
    | none => some Theme1
  | none => some Theme1

/-- `SaveConfig()`: the config property `CurrentThemeId` is written. -/
def SaveConfig (M : UColorizedFoldersManager) : UColorizedFoldersManager :=
  { M with SavedConfigs := M.SavedConfigs ++ [M.CurrentThemeId] }

/-- The first block of `ApplyTheme` (`if (CurrentThemeId != ThemeId)`): the current theme
is unloaded and, when the new id is known, it becomes the current id. -/
def ApplyTheme.SwitchTheme (ThemeId : FGuid) (M : UColorizedFoldersManager) :
    Option UColorizedFoldersManager :=
  if M.CurrentThemeId ≠ ThemeId then
    -- Unload the current theme
    (if M.CurrentThemeId.IsValid then
      match FindByKey M.LoadedThemes M.CurrentThemeId with
      | some _ =>
        some { M with LoadedThemes :=
          (ModifyByKey M.LoadedThemes M.CurrentThemeId (fun CurrentTheme =>
            { CurrentTheme with LoadedDefaultColorSchemes := [] })) }
      | none => none
    else some M).map fun M1 =>
    -- Load the new theme
    match FindByKey M1.LoadedThemes ThemeId with
    | some _ => SaveConfig { M1 with CurrentThemeId := ThemeId }
    | none => M1
  else some M

/-- The second block of `ApplyTheme`: the schemes of the current theme are loaded and
copied into `ActiveSchemes`. -/
def ApplyTheme.LoadAndCopy (E : FEngine) (M : UColorizedFoldersManager) :
    Option UColorizedFoldersManager :=
  match FindByKey M.LoadedThemes M.CurrentThemeId with
  | some CurrentTheme =>
    (LoadThemeFolderSchemes E M.DefaultColorSchemes CurrentTheme).bind fun Loaded =>
    let M1 : UColorizedFoldersManager :=
      { M with LoadedThemes := ModifyByKey M.LoadedThemes M.CurrentThemeId (fun _ => Loaded) }
    -- Apply the new colors
    if Loaded.LoadedDefaultColorSchemes.length > 0 then
      if Loaded.LoadedDefaultColorSchemes.length ≤ NUM_FOLDER_SCHEMES then
        some { M1 with ActiveSchemes :=
          { M1.ActiveSchemes with
            Schemes := Memcpy M1.ActiveSchemes.Schemes Loaded.LoadedDefaultColorSchemes } }
      else none
    else some M1
  | none => none

/-- `UColorizedFoldersManager::ApplyTheme`. -/
def ApplyTheme (E : FEngine) (ThemeId : FGuid) (M : UColorizedFoldersManager) :
    Option UColorizedFoldersManager :=
  (if ThemeId.IsValid then
    (ApplyTheme.SwitchTheme ThemeId M).bind (ApplyTheme.LoadAndCopy E)
  else some M).map fun M1 =>
    { M1 with ThemeChangedBroadcasts := M1.ThemeChangedBroadcasts ++ [M1.CurrentThemeId] }

/-- `UColorizedFoldersManager::ApplyDefaultTheme`. -/
def ApplyDefaultTheme (E : FEngine) (M : UColorizedFoldersManager) :
    Option UColorizedFoldersManager :=
  ApplyTheme E M.DefaultTheme.Id M

/-- `UColorizedFoldersManager::LoadThemes`. -/
def LoadThemes (E : FEngine) (M : UColorizedFoldersManager) :
    Option UColorizedFoldersManager :=
  let M0 : UColorizedFoldersManager := { M with LoadedThemes := [] }
  -- Load themes from engine, project, and user directories
  let M1 := LoadThemesFromDirectory E (GetPluginThemeDir E) M0
  let M2 := LoadThemesFromDirectory E (GetEngineThemeDir E) M1
  let M3 := LoadThemesFromDirectory E (GetProjectThemeDir E) M2
  let M4 := LoadThemesFromDirectory E (GetUserThemeDir E) M3
  let M5 := EnsureValidCurrentTheme E M4
  ApplyTheme E M5.CurrentThemeId M5

/-- `UColorizedFoldersManager::RemoveTheme`. -/
def RemoveTheme (ThemeId : FGuid) (M : UColorizedFoldersManager) :
    UColorizedFoldersManager :=
  -- The Current Theme cannot currently be removed.  Apply a new theme first
  if M.CurrentThemeId ≠ ThemeId then
    { M with LoadedThemes := RemoveAll M.LoadedThemes ThemeId }
  else M

/-- `UColorizedFoldersManager::DuplicateActiveTheme`: the returned id and the manager
after the call. `NewThemeGuid` is the result of `FGuid::NewGuid()`. -/
def DuplicateActiveTheme (NewThemeGuid : FGuid) (M : UColorizedFoldersManager) :
    Option (FGuid × UColorizedFoldersManager) :=
  match FindByKey M.LoadedThemes M.CurrentThemeId with
  | some CurrentTheme =>
    let NewTheme : FColorizedFolderTheme :=
      { Id := NewThemeGuid
        DisplayName := CurrentTheme.DisplayName ++ " - Copy"
        LoadedDefaultColorSchemes := MakeArrayView M.ActiveSchemes.Schemes }
    some (NewThemeGuid, { M with LoadedThemes := M.LoadedThemes ++ [NewTheme] })
  | none => none

/-- `UColorizedFoldersManager::SetCurrentThemeDisplayName`. -/
def SetCurrentThemeDisplayName (NewDisplayName : String) (M : UColorizedFoldersManager) :
    Option UColorizedFoldersManager :=
  match FindByKey M.LoadedThemes M.CurrentThemeId with
  | some _ =>
    some { M with LoadedThemes :=
      (ModifyByKey M.LoadedThemes M.CurrentThemeId (fun CurrentTheme =>
        { CurrentTheme with DisplayName := NewDisplayName })) }
  | none => none

/-- The writer calls of `SaveCurrentThemeAs` for scheme slot `SchemeIndex`. -/
def SaveCurrentThemeAs.SchemeCalls (E : FEngine) (SchemeIndex : Nat)
    (Scheme : FColorizedFolderColorScheme) : List FJsonWriterCall :=
  [FJsonWriterCall.WriteObjectStartNamed (FromInt SchemeIndex),
   FJsonWriterCall.WriteValueString "SchemeColor" (E.ColorToString Scheme.SchemeColor),
   FJsonWriterCall.WriteArrayStart "FolderNames"]
  ++ (Scheme.ResolveFolderNames E).map FJsonWriterCall.WriteArrayValue
  ++ [FJsonWriterCall.WriteArrayEnd,
      FJsonWriterCall.WriteArrayStart "ExplicitPaths"]
  ++ (Scheme.ResolveExplicitPaths E).map FJsonWriterCall.WriteArrayValue
  ++ [FJsonWriterCall.WriteArrayEnd,
      FJsonWriterCall.WriteObjectEnd]

/-- The writer calls of `SaveCurrentThemeAs`, from `WriteObjectStart` to `Close`. -/
def SaveCurrentThemeAs.WriterCalls (E : FEngine) (CurrentTheme : FColorizedFolderTheme)
    (ActiveSchemes : FColorizedFolderColorSchemeList) : List FJsonWriterCall :=
  [FJsonWriterCall.WriteObjectStart,
   FJsonWriterCall.WriteValueInt "Version" 1,
   FJsonWriterCall.WriteValueString "Id" (E.GuidToString CurrentTheme.Id),
   FJsonWriterCall.WriteValueString "DisplayName" CurrentTheme.DisplayName,
   FJsonWriterCall.WriteObjectStartNamed "Schemes"]
  ++ (List.finRange NUM_FOLDER_SCHEMES).flatMap (fun SchemeIndex =>
        SaveCurrentThemeAs.SchemeCalls E SchemeIndex.val (ActiveSchemes.Schemes SchemeIndex))
  ++ [FJsonWriterCall.WriteObjectEnd,
      FJsonWriterCall.WriteObjectEnd,
      FJsonWriterCall.Close]

/-- `UColorizedFoldersManager::SaveCurrentThemeAs`: the manager after the call and the
file-system calls it issued, in order. -/
def SaveCurrentThemeAs (E : FEngine) (InFilename : String) (M : UColorizedFoldersManager) :
    Option (UColorizedFoldersManager × List FFileOp) :=
  match FindByKey M.LoadedThemes M.CurrentThemeId with
  | some Found =>
    let CurrentTheme : FColorizedFolderTheme := { Found with Filename := InFilename }
    let M1 : UColorizedFoldersManager :=
      { M with LoadedThemes := ModifyByKey M.LoadedThemes M.CurrentThemeId (fun Theme =>
          { Theme with Filename := InFilename }) }
    let Output := E.JsonWriterOutput (SaveCurrentThemeAs.WriterCalls E CurrentTheme M.ActiveSchemes)
    if E.FileExists InFilename then
      -- Create a new path if the filename has been changed.
      let NewPath := E.PathCombine (GetUserThemeDir E) CurrentTheme.DisplayName ++ ".json"
      if NewPath ≠ CurrentTheme.Filename then
        some (M1, [FFileOp.SetReadOnly InFilename false,
                   FFileOp.Move NewPath InFilename,
                   FFileOp.SaveStringToFile Output NewPath])
      else
        some (M1, [FFileOp.SetReadOnly InFilename false,
                   FFileOp.SaveStringToFile Output NewPath])
    else
      some (M1, [FFileOp.SaveStringToFile Output InFilename])
  | none => none

/-- `UColorizedFoldersManager::ValidateActiveTheme`. `ReloadedThemeId` is the value of
`CurrentThemeId` after `ReloadConfig()`. -/
def ValidateActiveTheme (E : FEngine) (ReloadedThemeId : FGuid)
    (M : UColorizedFoldersManager) : Option UColorizedFoldersManager :=
  let M1 := EnsureValidCurrentTheme E { M with CurrentThemeId := ReloadedThemeId }
  match FindByKey M1.LoadedThemes M1.CurrentThemeId with
  | some CurrentTheme => ApplyTheme E CurrentTheme.Id M1
  | none => none

/-! ## `ColorizedFoldersDetailCustomization.cpp` -/

/-- `SFolderColorThemeEditor::ValidateThemeName`: the returned flag and the text passed to
`EditableThemeName->SetError` (`none` when `SetError` is not called).
`CurrentActiveThemeDisplayName` is the file-level variable of that name. The statement
`if (1) return 1;` of the source precedes the loop over the themes. -/
def ValidateThemeName (M : UColorizedFoldersManager) (CurrentActiveThemeDisplayName : String)
    (ThemeName : String) : Bool × Option String :=
  if ThemeName = "" then
    (false, some "Theme name cannot be empty.")
  else if (1 : Nat) ≠ 0 then
    (true, none)
  else if M.LoadedThemes.any (fun Theme =>
      decide (Theme.DisplayName = ThemeName) &&
        !decide (CurrentActiveThemeDisplayName = ThemeName)) then
    (false, some ("A theme already exists with the name \x27" ++ ThemeName ++ "\x27."))
  else
    (true, some "")

/-- What `OnSaveClicked` leaves behind: the manager, the file-system calls in order, whether
`SaveCurrentThemeAs` was called (the window is then closed and `OnThemeEditorClosed` is
executed with `true`), and the text of the last `SetError` (`none` when not called). -/
structure FSaveClicked where
  Manager : UColorizedFoldersManager
  FileOps : List FFileOp
  bSaved : Bool
  Error : Option String

/-- The last block of `OnSaveClicked` (`if (!FileName.IsEmpty() && bSuccess)`), reached
with `bSuccess` true: the theme is saved and the previous file, when there is one at
another path, is deleted. -/
def OnSaveClicked.Save (E : FEngine) (FileName PrevFileName : String)
    (M : UColorizedFoldersManager) : Option FSaveClicked :=
  if FileName ≠ "" then
    (SaveCurrentThemeAs E FileName M).map fun Saved =>
      -- If the user modified an existing user-specific theme name, delete the old one.
      if PrevFileName ≠ "" ∧ PrevFileName ≠ FileName then
        { Manager := Saved.1
          FileOps := Saved.2 ++ [FFileOp.DeleteFile PrevFileName]
          bSaved := true
          Error := some "" }
      else
        { Manager := Saved.1, FileOps := Saved.2, bSaved := true, Error := some "" }
  else
    some { Manager := M, FileOps := [], bSaved := false, Error := some "" }

/-- `SFolderColorThemeEditor::OnSaveClicked`. `EditableThemeName` is the text of the name
box. `Theme` of the source is a reference to the current theme, so after
`SetCurrentThemeDisplayName` its `DisplayName` is read from the renamed entry. -/
def OnSaveClicked (E : FEngine) (CurrentActiveThemeDisplayName EditableThemeName : String)
    (M : UColorizedFoldersManager) : Option FSaveClicked :=
  match FindByKey M.LoadedThemes M.CurrentThemeId with
  | some Theme =>
    -- Update name is taken: Do not save.
    if (ValidateThemeName M CurrentActiveThemeDisplayName EditableThemeName).1 = false then
      some { Manager := M, FileOps := [], bSaved := false,
             Error := (ValidateThemeName M CurrentActiveThemeDisplayName EditableThemeName).2 }
    -- Duplicating a theme
    else if Theme.Filename = "" then
      (SetCurrentThemeDisplayName EditableThemeName M).bind fun M1 =>
        match FindByKey M1.LoadedThemes M1.CurrentThemeId with
        | some Renamed =>
          OnSaveClicked.Save E
            (E.PathCombine (GetUserThemeDir E) Renamed.DisplayName ++ ".json") "" M1
        | none => none
    -- Modifying a theme
    else
      (SetCurrentThemeDisplayName EditableThemeName M).bind fun M1 =>
        match FindByKey M1.LoadedThemes M1.CurrentThemeId with
        | some Renamed =>
          OnSaveClicked.Save E
            (E.PathCombine (GetUserThemeDir E) Renamed.DisplayName ++ ".json")
            Theme.Filename M1
        | none => none
  | none => none

/-- `FColorizedFoldersDetailCustomization::OnDeleteThemeClicked`: the manager after the call
and the file-system calls it issued. `bOk` tells whether the confirmation dialog returned
`EAppReturnType::Ok`. -/
def OnDeleteThemeClicked (E : FEngine) (bOk : Bool) (M : UColorizedFoldersManager) :
    Option (UColorizedFoldersManager × List FFileOp) :=
  match FindByKey M.LoadedThemes M.CurrentThemeId with
  | some PrevActiveTheme =>
    if bOk then
      -- Fallback to default theme
      (ApplyDefaultTheme E M).map fun M1 =>
        -- Remove the previously active theme
        (RemoveTheme PrevActiveTheme.Id M1,
          [FFileOp.Delete
            (E.PathCombine (GetUserThemeDir E) PrevActiveTheme.DisplayName ++ ".json")])
    else some (M, [])
  | none => none

/-! ## `ColorizedFoldersSettings.h` -/

/-- `UColorizedFoldersSettings`: the config properties read by the module, with the
initial values of the class. -/
structure UColorizedFoldersSettings where
  CurrentAppliedTheme : FGuid := {}
  bLiveUpdateFolders : Bool := true
deriving DecidableEq, Repr

/-- `UColorizedFoldersSettings::IsLiveUpdateFoldersEnabled`. -/
def UColorizedFoldersSettings.IsLiveUpdateFoldersEnabled
    (Settings : UColorizedFoldersSettings) : Bool :=
  Settings.bLiveUpdateFolders

/-! ## `ColorizedFoldersModule.cpp` -/

/-- `UColorizedFoldersManager::GetScheme` for an index of the loop
`for (int i = 0; i < NUM_FOLDER_SCHEMES; ++i)`. -/
def UColorizedFoldersManager.GetScheme (M : UColorizedFoldersManager)
    (Index : Fin NUM_FOLDER_SCHEMES) : FColorizedFolderColorScheme :=
  M.ActiveSchemes.Schemes Index

/-- The state of a colorization pass: the local array `Tracking` of
`RequestFolderColorUpdate`, and the colour assignments made so far (folder path and colour),
oldest first. -/
structure FColorizePass where
  Tracking : List String
  PathColors : List (String × FLinearColor)
deriving DecidableEq, Repr

/-- Modelled from the spec: the leaf name of a discovered folder path (§4.2, rule 2), which
`ColorizedFoldersUtils.h`, not among the source files, computes. A discovered path is the
root name followed by the folders below the content root, separated by `/` (§4.3, §8:
`Game/Art`); the leaf name is the last component. -/
def LeafName (FolderPath : String) : String :=
  String.mk (((FolderPath.data.splitOn '/').getLast?).getD [])

/-- Modelled from the spec: the path of a discovered folder relative to its content root
(§4.2, rule 1), which `ColorizedFoldersUtils.h`, not among the source files, computes: the
discovered path without its first component, the root name. -/
def RootRelativePath (FolderPath : String) : String :=
  String.mk (['/'].intercalate ((FolderPath.data.splitOn '/').drop 1))

/-- Modelled from the spec: the matching rules of one scheme (§4.2), which
`ColorizedFoldersUtils.h`, not among the source files, implements. Rule 1, explicit path
match: the folder's path relative to its content root equals one of the scheme's explicit
paths. Rule 2, folder-name match: the leaf name of the folder equals one of the scheme's
folder names. The comparisons are case-sensitive. -/
def SchemeMatches (E : FEngine) (Scheme : FColorizedFolderColorScheme)
    (FolderPath : String) : Bool :=
  (Scheme.ResolveExplicitPaths E).contains (RootRelativePath FolderPath) ||
    (Scheme.ResolveFolderNames E).contains (LeafName FolderPath)

/-- Modelled from the spec: `MatchColor(folderPath, themeSchemes)` of §4.2, the contract of
the scheme resolver, whose code is not among the source files. The schemes are evaluated in
array order, index 0 first; the first scheme that matches by either rule gives the colour;
a folder matching no scheme yields no colour. -/
def MatchColor (E : FEngine)
    (ThemeSchemes : Fin NUM_FOLDER_SCHEMES → FColorizedFolderColorScheme)
    (FolderPath : String) : Option FLinearColor :=
  ((List.ofFn ThemeSchemes).find? (fun Scheme => SchemeMatches E Scheme FolderPath)).map
    (fun Scheme => Scheme.SchemeColor)

/-- Modelled from the spec: the body of the loop of `ColorizeDirsAccordingToScheme` for one
discovered path (§4.3). Every discovered path is accumulated into the tracking set before
any colour is assigned; a path that is still accumulated there and is matched by the
scheme's rules is given the scheme's colour and is removed from the tracking set as it is
assigned, so that a later scheme cannot override a colour applied by an earlier slot; any
other path is left as it is. -/
def ColorizeDir (E : FEngine) (Scheme : FColorizedFolderColorScheme)
    (Pass : FColorizePass) (Dir : String) : FColorizePass :=
  if Pass.Tracking.contains Dir && SchemeMatches E Scheme Dir then
    { Tracking := Pass.Tracking.filter (fun Tracked => Tracked != Dir)
      PathColors := Pass.PathColors ++ [(Dir, Scheme.SchemeColor)] }
  else Pass

/-- Modelled from the spec: `ColorizeDirsAccordingToScheme(Dirs, Scheme, Tracking)` of
`ColorizedFoldersUtils.h`, which is not among the source files; only its call in
`RequestFolderColorUpdate` is. §4.3: for one scheme slot, every accumulated path matched by
the scheme's rules is colorized, and newly coloured paths are removed from the tracking set
as they are assigned. -/
def ColorizeDirsAccordingToScheme (E : FEngine) (Dirs : List String)
    (Scheme : FColorizedFolderColorScheme) (Pass : FColorizePass) : FColorizePass :=
  Dirs.foldl (ColorizeDir E Scheme) Pass

/-- `FColorizedFoldersModule::RequestFolderColorUpdate`, from `// Colorize the folders` on.
`Dirs` is the array the directory iterator has filled while the content directories of the
project and of the plugins were scanned. -/
def RequestFolderColorUpdate (E : FEngine) (Dirs : List String)
    (M : UColorizedFoldersManager) : FColorizePass :=
  (List.finRange NUM_FOLDER_SCHEMES).foldl
    (fun Pass I => ColorizeDirsAccordingToScheme E Dirs (M.GetScheme I) Pass)
    { Tracking := Dirs, PathColors := [] }

/-- `FContentBrowserItemDataUpdate` as the module reads it: `GetItemData().IsFolder()`. -/
structure FContentBrowserItemDataUpdate where
  IsFolder : Bool
deriving DecidableEq, Repr

/-- The loop of `OnItemDataUpdated` over the updated items: the passes it has run. The loop
returns after the first folder. -/
def OnItemDataUpdated.Loop (E : FEngine) (Dirs : List String) (M : UColorizedFoldersManager)
    (DataUpdates : List FContentBrowserItemDataUpdate) : List FColorizePass :=
  match DataUpdates with
  | [] => []
  | Data :: Rest =>
    if Data.IsFolder then [RequestFolderColorUpdate E Dirs M]
    else OnItemDataUpdated.Loop E Dirs M Rest

/-- `FColorizedFoldersModule::OnItemDataUpdated`: the colorization passes the call has run,
each with its result. -/
def OnItemDataUpdated (E : FEngine) (Settings : UColorizedFoldersSettings)
    (Dirs : List String) (M : UColorizedFoldersManager)
    (DataUpdates : List FContentBrowserItemDataUpdate) : List FColorizePass :=
  if !Settings.IsLiveUpdateFoldersEnabled then []
  -- Request a folder update if any of the items are folders
  else OnItemDataUpdated.Loop E Dirs M DataUpdates

/-- `FColorizedFoldersModule::OnRequestUpdate`, the handler of `OnThemeChanged`: the
colorization passes the call has run. -/
def OnRequestUpdate (E : FEngine) (Settings : UColorizedFoldersSettings)
    (Dirs : List String) (M : UColorizedFoldersManager) (_Id : FGuid) :
    List FColorizePass :=
  if !Settings.IsLiveUpdateFoldersEnabled then []
  else [RequestFolderColorUpdate E Dirs M]

/-! ## A concrete engine for the examples -/

/-- A JSON value of the example engine. -/
inductive FJsonValue where
  | Number (Value : Int)
  | Text (Value : String)
  | TextArray (Values : List String)
  | Object (Fields : List (String × FJsonValue))

/-- The value of a field of a JSON object of the example engine. -/
def FJsonValue.Lookup (Fields : List (String × FJsonValue)) (Name : String) :
    Option FJsonValue :=
  match Fields with
  | [] => none
  | (Key, Value) :: Rest => if Key = Name then some Value else FJsonValue.Lookup Rest Name

/-- The value bound to a key in a table of the example engine. -/
def TableLookup {α : Type} (Table : List (String × α)) (Name : String) : Option α :=
  match Table with
  | [] => none
  | (Key, Value) :: Rest => if Key = Name then some Value else TableLookup Rest Name

/-- An engine for the examples. `Listing` gives the file names of each directory, `Files` the
content of each readable file, `Documents` the JSON object each well-formed text parses to,
`Guids` the id each well-formed id string parses to. Fields are read strictly by type;
paths are joined with a slash. -/
def ExampleEngine (Listing : List (String × List String)) (Files : List (String × String))
    (Documents : List (String × List (String × FJsonValue)))
    (Guids : List (String × FGuid)) : FEngine where
  Json := List (String × FJsonValue)
  FindFiles := fun Directory _ => (TableLookup Listing Directory).getD []
  LoadFileToString := fun Filename => TableLookup Files Filename
  FileExists := fun Filename => (TableLookup Files Filename).isSome
  Deserialize := fun Data => TableLookup Documents Data
  TryGetNumberField := fun Object Name =>
    match FJsonValue.Lookup Object Name with
    | some (FJsonValue.Number Value) => some Value
    | _ => none
  TryGetStringField := fun Object Name =>
    match FJsonValue.Lookup Object Name with
    | some (FJsonValue.Text Value) => some Value
    | _ => none
  HasField := fun Object Name => (FJsonValue.Lookup Object Name).isSome
  TryGetObjectField := fun Object Name =>
    match FJsonValue.Lookup Object Name with
    | some (FJsonValue.Object Fields) => some Fields
    | _ => none
  TryGetStringArrayField := fun Object Name =>
    match FJsonValue.Lookup Object Name with
    | some (FJsonValue.TextArray Values) => some Values
    | _ => none
  JsonWriterOutput := fun _ => "theme document"
  GuidParse := fun Text => TableLookup Guids Text
  GuidToString := fun _ => ""
  InitFromString := fun Color _ => Color
  ColorToString := fun _ => ""
  PathCombine := fun A B => A ++ "/" ++ B
  SortStrings := fun Names => Names
  EngineContentDir := "Engine"
  ProjectContentDir := "Project"
  UserSettingsDir := "User"
  EpicProductIdentifier := "Editor"
  PluginContentDir := "Plugin"
  PluginBaseDir := "Base"

/-- The id strings of the examples. -/
def ExampleGuids : List (String × FGuid) :=
  [("00000000-0000-0000-0000-000000000001", { D := 1 }),
   ("00000000-0000-0000-0000-000000000002", { D := 2 })]

/-- A theme document with all four fields: `Version` 1, id 1, name `T1`, empty `Schemes`. -/
def ExampleDocT1 : List (String × FJsonValue) :=
  [("Version", FJsonValue.Number 1),
   ("Id", FJsonValue.Text "00000000-0000-0000-0000-000000000001"),
   ("DisplayName", FJsonValue.Text "T1"),
   ("Schemes", FJsonValue.Object [])]

/-- A theme document with `Version`, id 2 and name `T2`, and no `Schemes` field. -/
def ExampleDocNoSchemes : List (String × FJsonValue) :=
  [("Version", FJsonValue.Number 1),
   ("Id", FJsonValue.Text "00000000-0000-0000-0000-000000000002"),
   ("DisplayName", FJsonValue.Text "T2")]

/-- The text of `ExampleDocT1`. -/
def ExampleTextT1 : String :=
  "\x7b\"Version\":1,\"Id\":\"00000000-0000-0000-0000-000000000001\",\"DisplayName\":\"T1\",\"Schemes\":\x7b\x7d\x7d"

/-- The text of `ExampleDocNoSchemes`. -/
def ExampleTextNoSchemes : String :=
  "\x7b\"Version\":1,\"Id\":\"00000000-0000-0000-0000-000000000002\",\"DisplayName\":\"T2\"\x7d"

/-- The texts of the example documents. -/
def ExampleDocuments : List (String × List (String × FJsonValue)) :=
  [(ExampleTextT1, ExampleDocT1), (ExampleTextNoSchemes, ExampleDocNoSchemes)]

/-- The per-user theme directory of the example engine. -/
def ExampleUserDir : String := "User/Editor/Slate/Themes/ContentBrowser"

/-- The plugin theme directory of the example engine. -/
def ExamplePluginDir : String := "Plugin/Slate/Themes/ContentBrowser"

/-- An engine whose per-user theme directory lists four files: `T1.json` (a theme with all
four fields), `T2.json` (no `Schemes` field), `Broken.json` (readable, not JSON) and
`Locked.json` (not readable). The other directories are empty. -/
def ExampleUserEngine : FEngine :=
  ExampleEngine
    [(ExampleUserDir, ["T1.json", "T2.json", "Broken.json", "Locked.json"])]
    [("User/Editor/Slate/Themes/ContentBrowser/T1.json", ExampleTextT1),
     ("User/Editor/Slate/Themes/ContentBrowser/T2.json", ExampleTextNoSchemes),
     ("User/Editor/Slate/Themes/ContentBrowser/Broken.json", "not json")]
    ExampleDocuments ExampleGuids

/-- A manager as the constructor leaves it (`InitDefaults`: every default scheme is a
default-constructed scheme; no theme loaded, nothing broadcast), with the config value
`ConfigThemeId` in `CurrentThemeId`. -/
def ExampleManager (ConfigThemeId : FGuid) : UColorizedFoldersManager where
  DefaultTheme := {}
  LoadedThemes := []
  DefaultColorSchemes := fun _ => {}
  CurrentThemeId := ConfigThemeId
  ActiveSchemes := { Schemes := fun _ => {}, DisplayNames := fun _ => "" }
  ThemeChangedBroadcasts := []
  SavedConfigs := []

/-- A theme entry with id 1 as a scan of the plugin directory would have left it. -/
def ExamplePluginT1 : FColorizedFolderTheme :=
  { Id := { D := 1 }, DisplayName := "Plugin T1",
    Filename := "Plugin/Slate/Themes/ContentBrowser/T1.json" }

/-- A manager after a load with the example engine: the theme list holds the built-in
entry and the theme of `T1.json`, and the built-in theme is the current one. -/
def ExampleLoaded : UColorizedFoldersManager :=
  { ExampleManager DefaultThemeId with
    ThemeChangedBroadcasts := [DefaultThemeId]
    DefaultTheme :=
      { Id := DefaultThemeId, DisplayName := "No Theme",
        Filename := "Base/Resources/Themes/NoTheme.json" }
    LoadedThemes :=
      [{ Id := { D := 1 }, DisplayName := "T1",
         Filename := "User/Editor/Slate/Themes/ContentBrowser/T1.json" },
       { Id := DefaultThemeId, DisplayName := "No Theme",
         Filename := "Base/Resources/Themes/NoTheme.json",
         LoadedDefaultColorSchemes := MakeArrayView (fun _ => {}) }] }

/-! ## Notions used by the statements -/

/-- The theme the loop of `LoadThemesFromDirectory` obtains from file `ThemeFile` of
`Directory`: `some` when `LoadFileToString` succeeds and `ReadTheme` returns true (a valid
theme file), `none` when the file is skipped. -/
def ReadThemeFile (E : FEngine) (Directory ThemeFile : String) :
    Option FColorizedFolderTheme :=
  match E.LoadFileToString (E.PathCombine Directory ThemeFile) with
  | some ThemeData =>
    match ReadTheme E ThemeData {} with
    | (true, Theme) => some Theme
    | (false, _) => none
  | none => none

/-- The theme id of a valid theme file, `none` for a file that is skipped. -/
def ThemeFileId (E : FEngine) (Directory ThemeFile : String) : Option FGuid :=
  (ReadThemeFile E Directory ThemeFile).map (fun Theme => Theme.Id)

/-- The calls of `LoadThemesFromDirectory` that `LoadThemes` makes, for any ordered list of
directories. -/
def ScanDirectories (E : FEngine) (Directories : List String)
    (M : UColorizedFoldersManager) : UColorizedFoldersManager :=
  Directories.foldl (fun M1 Directory => LoadThemesFromDirectory E Directory M1) M


/-- The `Schemes` object `LoadThemeFolderSchemes` finds in the file `Filename`: `none` when
the file cannot be read, is not a JSON object, or has no object field `Schemes`. -/
def ThemeFileSchemes (E : FEngine) (Filename : String) : Option E.Json :=
  match E.LoadFileToString Filename with
  | some ThemeData =>
    match E.Deserialize ThemeData with
    | some ObjectPtr => E.TryGetObjectField ObjectPtr "Schemes"
    | none => none
  | none => none

/-- The size invariant of the scheme arrays of a theme list: every theme's
`LoadedDefaultColorSchemes` is empty (not loaded) or has `NUM_FOLDER_SCHEMES` slots. -/
def SchemeArraysSized (Themes : List FColorizedFolderTheme) : Prop :=
  ∀ T ∈ Themes, T.LoadedDefaultColorSchemes.length = 0 ∨
    T.LoadedDefaultColorSchemes.length = NUM_FOLDER_SCHEMES

/-- The states of the manager that are reachable from `LoadThemes` by `ApplyTheme`,
`ApplyDefaultTheme`, `RemoveTheme`, `DuplicateActiveTheme`, `SetCurrentThemeDisplayName` and
`SaveCurrentThemeAs`. `LoadThemes` may start from any manager state; the engine (file
system included) may be a different one at each call; a call that faults has no
successor state. -/
inductive Reachable : UColorizedFoldersManager → Prop where
  | LoadThemes (E : FEngine) (M0 M : UColorizedFoldersManager) :
      LoadThemes E M0 = some M → Reachable M
  | ApplyTheme (E : FEngine) (ThemeId : FGuid) (M M1 : UColorizedFoldersManager) :
      Reachable M → ApplyTheme E ThemeId M = some M1 → Reachable M1
  | ApplyDefaultTheme (E : FEngine) (M M1 : UColorizedFoldersManager) :
      Reachable M → ApplyDefaultTheme E M = some M1 → Reachable M1
  | RemoveTheme (ThemeId : FGuid) (M : UColorizedFoldersManager) :
      Reachable M → Reachable (RemoveTheme ThemeId M)
  | DuplicateActiveTheme (NewThemeGuid : FGuid) (M : UColorizedFoldersManager)
      (Result : FGuid × UColorizedFoldersManager) :
      Reachable M → DuplicateActiveTheme NewThemeGuid M = some Result → Reachable Result.2
  | SetCurrentThemeDisplayName (NewDisplayName : String) (M M1 : UColorizedFoldersManager) :
      Reachable M → SetCurrentThemeDisplayName NewDisplayName M = some M1 → Reachable M1
  | SaveCurrentThemeAs (E : FEngine) (InFilename : String) (M : UColorizedFoldersManager)
      (Result : UColorizedFoldersManager × List FFileOp) :
      Reachable M → SaveCurrentThemeAs E InFilename M = some Result → Reachable Result.1

/-- A state in which a theme other than the built-in one is current: `ExampleLoaded` after
the theme of `T1.json` was applied. -/
def ExampleT1Active : UColorizedFoldersManager :=
  { ExampleLoaded with
    CurrentThemeId := { D := 1 }
    LoadedThemes :=
      [{ Id := { D := 1 }, DisplayName := "T1",
         Filename := "User/Editor/Slate/Themes/ContentBrowser/T1.json",
         LoadedDefaultColorSchemes := MakeArrayView (fun _ => {}) },
       { Id := DefaultThemeId, DisplayName := "No Theme",
         Filename := "Base/Resources/Themes/NoTheme.json" }]
    ThemeChangedBroadcasts := [DefaultThemeId, { D := 1 }]
    SavedConfigs := [{ D := 1 }] }

/-- A model of the files the engine's file calls act on: the content of every existing
file, and the paths at which a write succeeds. -/
structure FFileSystem where
  Files : String → Option String
  Writable : String → Bool

/-- The file system after one file-system call. `SaveStringToFile` and `Move` change nothing
when the destination cannot be written; `Move` needs the source to exist; `SetReadOnly`
changes no content. -/
def FFileSystem.Apply (FS : FFileSystem) (Op : FFileOp) : FFileSystem :=
  match Op with
  | FFileOp.SetReadOnly _ _ => FS
  | FFileOp.Move Dest Src =>
    match FS.Files Src with
    | some Content =>
      if FS.Writable Dest then
        { FS with Files := fun Path =>
            if Path = Dest then some Content else if Path = Src then none else FS.Files Path }
      else FS
    | none => FS
  | FFileOp.SaveStringToFile Content Filename =>
    if FS.Writable Filename then
      { FS with Files := fun Path => if Path = Filename then some Content else FS.Files Path }
    else FS
  | FFileOp.Delete Filename =>
    { FS with Files := fun Path => if Path = Filename then none else FS.Files Path }
  | FFileOp.DeleteFile Filename =>
    { FS with Files := fun Path => if Path = Filename then none else FS.Files Path }

/-- The file system after a sequence of file-system calls. -/
def FFileSystem.Run (FS : FFileSystem) (Ops : List FFileOp) : FFileSystem :=
  Ops.foldl FFileSystem.Apply FS

/-- The engine whose file queries (`FileExists`, `LoadFileToString`) are answered by the
file system `FS`. -/
def FEngine.OnFiles (E : FEngine) (FS : FFileSystem) : FEngine :=
  { E with
    FileExists := fun Filename => (FS.Files Filename).isSome
    LoadFileToString := FS.Files }

/-- The key a writer call opens a named object under, if it opens one. -/
def FJsonWriterCall.ObjectKey (Call : FJsonWriterCall) : Option String :=
  match Call with
  | FJsonWriterCall.WriteObjectStartNamed Identifier => some Identifier
  | _ => none

/-- An engine whose plugin theme directory holds `T1.json`, the theme with id 1 and name
`T1`; the other directories are empty. -/
def ExamplePluginEngine : FEngine :=
  ExampleEngine
    [(ExamplePluginDir, ["T1.json"])]
    [("Plugin/Slate/Themes/ContentBrowser/T1.json", ExampleTextT1)]
    ExampleDocuments ExampleGuids

/-- A file system with one file, `Export/Copy.json`, in which every write succeeds. -/
def ExampleExportFiles : FFileSystem where
  Files := fun Path => if Path = "Export/Copy.json" then some "old" else none
  Writable := fun _ => true

/-- A file system that holds the per-user file of the theme `T1` and in which the write to
the per-user file `Renamed.json` fails. -/
def ExampleFailingWriteFiles : FFileSystem where
  Files := fun Path =>
    if Path = "User/Editor/Slate/Themes/ContentBrowser/T1.json" then some ExampleTextT1
    else none
  Writable := fun Path =>
    decide (Path ≠ "User/Editor/Slate/Themes/ContentBrowser/Renamed.json")

/-- The colour a folder path holds after the colour assignments `PathColors`, made in this
order, when it held none before: the colour of the last assignment to the path, `none` when
no assignment names the path. -/
def PathColorAfter (PathColors : List (String × FLinearColor)) (FolderPath : String) :
    Option FLinearColor :=
  ((PathColors.filter (fun Call => Call.1 == FolderPath)).getLast?).map (fun Call => Call.2)

/-- The active scheme array with the slots `I` and `J` exchanged. -/
def SwapSchemes (Schemes : Fin NUM_FOLDER_SCHEMES → FColorizedFolderColorScheme)
    (I J : Fin NUM_FOLDER_SCHEMES) : Fin NUM_FOLDER_SCHEMES → FColorizedFolderColorScheme :=
  fun K => if K = I then Schemes J else if K = J then Schemes I else Schemes K

/-- A name has no leading and no trailing whitespace: its first and its last character, if
any, are not whitespace. -/
def IsTrimmed (Name : String) : Bool :=
  (Name.data.head?.all fun Ch => !Ch.isWhitespace) &&
    (Name.data.getLast?.all fun Ch => !Ch.isWhitespace)

/-- The theme document of the scenario of the spec: the theme `T1` with id 1 whose scheme 0
has the colour string `(R=1,G=0,B=0,A=1)`, the folder name `Art` and no explicit path. -/
def ExampleDocArt : List (String × FJsonValue) :=
  [("Version", FJsonValue.Number 1),
   ("Id", FJsonValue.Text "00000000-0000-0000-0000-000000000001"),
   ("DisplayName", FJsonValue.Text "T1"),
   ("Schemes", FJsonValue.Object
      [("0", FJsonValue.Object
        [("SchemeColor", FJsonValue.Text "(R=1,G=0,B=0,A=1)"),
         ("FolderNames", FJsonValue.TextArray ["Art"]),
         ("ExplicitPaths", FJsonValue.TextArray [])])])]

/-- The text of `ExampleDocArt`. -/
def ExampleTextArt : String :=
  "\x7b\"Version\":1,\"Id\":\"00000000-0000-0000-0000-000000000001\",\"DisplayName\":\"T1\",\"Schemes\":\x7b\"0\":\x7b\"SchemeColor\":\"(R=1,G=0,B=0,A=1)\",\"FolderNames\":[\"Art\"],\"ExplicitPaths\":[]\x7d\x7d\x7d"

/-- Red, the colour of the string `(R=1,G=0,B=0,A=1)`. -/
def ExampleRed : FLinearColor := { R := 1, G := 0, B := 0, A := 1 }

/-- Green, the colour of the string `(R=0,G=1,B=0,A=1)`. -/
def ExampleGreen : FLinearColor := { R := 0, G := 1, B := 0, A := 1 }

/-- An engine whose per-user theme directory holds `T1.json` with the text of
`ExampleDocArt`, and whose `InitFromString` reads the colour string of red. -/
def ExampleArtEngine : FEngine :=
  { ExampleEngine
      [(ExampleUserDir, ["T1.json"])]
      [("User/Editor/Slate/Themes/ContentBrowser/T1.json", ExampleTextArt)]
      [(ExampleTextArt, ExampleDocArt)]
      ExampleGuids with
    InitFromString := fun Color ColorString =>
      if ColorString = "(R=1,G=0,B=0,A=1)" then ExampleRed else Color }

/-- The state `ExampleT1Active` with two active schemes that both name the folder `Art`:
scheme 0 is red, scheme 1 is green and also names the folder `Maps`. -/
def ExampleTwoMatching : UColorizedFoldersManager :=
  { ExampleT1Active with
    ActiveSchemes :=
      { Schemes := fun I =>
          if I.val = 0 then { FolderNames := "Art", SchemeColor := ExampleRed }
          else if I.val = 1 then { FolderNames := "Art,Maps", SchemeColor := ExampleGreen }
          else {}
        DisplayNames := fun _ => "" } }

/-- The discovered folders of the examples. -/
def ExampleDirs : List String := ["Game", "Game/Art", "Game/Design", "Game/Maps"]

/-- The states of the manager in a run of the plugin. The constructor leaves the member
`DefaultTheme` default-constructed and no function of the plugin writes its scheme array,
so the first `LoadThemes` starts in a state whose `DefaultTheme` has an empty scheme array;
every other member may hold anything there (`CurrentThemeId` is read from the config).
From the state `LoadThemes` returns, the steps are `LoadThemes` again, `ApplyTheme`,
`ApplyDefaultTheme`, `RemoveTheme`, `DuplicateActiveTheme`, `SetCurrentThemeDisplayName` and
`SaveCurrentThemeAs`; the engine may be a different one at each call, and a call that
faults has no successor state. -/
inductive ReachableFromConstructor : UColorizedFoldersManager → Prop where
  | Startup (E : FEngine) (M0 M : UColorizedFoldersManager) :
      M0.DefaultTheme.LoadedDefaultColorSchemes = [] → LoadThemes E M0 = some M →
      ReachableFromConstructor M
  | LoadThemes (E : FEngine) (M M1 : UColorizedFoldersManager) :
      ReachableFromConstructor M → LoadThemes E M = some M1 → ReachableFromConstructor M1
  | ApplyTheme (E : FEngine) (ThemeId : FGuid) (M M1 : UColorizedFoldersManager) :
      ReachableFromConstructor M → ApplyTheme E ThemeId M = some M1 →
      ReachableFromConstructor M1
  | ApplyDefaultTheme (E : FEngine) (M M1 : UColorizedFoldersManager) :
      ReachableFromConstructor M → ApplyDefaultTheme E M = some M1 →
      ReachableFromConstructor M1
  | RemoveTheme (ThemeId : FGuid) (M : UColorizedFoldersManager) :
      ReachableFromConstructor M → ReachableFromConstructor (RemoveTheme ThemeId M)
  | DuplicateActiveTheme (NewThemeGuid : FGuid) (M : UColorizedFoldersManager)
      (Result : FGuid × UColorizedFoldersManager) :
      ReachableFromConstructor M → DuplicateActiveTheme NewThemeGuid M = some Result →
      ReachableFromConstructor Result.2
  | SetCurrentThemeDisplayName (NewDisplayName : String) (M M1 : UColorizedFoldersManager) :
      ReachableFromConstructor M → SetCurrentThemeDisplayName NewDisplayName M = some M1 →
      ReachableFromConstructor M1
  | SaveCurrentThemeAs (E : FEngine) (InFilename : String) (M : UColorizedFoldersManager)
      (Result : UColorizedFoldersManager × List FFileOp) :
      ReachableFromConstructor M → SaveCurrentThemeAs E InFilename M = some Result →
      ReachableFromConstructor Result.1

/-- Blue, the colour of the string `(R=0,G=0,B=1,A=1)`. -/
def ExampleBlue : FLinearColor := { R := 0, G := 0, B := 1, A := 1 }

/-- The state `ExampleT1Active` with three active schemes that all name the folder `Art`:
scheme 0 is red, scheme 1 is green, scheme 2 is blue. -/
def ExampleThreeMatching : UColorizedFoldersManager :=
  { ExampleT1Active with
    ActiveSchemes :=
      { Schemes := fun I =>
          if I.val = 0 then { FolderNames := "Art", SchemeColor := ExampleRed }
          else if I.val = 1 then { FolderNames := "Art", SchemeColor := ExampleGreen }
          else if I.val = 2 then { FolderNames := "Art", SchemeColor := ExampleBlue }
          else {}
        DisplayNames := fun _ => "" } }

/-! ## Lemmas on the theme list -/

theorem FindByKey_eq_none_iff (Themes : List FColorizedFolderTheme) (Key : FGuid) :
    FindByKey Themes Key = none ↔ ∀ T ∈ Themes, T.Id ≠ Key := by
  induction Themes with
  | nil => simp [FindByKey]
  | cons T Rest ih =>
    by_cases h : T.Id = Key
    · simp [FindByKey, h]
    · simp [FindByKey, h, ih]

theorem FindByKey_some {Themes : List FColorizedFolderTheme} {Key : FGuid}
    {Found : FColorizedFolderTheme} (h : FindByKey Themes Key = some Found) :
    Found ∈ Themes ∧ Found.Id = Key := by
  induction Themes with
  | nil => simp [FindByKey] at h
  | cons T Rest ih =>
    by_cases hk : T.Id = Key
    · simp [FindByKey, hk] at h
      subst h
      exact ⟨List.mem_cons_self _ _, hk⟩
    · simp [FindByKey, hk] at h
      exact ⟨List.mem_cons_of_mem _ (ih h).1, (ih h).2⟩

theorem FindByKey_isSome_iff (Themes : List FColorizedFolderTheme) (Key : FGuid) :
    (FindByKey Themes Key).isSome = true ↔ ∃ T ∈ Themes, T.Id = Key := by
  constructor
  · intro h
    obtain ⟨Found, hF⟩ := Option.isSome_iff_exists.mp h
    exact ⟨Found, FindByKey_some hF⟩
  · rintro ⟨T, hT, hId⟩
    cases hF : FindByKey Themes Key with
    | some _ => rfl
    | none => exact absurd hId ((FindByKey_eq_none_iff Themes Key).mp hF T hT)

theorem ModifyByKey_split {Themes : List FColorizedFolderTheme} {Key : FGuid}
    {Found : FColorizedFolderTheme} (Fn : FColorizedFolderTheme → FColorizedFolderTheme)
    (h : FindByKey Themes Key = some Found) :
    ∃ Before After, Themes = Before ++ Found :: After ∧ (∀ T ∈ Before, T.Id ≠ Key) ∧
      ModifyByKey Themes Key Fn = Before ++ Fn Found :: After := by
  induction Themes with
  | nil => simp [FindByKey] at h
  | cons T Rest ih =>
    by_cases hk : T.Id = Key
    · simp [FindByKey, hk] at h
      subst h
      exact ⟨[], Rest, rfl, by simp, by simp [ModifyByKey, hk]⟩
    · simp [FindByKey, hk] at h
      obtain ⟨Before, After, h1, h2, h3⟩ := ih h
      refine ⟨T :: Before, After, by simp [h1], ?_, by simp [ModifyByKey, hk, h3]⟩
      intro X hX
      rcases List.mem_cons.mp hX with rfl | hX
      · exact hk
      · exact h2 X hX

theorem ModifyByKey_map_Id (Themes : List FColorizedFolderTheme) (Key : FGuid)
    (Fn : FColorizedFolderTheme → FColorizedFolderTheme)
    (hFn : ∀ T, T.Id = Key → (Fn T).Id = Key) :
    (ModifyByKey Themes Key Fn).map (fun T => T.Id) = Themes.map (fun T => T.Id) := by
  induction Themes with
  | nil => rfl
  | cons T Rest ih =>
    by_cases hk : T.Id = Key
    · simp [ModifyByKey, hk, hFn T hk]
    · simp [ModifyByKey, hk, ih]

theorem mem_ModifyByKey {Themes : List FColorizedFolderTheme} {Key : FGuid}
    {Fn : FColorizedFolderTheme → FColorizedFolderTheme} {T : FColorizedFolderTheme}
    (h : T ∈ ModifyByKey Themes Key Fn) :
    T ∈ Themes ∨ ∃ T0 ∈ Themes, T0.Id = Key ∧ T = Fn T0 := by
  induction Themes with
  | nil => simp [ModifyByKey] at h
  | cons X Rest ih =>
    by_cases hk : X.Id = Key
    · simp only [ModifyByKey, hk, if_true] at h
      rcases List.mem_cons.mp h with h | h
      · exact Or.inr ⟨X, List.mem_cons_self _ _, hk, h⟩
      · exact Or.inl (List.mem_cons_of_mem _ h)
    · simp only [ModifyByKey, hk, if_false] at h
      rcases List.mem_cons.mp h with h | h
      · exact Or.inl (h ▸ List.mem_cons_self _ _)
      · rcases ih h with h | ⟨T0, h0, h1, h2⟩
        · exact Or.inl (List.mem_cons_of_mem _ h)
        · exact Or.inr ⟨T0, List.mem_cons_of_mem _ h0, h1, h2⟩

theorem FindByKey_ModifyByKey_ne (Themes : List FColorizedFolderTheme) (Key Other : FGuid)
    (Fn : FColorizedFolderTheme → FColorizedFolderTheme)
    (hFn : ∀ T, T.Id = Key → (Fn T).Id = Key) (hNe : Key ≠ Other) :
    FindByKey (ModifyByKey Themes Key Fn) Other = FindByKey Themes Other := by
  induction Themes with
  | nil => rfl
  | cons T Rest ih =>
    by_cases hk : T.Id = Key
    · have h1 : ¬ (Fn T).Id = Other := by rw [hFn T hk]; exact hNe
      have h2 : ¬ T.Id = Other := by rw [hk]; exact hNe
      simp [ModifyByKey, FindByKey, hk, h1, hNe]
    · by_cases ho : T.Id = Other
      · have hk1 : ¬ Other = Key := fun h => hk (ho.trans h)
        simp [ModifyByKey, FindByKey, ho, hk1]
      · simp [ModifyByKey, FindByKey, hk, ho, ih]

theorem FindByKey_ModifyByKey_self (Themes : List FColorizedFolderTheme) (Key : FGuid)
    (Fn : FColorizedFolderTheme → FColorizedFolderTheme)
    (hFn : ∀ T, T.Id = Key → (Fn T).Id = Key) :
    FindByKey (ModifyByKey Themes Key Fn) Key = (FindByKey Themes Key).map Fn := by
  induction Themes with
  | nil => rfl
  | cons T Rest ih =>
    by_cases hk : T.Id = Key
    · simp [ModifyByKey, FindByKey, hk, hFn T hk]
    · simp [ModifyByKey, FindByKey, hk, ih]

theorem LoadThemeFile_eq (E : FEngine) (Directory : String)
    (LoadedThemes : List FColorizedFolderTheme) (ThemeFile : String) :
    LoadThemeFile E Directory LoadedThemes ThemeFile =
      match ReadThemeFile E Directory ThemeFile with
      | some Theme =>
        match FindByKey LoadedThemes Theme.Id with
        | some _ => ModifyByKey LoadedThemes Theme.Id (fun ExistingTheme =>
            { ExistingTheme with Filename := E.PathCombine Directory ThemeFile })
        | none => LoadedThemes ++ [{ Theme with Filename := E.PathCombine Directory ThemeFile }]
      | none => LoadedThemes := by
  unfold LoadThemeFile ReadThemeFile
  simp only
  cases hL : E.LoadFileToString (E.PathCombine Directory ThemeFile) with
  | none => rfl
  | some ThemeData =>
    simp only
    rcases hR : ReadTheme E ThemeData {} with ⟨Flag, Theme⟩
    cases Flag <;> rfl

theorem foldl_filter_of_skip {α β : Type} (Step : β → α → β) (Keep : α → Bool)
    (hSkip : ∀ Acc X, Keep X = false → Step Acc X = Acc) (Items : List α) (Acc : β) :
    Items.foldl Step Acc = (Items.filter Keep).foldl Step Acc := by
  induction Items generalizing Acc with
  | nil => rfl
  | cons X Rest ih =>
    cases hK : Keep X with
    | true => simp [List.filter, hK, ih]
    | false => simp [List.filter, hK, hSkip Acc X hK, ih]

theorem ReadThemeFile_eq_some (E : FEngine) (Directory ThemeFile ThemeData : String)
    (Theme : FColorizedFolderTheme)
    (hLoad : E.LoadFileToString (E.PathCombine Directory ThemeFile) = some ThemeData)
    (hRead : ReadTheme E ThemeData {} = (true, Theme)) :
    ReadThemeFile E Directory ThemeFile = some Theme := by
  unfold ReadThemeFile
  rw [hLoad]
  simp only [hRead]

theorem ReadThemeFile_eq_none (E : FEngine) (Directory ThemeFile : String)
    (hSkip : E.LoadFileToString (E.PathCombine Directory ThemeFile) = none ∨
      ∃ ThemeData, E.LoadFileToString (E.PathCombine Directory ThemeFile) = some ThemeData ∧
        (ReadTheme E ThemeData {}).1 = false) :
    ReadThemeFile E Directory ThemeFile = none := by
  unfold ReadThemeFile
  rcases hSkip with h | ⟨ThemeData, h, hR⟩
  · rw [h]
  · rw [h]
    rcases hT : ReadTheme E ThemeData {} with ⟨Flag, Theme⟩
    rw [hT] at hR
    simp only at hR
    subst hR
    simp only [hT]

/-! ## Scanning a directory (C2, C3, C4) -/

/-- C2. When the loop of `LoadThemesFromDirectory` reads a valid theme file (the file is
readable and `ReadTheme` returns true) whose id is the id of an entry of the theme list,
the list after the iteration is the list before it with the `Filename` of the first entry
with that id replaced by the path of the file: the entry keeps its `Id`, `DisplayName` and
loaded schemes, and the number, the order and the content of the other entries are
unchanged. -/
theorem LoadThemeFile_existing_id_changes_only_Filename (E : FEngine)
    (Directory ThemeFile ThemeData : String) (Theme : FColorizedFolderTheme)
    (LoadedThemes : List FColorizedFolderTheme)
    (hLoad : E.LoadFileToString (E.PathCombine Directory ThemeFile) = some ThemeData)
    (hRead : ReadTheme E ThemeData {} = (true, Theme))
    (hKnown : ∃ T ∈ LoadedThemes, T.Id = Theme.Id) :
    ∃ Before Existing After,
      LoadedThemes = Before ++ Existing :: After ∧
      Existing.Id = Theme.Id ∧
      (∀ T ∈ Before, T.Id ≠ Theme.Id) ∧
      LoadThemeFile E Directory LoadedThemes ThemeFile =
        Before ++
          { Id := Existing.Id
            DisplayName := Existing.DisplayName
            Filename := E.PathCombine Directory ThemeFile
            LoadedDefaultColorSchemes := Existing.LoadedDefaultColorSchemes } :: After := by
  obtain ⟨Existing, hF⟩ := Option.isSome_iff_exists.mp
    ((FindByKey_isSome_iff LoadedThemes Theme.Id).mpr hKnown)
  obtain ⟨Before, After, h1, h2, h3⟩ := ModifyByKey_split
    (fun ExistingTheme => { ExistingTheme with Filename := E.PathCombine Directory ThemeFile }) hF
  refine ⟨Before, Existing, After, h1, (FindByKey_some hF).2, h2, ?_⟩
  rw [LoadThemeFile_eq, ReadThemeFile_eq_some E Directory ThemeFile ThemeData Theme hLoad hRead]
  simp only [hF]
  exact h3

/-- C3. `ReadTheme` returns false for theme data that is not valid JSON, that has no string
`Id` field, whose `Id` does not parse as a GUID, or that has no string `DisplayName` field.
A file that cannot be read, or for which `ReadTheme` returns false, is skipped by the loop
of `LoadThemesFromDirectory`: the iteration leaves the theme list unchanged, and the whole
scan of a directory has the result of scanning its valid files only. -/
theorem ReadTheme_false_and_file_skipped (E : FEngine) :
    (∀ ThemeData OutTheme,
      (E.Deserialize ThemeData = none ∨
        ∃ ObjectPtr, E.Deserialize ThemeData = some ObjectPtr ∧
          (E.TryGetStringField ObjectPtr "Id" = none ∨
           (∃ IdString, E.TryGetStringField ObjectPtr "Id" = some IdString ∧
              E.GuidParse IdString = none) ∨
           E.TryGetStringField ObjectPtr "DisplayName" = none)) →
      (ReadTheme E ThemeData OutTheme).1 = false) ∧
    (∀ Directory ThemeFile LoadedThemes,
      (E.LoadFileToString (E.PathCombine Directory ThemeFile) = none ∨
        ∃ ThemeData, E.LoadFileToString (E.PathCombine Directory ThemeFile) = some ThemeData ∧
          (ReadTheme E ThemeData {}).1 = false) →
      LoadThemeFile E Directory LoadedThemes ThemeFile = LoadedThemes) ∧
    (∀ Directory M,
      (LoadThemesFromDirectory E Directory M).LoadedThemes =
        ((E.FindFiles Directory ".json").filter
            (fun ThemeFile => (ReadThemeFile E Directory ThemeFile).isSome)).foldl
          (LoadThemeFile E Directory) M.LoadedThemes) := by
  refine ⟨?_, ?_, ?_⟩
  · intro ThemeData OutTheme h
    unfold ReadTheme
    rcases h with h | ⟨ObjectPtr, hD, h⟩
    · rw [h]
    · rw [hD]
      simp only
      cases hV : E.TryGetNumberField ObjectPtr "Version" with
      | none => rfl
      | some Version =>
        simp only
        rcases h with h | ⟨IdString, hI, hP⟩ | h
        · rw [h]
        · rw [hI]
          simp only
          rw [hP]
        · cases hI : E.TryGetStringField ObjectPtr "Id" with
          | none => rfl
          | some IdString =>
            simp only
            cases hP : E.GuidParse IdString with
            | none => rfl
            | some Id =>
              simp only
              rw [h]
  · intro Directory ThemeFile LoadedThemes h
    rw [LoadThemeFile_eq, ReadThemeFile_eq_none E Directory ThemeFile h]
  · intro Directory M
    show (E.FindFiles Directory ".json").foldl (LoadThemeFile E Directory) M.LoadedThemes = _
    apply foldl_filter_of_skip
    intro Acc ThemeFile hK
    rw [LoadThemeFile_eq]
    cases hR : ReadThemeFile E Directory ThemeFile with
    | none => rfl
    | some Theme => simp [hR] at hK

/-- Witness of C2: the per-user `T1.json` is read while the list holds the plugin's entry
with the same id. -/
theorem LoadThemeFile_existing_id_changes_only_Filename_witness :
    ∃ Before Existing After,
      [ExamplePluginT1] = Before ++ Existing :: After ∧
      Existing.Id = ({ Id := { D := 1 }, DisplayName := "T1" } : FColorizedFolderTheme).Id ∧
      (∀ T ∈ Before,
        T.Id ≠ ({ Id := { D := 1 }, DisplayName := "T1" } : FColorizedFolderTheme).Id) ∧
      LoadThemeFile ExampleUserEngine ExampleUserDir [ExamplePluginT1] "T1.json" =
        Before ++
          { Id := Existing.Id
            DisplayName := Existing.DisplayName
            Filename := ExampleUserEngine.PathCombine ExampleUserDir "T1.json"
            LoadedDefaultColorSchemes := Existing.LoadedDefaultColorSchemes } :: After :=
  LoadThemeFile_existing_id_changes_only_Filename ExampleUserEngine ExampleUserDir "T1.json"
    ExampleTextT1 { Id := { D := 1 }, DisplayName := "T1" } [ExamplePluginT1]
    (by decide) (by decide) ⟨ExamplePluginT1, by decide, by decide⟩

/-- Witness of C3: `Broken.json` is readable and is not JSON, `Locked.json` cannot be read;
`ReadTheme` returns false on the first and the loop skips both. -/
theorem ReadTheme_false_and_file_skipped_witness :
    (ReadTheme ExampleUserEngine "not json" {}).1 = false ∧
    LoadThemeFile ExampleUserEngine ExampleUserDir [ExamplePluginT1] "Broken.json" =
      [ExamplePluginT1] ∧
    LoadThemeFile ExampleUserEngine ExampleUserDir [ExamplePluginT1] "Locked.json" =
      [ExamplePluginT1] :=
  ⟨(ReadTheme_false_and_file_skipped ExampleUserEngine).1 "not json" {} (Or.inl rfl),
   (ReadTheme_false_and_file_skipped ExampleUserEngine).2.1 ExampleUserDir "Broken.json"
      [ExamplePluginT1] (Or.inr ⟨"not json", by decide, by decide⟩),
   (ReadTheme_false_and_file_skipped ExampleUserEngine).2.1 ExampleUserDir "Locked.json"
      [ExamplePluginT1] (Or.inl (by decide))⟩

/-- Counterexample to C4. `T2.json` holds a JSON object with a numeric `Version`, an `Id`
that parses and a `DisplayName`, and no `Schemes` field: `ReadTheme` returns false and the
scan of the directory holding only this file leaves the empty theme list empty. -/
theorem ReadTheme_missing_Schemes_counterexample :
    ExampleUserEngine.Deserialize ExampleTextNoSchemes = some ExampleDocNoSchemes ∧
    ExampleUserEngine.TryGetNumberField ExampleDocNoSchemes "Version" = some 1 ∧
    ExampleUserEngine.TryGetStringField ExampleDocNoSchemes "Id" =
      some "00000000-0000-0000-0000-000000000002" ∧
    ExampleUserEngine.GuidParse "00000000-0000-0000-0000-000000000002" = some { D := 2 } ∧
    ExampleUserEngine.TryGetStringField ExampleDocNoSchemes "DisplayName" = some "T2" ∧
    ExampleUserEngine.HasField ExampleDocNoSchemes "Schemes" = false ∧
    (ReadTheme ExampleUserEngine ExampleTextNoSchemes {}).1 = false ∧
    LoadThemeFile ExampleUserEngine ExampleUserDir [] "T2.json" = [] :=
  ⟨rfl, by decide, by decide, by decide, by decide, by decide, by decide, by decide⟩

/-- C4, amended. For theme data that is a JSON object with a numeric `Version`, an `Id`
that parses as a GUID and a `DisplayName`, `ReadTheme` returns true exactly when the object
has a `Schemes` field (the field is only tested for presence; no scheme is read), and sets
the out-parameter's `Id` and `DisplayName`. The loop of `LoadThemesFromDirectory` adds the
theme of such a file to the list (or merges it into the entry with its id) when the field
is present, and skips the file when the field is missing. -/
theorem ReadTheme_true_iff_has_Schemes (E : FEngine) (ThemeData : String)
    (OutTheme : FColorizedFolderTheme) (ObjectPtr : E.Json) (Version : Int)
    (IdString DisplayString : String) (Id : FGuid)
    (hJson : E.Deserialize ThemeData = some ObjectPtr)
    (hVersion : E.TryGetNumberField ObjectPtr "Version" = some Version)
    (hId : E.TryGetStringField ObjectPtr "Id" = some IdString)
    (hParse : E.GuidParse IdString = some Id)
    (hName : E.TryGetStringField ObjectPtr "DisplayName" = some DisplayString) :
    ReadTheme E ThemeData OutTheme =
      (E.HasField ObjectPtr "Schemes",
        { Id := Id
          DisplayName := DisplayString
          Filename := OutTheme.Filename
          LoadedDefaultColorSchemes := OutTheme.LoadedDefaultColorSchemes }) ∧
    ∀ Directory ThemeFile LoadedThemes,
      E.LoadFileToString (E.PathCombine Directory ThemeFile) = some ThemeData →
      LoadThemeFile E Directory LoadedThemes ThemeFile =
        if E.HasField ObjectPtr "Schemes" = true then
          match FindByKey LoadedThemes Id with
          | some _ => ModifyByKey LoadedThemes Id (fun ExistingTheme =>
              { ExistingTheme with Filename := E.PathCombine Directory ThemeFile })
          | none => LoadedThemes ++
              [{ Id := Id
                 DisplayName := DisplayString
                 Filename := E.PathCombine Directory ThemeFile
                 LoadedDefaultColorSchemes := [] }]
        else LoadedThemes := by
  have hRead : ∀ Out : FColorizedFolderTheme, ReadTheme E ThemeData Out =
      (E.HasField ObjectPtr "Schemes",
        { Id := Id
          DisplayName := DisplayString
          Filename := Out.Filename
          LoadedDefaultColorSchemes := Out.LoadedDefaultColorSchemes }) := by
    intro Out
    unfold ReadTheme
    rw [hJson]
    simp only [hVersion, hId, hParse, hName]
    cases E.HasField ObjectPtr "Schemes" <;> rfl
  refine ⟨hRead OutTheme, ?_⟩
  intro Directory ThemeFile LoadedThemes hLoad
  unfold LoadThemeFile
  simp only [hLoad, hRead]
  cases E.HasField ObjectPtr "Schemes" <;> simp

/-- Witness of the amended C4: the per-user `T1.json` has all four fields and is added to
the empty list. -/
theorem ReadTheme_true_iff_has_Schemes_witness :
    ReadTheme ExampleUserEngine ExampleTextT1 {} =
      (true, { Id := { D := 1 }, DisplayName := "T1" }) ∧
    LoadThemeFile ExampleUserEngine ExampleUserDir [] "T1.json" =
      [{ Id := { D := 1 }, DisplayName := "T1",
         Filename := "User/Editor/Slate/Themes/ContentBrowser/T1.json" }] :=
  have h := ReadTheme_true_iff_has_Schemes ExampleUserEngine ExampleTextT1 {} ExampleDocT1 1
    "00000000-0000-0000-0000-000000000001" "T1" { D := 1 }
    rfl (by decide) (by decide) (by decide) (by decide)
  ⟨h.1, (h.2 ExampleUserDir "T1.json" [] (by decide)).trans (by decide)⟩

/-! ## Merging layered directories (C1) -/

theorem LoadThemeFile_spec (E : FEngine) (Directory ThemeFile : String)
    (LoadedThemes : List FColorizedFolderTheme)
    (hNodup : (LoadedThemes.map (fun T => T.Id)).Nodup) :
    ((LoadThemeFile E Directory LoadedThemes ThemeFile).map (fun T => T.Id)).Nodup ∧
    (∀ Id, Id ∈ (LoadThemeFile E Directory LoadedThemes ThemeFile).map (fun T => T.Id) ↔
      Id ∈ LoadedThemes.map (fun T => T.Id) ∨ ThemeFileId E Directory ThemeFile = some Id) ∧
    (∀ T ∈ LoadThemeFile E Directory LoadedThemes ThemeFile,
      (T ∈ LoadedThemes ∧ ThemeFileId E Directory ThemeFile ≠ some T.Id) ∨
      (ThemeFileId E Directory ThemeFile = some T.Id ∧
        T.Filename = E.PathCombine Directory ThemeFile)) := by
  rw [LoadThemeFile_eq]
  unfold ThemeFileId
  cases hR : ReadThemeFile E Directory ThemeFile with
  | none =>
    refine ⟨hNodup, by simp, ?_⟩
    intro T hT
    exact Or.inl ⟨hT, by simp⟩
  | some Theme =>
    simp only [Option.map_some']
    cases hF : FindByKey LoadedThemes Theme.Id with
    | none =>
      have hNew := (FindByKey_eq_none_iff LoadedThemes Theme.Id).mp hF
      simp only
      refine ⟨?_, ?_, ?_⟩
      · rw [List.map_append, List.nodup_append]
        refine ⟨hNodup, by simp, ?_⟩
        intro Id h1 h2
        simp only [List.map_cons, List.map_nil, List.mem_singleton] at h2
        obtain ⟨T, hT, hId⟩ := List.mem_map.mp h1
        exact hNew T hT (hId.trans h2)
      · intro Id
        simp only [List.map_append, List.mem_append, List.map_cons, List.map_nil,
          List.mem_singleton, Option.some.injEq]
        constructor
        · rintro (h | h)
          · exact Or.inl h
          · exact Or.inr h.symm
        · rintro (h | h)
          · exact Or.inl h
          · exact Or.inr h.symm
      · intro T hT
        rcases List.mem_append.mp hT with hT | hT
        · refine Or.inl ⟨hT, ?_⟩
          intro h
          exact hNew T hT (Option.some.inj h).symm
        · simp only [List.mem_singleton] at hT
          subst hT
          exact Or.inr ⟨rfl, rfl⟩
    | some Existing =>
      simp only
      obtain ⟨Before, After, h1, h2, h3⟩ := ModifyByKey_split
        (fun ExistingTheme =>
          { ExistingTheme with Filename := E.PathCombine Directory ThemeFile }) hF
      have hIds := ModifyByKey_map_Id LoadedThemes Theme.Id
        (fun ExistingTheme =>
          { ExistingTheme with Filename := E.PathCombine Directory ThemeFile })
        (fun _ h => h)
      have hEx := (FindByKey_some hF).2
      refine ⟨by rw [hIds]; exact hNodup, ?_, ?_⟩
      · intro Id
        rw [hIds]
        constructor
        · exact Or.inl
        · rintro (h | h)
          · exact h
          · rw [← Option.some.inj h]
            exact List.mem_map.mpr ⟨Existing, (FindByKey_some hF).1, hEx⟩
      · intro T hT
        rw [h3] at hT
        rw [h1, List.map_append, List.map_cons] at hNodup
        have hAfter : Existing.Id ∉ After.map (fun T => T.Id) := by
          have := (List.nodup_append.mp hNodup).2.1
          exact (List.nodup_cons.mp this).1
        rcases List.mem_append.mp hT with hT | hT
        · refine Or.inl ⟨by rw [h1]; exact List.mem_append_left _ hT, ?_⟩
          intro h
          exact h2 T hT (Option.some.inj h).symm
        · rcases List.mem_cons.mp hT with hT | hT
          · subst hT
            exact Or.inr ⟨by simp [hEx], rfl⟩
          · refine Or.inl ⟨by rw [h1]; exact List.mem_append_right _ (List.mem_cons_of_mem _ hT), ?_⟩
            intro h
            apply hAfter
            rw [hEx, Option.some.inj h]
            exact List.mem_map.mpr ⟨T, hT, rfl⟩

theorem foldl_LoadThemeFile_spec (E : FEngine) (Directory : String) (Files : List String) :
    ∀ LoadedThemes : List FColorizedFolderTheme,
    (LoadedThemes.map (fun T => T.Id)).Nodup →
    ((Files.foldl (LoadThemeFile E Directory) LoadedThemes).map (fun T => T.Id)).Nodup ∧
    (∀ Id, Id ∈ (Files.foldl (LoadThemeFile E Directory) LoadedThemes).map (fun T => T.Id) ↔
      Id ∈ LoadedThemes.map (fun T => T.Id) ∨
        ∃ F ∈ Files, ThemeFileId E Directory F = some Id) ∧
    (∀ T ∈ Files.foldl (LoadThemeFile E Directory) LoadedThemes,
      (T ∈ LoadedThemes ∧ ∀ F ∈ Files, ThemeFileId E Directory F ≠ some T.Id) ∨
      (∃ F ∈ Files, ThemeFileId E Directory F = some T.Id ∧
        T.Filename = E.PathCombine Directory F)) := by
  induction Files with
  | nil =>
    intro LoadedThemes hNodup
    refine ⟨hNodup, by simp, ?_⟩
    intro T hT
    exact Or.inl ⟨hT, by simp⟩
  | cons File Rest ih =>
    intro LoadedThemes hNodup
    obtain ⟨s1, s2, s3⟩ := LoadThemeFile_spec E Directory File LoadedThemes hNodup
    obtain ⟨r1, r2, r3⟩ := ih (LoadThemeFile E Directory LoadedThemes File) s1
    rw [List.foldl_cons]
    refine ⟨r1, ?_, ?_⟩
    · intro Id
      rw [r2, s2]
      constructor
      · rintro ((h | h) | ⟨F, hF, h⟩)
        · exact Or.inl h
        · exact Or.inr ⟨File, List.mem_cons_self _ _, h⟩
        · exact Or.inr ⟨F, List.mem_cons_of_mem _ hF, h⟩
      · rintro (h | ⟨F, hF, h⟩)
        · exact Or.inl (Or.inl h)
        · rcases List.mem_cons.mp hF with rfl | hF
          · exact Or.inl (Or.inr h)
          · exact Or.inr ⟨F, hF, h⟩
    · intro T hT
      rcases r3 T hT with ⟨hIn, hNo⟩ | ⟨F, hF, h1, h2⟩
      · rcases s3 T hIn with ⟨hIn0, hNo0⟩ | ⟨h1, h2⟩
        · refine Or.inl ⟨hIn0, ?_⟩
          intro F hF
          rcases List.mem_cons.mp hF with rfl | hF
          · exact hNo0
          · exact hNo F hF
        · exact Or.inr ⟨File, List.mem_cons_self _ _, h1, h2⟩
      · exact Or.inr ⟨F, List.mem_cons_of_mem _ hF, h1, h2⟩

theorem ScanDirectories_LoadedThemes (E : FEngine) (Directories : List String) :
    ∀ M : UColorizedFoldersManager,
    (ScanDirectories E Directories M).LoadedThemes =
      Directories.foldl (fun Themes Directory =>
        (E.FindFiles Directory ".json").foldl (LoadThemeFile E Directory) Themes)
        M.LoadedThemes := by
  induction Directories with
  | nil => intro M; rfl
  | cons D Rest ih =>
    intro M
    show (ScanDirectories E Rest (LoadThemesFromDirectory E D M)).LoadedThemes = _
    rw [ih]
    rfl

theorem foldl_directories_spec (E : FEngine) (Directories : List String) :
    ∀ LoadedThemes : List FColorizedFolderTheme,
    (LoadedThemes.map (fun T => T.Id)).Nodup →
    ((Directories.foldl (fun Themes Directory =>
        (E.FindFiles Directory ".json").foldl (LoadThemeFile E Directory) Themes)
        LoadedThemes).map (fun T => T.Id)).Nodup ∧
    (∀ Id, Id ∈ (Directories.foldl (fun Themes Directory =>
        (E.FindFiles Directory ".json").foldl (LoadThemeFile E Directory) Themes)
        LoadedThemes).map (fun T => T.Id) ↔
      Id ∈ LoadedThemes.map (fun T => T.Id) ∨
        ∃ D ∈ Directories, ∃ F ∈ E.FindFiles D ".json", ThemeFileId E D F = some Id) ∧
    (∀ T ∈ Directories.foldl (fun Themes Directory =>
        (E.FindFiles Directory ".json").foldl (LoadThemeFile E Directory) Themes)
        LoadedThemes,
      (T ∈ LoadedThemes ∧
        ∀ D ∈ Directories, ∀ F ∈ E.FindFiles D ".json", ThemeFileId E D F ≠ some T.Id) ∨
      (∃ Before D After F, Directories = Before ++ D :: After ∧
        F ∈ E.FindFiles D ".json" ∧ ThemeFileId E D F = some T.Id ∧
        T.Filename = E.PathCombine D F ∧
        ∀ D1 ∈ After, ∀ F1 ∈ E.FindFiles D1 ".json", ThemeFileId E D1 F1 ≠ some T.Id)) := by
  induction Directories with
  | nil =>
    intro LoadedThemes hNodup
    refine ⟨hNodup, by simp, ?_⟩
    intro T hT
    exact Or.inl ⟨hT, by simp⟩
  | cons Dir Rest ih =>
    intro LoadedThemes hNodup
    obtain ⟨s1, s2, s3⟩ :=
      foldl_LoadThemeFile_spec E Dir (E.FindFiles Dir ".json") LoadedThemes hNodup
    obtain ⟨r1, r2, r3⟩ :=
      ih ((E.FindFiles Dir ".json").foldl (LoadThemeFile E Dir) LoadedThemes) s1
    rw [List.foldl_cons]
    refine ⟨r1, ?_, ?_⟩
    · intro Id
      rw [r2, s2]
      constructor
      · rintro ((h | ⟨F, hF, h⟩) | ⟨D, hD, h⟩)
        · exact Or.inl h
        · exact Or.inr ⟨Dir, List.mem_cons_self _ _, F, hF, h⟩
        · exact Or.inr ⟨D, List.mem_cons_of_mem _ hD, h⟩
      · rintro (h | ⟨D, hD, h⟩)
        · exact Or.inl (Or.inl h)
        · rcases List.mem_cons.mp hD with rfl | hD
          · exact Or.inl (Or.inr h)
          · exact Or.inr ⟨D, hD, h⟩
    · intro T hT
      rcases r3 T hT with ⟨hIn, hNo⟩ | ⟨Before, D, After, F, hSplit, hF, h1, h2, h3⟩
      · rcases s3 T hIn with ⟨hIn0, hNo0⟩ | ⟨F, hF, h1, h2⟩
        · refine Or.inl ⟨hIn0, ?_⟩
          intro D hD
          rcases List.mem_cons.mp hD with rfl | hD
          · exact hNo0
          · exact hNo D hD
        · exact Or.inr ⟨[], Dir, Rest, F, rfl, hF, h1, h2, hNo⟩
      · exact Or.inr ⟨Dir :: Before, D, After, F, by rw [hSplit]; rfl, hF, h1, h2, h3⟩

/-- C1. Scanning any ordered list of theme directories with `LoadThemesFromDirectory`,
starting from the empty theme list as `LoadThemes` does, yields a theme list

* with no id twice,
* whose ids are exactly the ids of the valid theme files of the directories, and
* in which the `Filename` of each entry is the path of a valid file with the entry's id in
  the last directory of the list that has a valid file with that id.

`LoadThemes` is this scan for the plugin, engine, project and user directories, in that
order, followed by `EnsureValidCurrentTheme` and `ApplyTheme`. -/
theorem ScanDirectories_merges_by_id (E : FEngine) (Directories : List String)
    (M : UColorizedFoldersManager) :
    (((ScanDirectories E Directories { M with LoadedThemes := [] }).LoadedThemes).map
      (fun T => T.Id)).Nodup ∧
    (∀ Id,
      (∃ T ∈ (ScanDirectories E Directories { M with LoadedThemes := [] }).LoadedThemes,
        T.Id = Id) ↔
      ∃ D ∈ Directories, ∃ F ∈ E.FindFiles D ".json", ThemeFileId E D F = some Id) ∧
    (∀ T ∈ (ScanDirectories E Directories { M with LoadedThemes := [] }).LoadedThemes,
      ∃ Before D After F, Directories = Before ++ D :: After ∧
        F ∈ E.FindFiles D ".json" ∧ ThemeFileId E D F = some T.Id ∧
        T.Filename = E.PathCombine D F ∧
        ∀ D1 ∈ After, ∀ F1 ∈ E.FindFiles D1 ".json", ThemeFileId E D1 F1 ≠ some T.Id) ∧
    LoadThemes E M =
      ApplyTheme E
        (EnsureValidCurrentTheme E (ScanDirectories E
          [GetPluginThemeDir E, GetEngineThemeDir E, GetProjectThemeDir E, GetUserThemeDir E]
          { M with LoadedThemes := [] })).CurrentThemeId
        (EnsureValidCurrentTheme E (ScanDirectories E
          [GetPluginThemeDir E, GetEngineThemeDir E, GetProjectThemeDir E, GetUserThemeDir E]
          { M with LoadedThemes := [] })) := by
  obtain ⟨h1, h2, h3⟩ := foldl_directories_spec E Directories [] (by simp)
  rw [ScanDirectories_LoadedThemes]
  refine ⟨h1, ?_, ?_, rfl⟩
  · intro Id
    have := h2 Id
    simp only [List.map_nil, List.not_mem_nil, false_or] at this
    rw [← this, List.mem_map]
  · intro T hT
    rcases h3 T hT with ⟨hIn, _⟩ | h
    · simp at hIn
    · exact h

/-! ## Loading the schemes of a theme -/

theorem ModifyAt_spec (Schemes : List FColorizedFolderColorScheme) (Index : Nat)
    (Fn : FColorizedFolderColorScheme → FColorizedFolderColorScheme)
    (hIndex : Index < Schemes.length) :
    ∃ Schemes1, ModifyAt Schemes Index Fn = some Schemes1 ∧
      Schemes1.length = Schemes.length ∧
      ∀ J, J ≠ Index → Schemes1[J]? = Schemes[J]? := by
  unfold ModifyAt
  rw [List.getElem?_eq_getElem hIndex]
  refine ⟨_, rfl, by simp, ?_⟩
  intro J hJ
  rw [List.getElem?_set_ne (Ne.symm hJ)]

theorem LoadSchemeSlot_spec (E : FEngine) (SchemesObject : E.Json)
    (Schemes : List FColorizedFolderColorScheme) (SchemeIndex : Nat)
    (hIndex : SchemeIndex < Schemes.length) :
    ∃ Schemes1, LoadSchemeSlot E SchemesObject Schemes SchemeIndex = some Schemes1 ∧
      Schemes1.length = Schemes.length ∧
      (∀ J, J ≠ SchemeIndex → Schemes1[J]? = Schemes[J]?) ∧
      (E.TryGetObjectField SchemesObject (FromInt SchemeIndex) = none →
        Schemes1 = Schemes) := by
  unfold LoadSchemeSlot
  cases hO : E.TryGetObjectField SchemesObject (FromInt SchemeIndex) with
  | none => exact ⟨Schemes, rfl, rfl, fun _ _ => rfl, fun _ => rfl⟩
  | some SchemeObject =>
    simp only
    have step : ∀ (Field : Option (FColorizedFolderColorScheme → FColorizedFolderColorScheme))
        (Cur : List FColorizedFolderColorScheme), Cur.length = Schemes.length →
        (∀ J, J ≠ SchemeIndex → Cur[J]? = Schemes[J]?) →
        ∃ Next, (match Field with
            | some Fn => ModifyAt Cur SchemeIndex Fn
            | none => some Cur) = some Next ∧
          Next.length = Schemes.length ∧ ∀ J, J ≠ SchemeIndex → Next[J]? = Schemes[J]? := by
      intro Field Cur hLen hOther
      cases Field with
      | none => exact ⟨Cur, rfl, hLen, hOther⟩
      | some Fn =>
        obtain ⟨Next, h1, h2, h3⟩ := ModifyAt_spec Cur SchemeIndex Fn (by rw [hLen]; exact hIndex)
        exact ⟨Next, h1, h2.trans hLen, fun J hJ => (h3 J hJ).trans (hOther J hJ)⟩
    obtain ⟨S1, e1, l1, o1⟩ := step
      ((E.TryGetStringField SchemeObject "SchemeColor").map (fun ColorString S =>
        { S with SchemeColor := E.InitFromString S.SchemeColor ColorString }))
      Schemes rfl (fun _ _ => rfl)
    obtain ⟨S2, e2, l2, o2⟩ := step
      ((E.TryGetStringArrayField SchemeObject "FolderNames").map (fun FolderNames S =>
        S.SaveArrayToFolders FolderNames)) S1 l1 o1
    obtain ⟨S3, e3, l3, o3⟩ := step
      ((E.TryGetStringArrayField SchemeObject "ExplicitPaths").map (fun PathNames S =>
        S.SaveArrayToPaths PathNames)) S2 l2 o2
    refine ⟨S3, ?_, l3, o3, fun h => by simp at h⟩
    have c1 : (match E.TryGetStringField SchemeObject "SchemeColor" with
        | some ColorString => ModifyAt Schemes SchemeIndex (fun S =>
            { S with SchemeColor := E.InitFromString S.SchemeColor ColorString })
        | none => some Schemes) = some S1 := by
      rw [← e1]; cases E.TryGetStringField SchemeObject "SchemeColor" <;> rfl
    have c2 : (match E.TryGetStringArrayField SchemeObject "FolderNames" with
        | some FolderNames => ModifyAt S1 SchemeIndex (fun S => S.SaveArrayToFolders FolderNames)
        | none => some S1) = some S2 := by
      rw [← e2]; cases E.TryGetStringArrayField SchemeObject "FolderNames" <;> rfl
    have c3 : (match E.TryGetStringArrayField SchemeObject "ExplicitPaths" with
        | some PathNames => ModifyAt S2 SchemeIndex (fun S => S.SaveArrayToPaths PathNames)
        | none => some S2) = some S3 := by
      rw [← e3]; cases E.TryGetStringArrayField SchemeObject "ExplicitPaths" <;> rfl
    rw [c1]
    simp only [Option.some_bind]
    rw [c2]
    simp only [Option.some_bind]
    rw [c3]

theorem LoadSchemeSlots_spec (E : FEngine) (SchemesObject : E.Json) (Indices : List Nat) :
    ∀ Schemes : List FColorizedFolderColorScheme,
    (∀ I ∈ Indices, I < Schemes.length) →
    ∃ Schemes1, LoadSchemeSlots E SchemesObject Schemes Indices = some Schemes1 ∧
      Schemes1.length = Schemes.length ∧
      ∀ J, (J ∈ Indices → E.TryGetObjectField SchemesObject (FromInt J) = none) →
        Schemes1[J]? = Schemes[J]? := by
  induction Indices with
  | nil =>
    intro Schemes _
    exact ⟨Schemes, rfl, rfl, fun _ _ => rfl⟩
  | cons I Rest ih =>
    intro Schemes hLt
    obtain ⟨S1, e1, l1, o1, a1⟩ :=
      LoadSchemeSlot_spec E SchemesObject Schemes I (hLt I (List.mem_cons_self _ _))
    obtain ⟨S2, e2, l2, o2⟩ := ih S1 (fun J hJ => by
      rw [l1]; exact hLt J (List.mem_cons_of_mem _ hJ))
    refine ⟨S2, ?_, l2.trans l1, ?_⟩
    · unfold LoadSchemeSlots
      rw [e1]
      simp only [Option.some_bind]
      rw [e2]
    · intro J hJ
      rw [o2 J (fun h => hJ (List.mem_cons_of_mem _ h))]
      by_cases hJI : J = I
      · subst hJI
        rw [a1 (hJ (List.mem_cons_self _ _))]
      · exact o1 J hJI

theorem LoadThemeFolderSchemes_eq (E : FEngine)
    (DefaultColorSchemes : Fin NUM_FOLDER_SCHEMES → FColorizedFolderColorScheme)
    (Theme : FColorizedFolderTheme) :
    LoadThemeFolderSchemes E DefaultColorSchemes Theme =
      match ThemeFileSchemes E Theme.Filename with
      | some SchemesObject =>
        (LoadSchemeSlots E SchemesObject
          (if Theme.LoadedDefaultColorSchemes.isEmpty then MakeArrayView DefaultColorSchemes
            else Theme.LoadedDefaultColorSchemes)
          (List.range NUM_FOLDER_SCHEMES)).map fun Schemes =>
            { Theme with LoadedDefaultColorSchemes := Schemes }
      | none =>
        some { Theme with LoadedDefaultColorSchemes :=
          (if Theme.LoadedDefaultColorSchemes.isEmpty then MakeArrayView DefaultColorSchemes
            else Theme.LoadedDefaultColorSchemes) } := by
  unfold LoadThemeFolderSchemes ThemeFileSchemes
  cases hE : Theme.LoadedDefaultColorSchemes.isEmpty
  · simp only [Bool.false_eq_true, if_false]
    cases E.LoadFileToString Theme.Filename with
    | none => rfl
    | some ThemeData =>
      simp only
      cases E.Deserialize ThemeData with
      | none => rfl
      | some ObjectPtr => rfl
  · simp only [if_true]
    cases E.LoadFileToString Theme.Filename with
    | none => rfl
    | some ThemeData =>
      simp only
      cases E.Deserialize ThemeData with
      | none => rfl
      | some ObjectPtr => rfl

theorem ofFn_getElem?_val {α : Type} {N : Nat} (Slots : Fin N → α) (I : Fin N) :
    (List.ofFn Slots)[I.val]? = some (Slots I) := by
  rw [List.getElem?_eq_getElem (by simp)]
  simp

theorem MakeArrayView_length
    (Slots : Fin NUM_FOLDER_SCHEMES → FColorizedFolderColorScheme) :
    (MakeArrayView Slots).length = NUM_FOLDER_SCHEMES :=
  List.length_ofFn Slots

theorem MakeArrayView_getElem?
    (Slots : Fin NUM_FOLDER_SCHEMES → FColorizedFolderColorScheme)
    (I : Fin NUM_FOLDER_SCHEMES) :
    (MakeArrayView Slots)[I.val]? = some (Slots I) :=
  ofFn_getElem?_val Slots I

theorem LoadThemeFolderSchemes_spec (E : FEngine)
    (DefaultColorSchemes : Fin NUM_FOLDER_SCHEMES → FColorizedFolderColorScheme)
    (Theme : FColorizedFolderTheme)
    (hSized : Theme.LoadedDefaultColorSchemes.length = 0 ∨
      Theme.LoadedDefaultColorSchemes.length = NUM_FOLDER_SCHEMES) :
    ∃ Loaded, LoadThemeFolderSchemes E DefaultColorSchemes Theme = some Loaded ∧
      Loaded.Id = Theme.Id ∧ Loaded.DisplayName = Theme.DisplayName ∧
      Loaded.Filename = Theme.Filename ∧
      Loaded.LoadedDefaultColorSchemes.length = NUM_FOLDER_SCHEMES ∧
      (Theme.LoadedDefaultColorSchemes = [] →
        ∀ I : Fin NUM_FOLDER_SCHEMES,
          (∀ SchemesObject, ThemeFileSchemes E Theme.Filename = some SchemesObject →
            E.TryGetObjectField SchemesObject (FromInt I.val) = none) →
          Loaded.LoadedDefaultColorSchemes[I.val]? = some (DefaultColorSchemes I)) := by
  rw [LoadThemeFolderSchemes_eq]
  have hStart : (if Theme.LoadedDefaultColorSchemes.isEmpty then
      MakeArrayView DefaultColorSchemes else Theme.LoadedDefaultColorSchemes).length =
        NUM_FOLDER_SCHEMES := by
    rcases hSized with h | h
    · rw [List.length_eq_zero] at h
      simp [h, MakeArrayView_length]
    · have : Theme.LoadedDefaultColorSchemes ≠ [] := by
        intro h0; rw [h0] at h; simp at h
      simp [this, h]
  have hEmpty : Theme.LoadedDefaultColorSchemes = [] →
      (if Theme.LoadedDefaultColorSchemes.isEmpty then
        MakeArrayView DefaultColorSchemes else Theme.LoadedDefaultColorSchemes) =
          MakeArrayView DefaultColorSchemes := by
    intro h; simp [h]
  cases hS : ThemeFileSchemes E Theme.Filename with
  | none =>
    refine ⟨_, rfl, rfl, rfl, rfl, hStart, ?_⟩
    intro h I _
    simp only
    rw [hEmpty h]
    exact MakeArrayView_getElem? DefaultColorSchemes I
  | some SchemesObject =>
    obtain ⟨Schemes1, e1, l1, o1⟩ := LoadSchemeSlots_spec E SchemesObject
      (List.range NUM_FOLDER_SCHEMES) _ (fun I hI => by
        rw [hStart]; exact List.mem_range.mp hI)
    simp only
    rw [e1]
    refine ⟨_, rfl, rfl, rfl, rfl, l1.trans hStart, ?_⟩
    intro h I hAbsent
    simp only
    rw [o1 I.val (fun _ => hAbsent SchemesObject rfl), hEmpty h]
    exact MakeArrayView_getElem? DefaultColorSchemes I

/-! ## `ApplyTheme` (C5, C6, C7) -/

theorem SwitchTheme_spec (ThemeId : FGuid) (M : UColorizedFoldersManager)
    (hCur : ∃ T ∈ M.LoadedThemes, T.Id = M.CurrentThemeId) :
    ∃ M1, ApplyTheme.SwitchTheme ThemeId M = some M1 ∧
      M1.LoadedThemes.map (fun T => T.Id) = M.LoadedThemes.map (fun T => T.Id) ∧
      ((∃ T ∈ M.LoadedThemes, T.Id = ThemeId) → M1.CurrentThemeId = ThemeId) ∧
      ((¬ ∃ T ∈ M.LoadedThemes, T.Id = ThemeId) → M1.CurrentThemeId = M.CurrentThemeId) ∧
      M1.DefaultColorSchemes = M.DefaultColorSchemes ∧
      M1.ActiveSchemes = M.ActiveSchemes ∧
      M1.ThemeChangedBroadcasts = M.ThemeChangedBroadcasts ∧
      (∀ T ∈ M1.LoadedThemes, T ∈ M.LoadedThemes ∨ T.LoadedDefaultColorSchemes = []) ∧
      (∀ Theme, FindByKey M.LoadedThemes ThemeId = some Theme →
        Theme.LoadedDefaultColorSchemes = [] →
        FindByKey M1.LoadedThemes ThemeId = some Theme) := by
  unfold ApplyTheme.SwitchTheme
  by_cases hEq : M.CurrentThemeId = ThemeId
  · simp only [ne_eq, hEq, not_true_eq_false, if_false]
    refine ⟨M, rfl, rfl, fun _ => hEq, fun h => absurd (hEq ▸ hCur) h, rfl, rfl, rfl,
      fun T hT => Or.inl hT, fun _ h _ => h⟩
  · simp only [ne_eq, hEq, not_false_eq_true, if_true]
    obtain ⟨Cur, hFind⟩ := Option.isSome_iff_exists.mp
      ((FindByKey_isSome_iff M.LoadedThemes M.CurrentThemeId).mpr hCur)
    have hUnload : ∃ Themes1,
        (if M.CurrentThemeId.IsValid = true then
          match FindByKey M.LoadedThemes M.CurrentThemeId with
          | some _ =>
            some { M with LoadedThemes :=
              (ModifyByKey M.LoadedThemes M.CurrentThemeId (fun CurrentTheme =>
                { CurrentTheme with LoadedDefaultColorSchemes := [] })) }
          | none => none
        else some M) = some { M with LoadedThemes := Themes1 } ∧
        Themes1.map (fun T => T.Id) = M.LoadedThemes.map (fun T => T.Id) ∧
        FindByKey Themes1 ThemeId = FindByKey M.LoadedThemes ThemeId ∧
        (∀ T ∈ Themes1, T ∈ M.LoadedThemes ∨ T.LoadedDefaultColorSchemes = []) := by
      cases hV : M.CurrentThemeId.IsValid with
      | false =>
        exact ⟨M.LoadedThemes, by simp, rfl, rfl, fun T hT => Or.inl hT⟩
      | true =>
        refine ⟨ModifyByKey M.LoadedThemes M.CurrentThemeId (fun CurrentTheme =>
          { CurrentTheme with LoadedDefaultColorSchemes := [] }), by simp [hFind],
          ModifyByKey_map_Id _ _ _ (fun _ h => h),
          FindByKey_ModifyByKey_ne _ _ _ _ (fun _ h => h) hEq, ?_⟩
        intro T hT
        rcases mem_ModifyByKey hT with h | ⟨T0, _, _, h⟩
        · exact Or.inl h
        · exact Or.inr (by rw [h])
    obtain ⟨Themes1, e1, hIds, hFindEq, hMem⟩ := hUnload
    rw [e1]
    simp only [Option.map_some']
    rw [hFindEq]
    cases hT : FindByKey M.LoadedThemes ThemeId with
    | some Theme =>
      have hKnown : ∃ T ∈ M.LoadedThemes, T.Id = ThemeId := ⟨Theme, FindByKey_some hT⟩
      refine ⟨_, rfl, hIds, fun _ => rfl, fun h => absurd hKnown h, rfl, rfl, rfl, hMem, ?_⟩
      intro Theme1 h1 _
      show FindByKey Themes1 ThemeId = some Theme1
      rw [hFindEq, hT, h1]
    | none =>
      have hUnknown := (FindByKey_eq_none_iff M.LoadedThemes ThemeId).mp hT
      refine ⟨_, rfl, hIds, ?_, fun _ => rfl, rfl, rfl, rfl, hMem, ?_⟩
      · rintro ⟨T, hT1, hT2⟩
        exact absurd hT2 (hUnknown T hT1)
      · intro Theme1 h1
        simp at h1

theorem Memcpy_of_getElem? (Dest : Fin NUM_FOLDER_SCHEMES → FColorizedFolderColorScheme)
    (Src : List FColorizedFolderColorScheme) (I : Fin NUM_FOLDER_SCHEMES)
    (S : FColorizedFolderColorScheme) (h : Src[I.val]? = some S) :
    Memcpy Dest Src I = S := by
  unfold Memcpy
  rw [h]

theorem LoadAndCopy_spec (E : FEngine) (M : UColorizedFoldersManager)
    (Cur : FColorizedFolderTheme)
    (hFind : FindByKey M.LoadedThemes M.CurrentThemeId = some Cur)
    (hSized : Cur.LoadedDefaultColorSchemes.length = 0 ∨
      Cur.LoadedDefaultColorSchemes.length = NUM_FOLDER_SCHEMES) :
    ∃ Loaded M1, LoadThemeFolderSchemes E M.DefaultColorSchemes Cur = some Loaded ∧
      ApplyTheme.LoadAndCopy E M = some M1 ∧
      M1.CurrentThemeId = M.CurrentThemeId ∧
      M1.LoadedThemes = ModifyByKey M.LoadedThemes M.CurrentThemeId (fun _ => Loaded) ∧
      M1.ActiveSchemes.Schemes =
        Memcpy M.ActiveSchemes.Schemes Loaded.LoadedDefaultColorSchemes ∧
      M1.ThemeChangedBroadcasts = M.ThemeChangedBroadcasts ∧
      M1.DefaultColorSchemes = M.DefaultColorSchemes := by
  obtain ⟨Loaded, e1, _, _, _, hLen, _⟩ :=
    LoadThemeFolderSchemes_spec E M.DefaultColorSchemes Cur hSized
  have hPos : Loaded.LoadedDefaultColorSchemes.length > 0 := by rw [hLen]; decide
  have hLe : Loaded.LoadedDefaultColorSchemes.length ≤ NUM_FOLDER_SCHEMES := by rw [hLen]
  refine ⟨Loaded,
    { M with
      LoadedThemes := ModifyByKey M.LoadedThemes M.CurrentThemeId (fun _ => Loaded)
      ActiveSchemes :=
        { M.ActiveSchemes with
          Schemes := Memcpy M.ActiveSchemes.Schemes Loaded.LoadedDefaultColorSchemes } },
    e1, ?_, ?_⟩
  · unfold ApplyTheme.LoadAndCopy
    rw [hFind]
    simp only
    rw [e1]
    simp only [Option.some_bind]
    rw [if_pos hPos, if_pos hLe]
  · exact ⟨rfl, rfl, rfl, rfl, rfl⟩

theorem ApplyTheme_spec (E : FEngine) (ThemeId : FGuid) (M : UColorizedFoldersManager)
    (hCur : ∃ T ∈ M.LoadedThemes, T.Id = M.CurrentThemeId)
    (hSized : SchemeArraysSized M.LoadedThemes) :
    ∃ M1, ApplyTheme E ThemeId M = some M1 ∧
      M1.LoadedThemes.map (fun T => T.Id) = M.LoadedThemes.map (fun T => T.Id) ∧
      ((ThemeId.IsValid = true ∧ ∃ T ∈ M.LoadedThemes, T.Id = ThemeId) →
        M1.CurrentThemeId = ThemeId) ∧
      ((¬ (ThemeId.IsValid = true ∧ ∃ T ∈ M.LoadedThemes, T.Id = ThemeId)) →
        M1.CurrentThemeId = M.CurrentThemeId) ∧
      M1.ThemeChangedBroadcasts = M.ThemeChangedBroadcasts ++ [M1.CurrentThemeId] := by
  unfold ApplyTheme
  cases hV : ThemeId.IsValid with
  | false =>
    refine ⟨{ M with ThemeChangedBroadcasts := M.ThemeChangedBroadcasts ++ [M.CurrentThemeId] },
      by simp, rfl, fun h => absurd h.1 (by simp), fun _ => rfl, rfl⟩
  | true =>
    simp only [if_true]
    obtain ⟨M1, e1, hIds, hKnown, hUnknown, hDef, hAct, hBc, hMem, _⟩ :=
      SwitchTheme_spec ThemeId M hCur
    have hCur1 : ∃ T ∈ M1.LoadedThemes, T.Id = M1.CurrentThemeId := by
      have hIn : M1.CurrentThemeId ∈ M.LoadedThemes.map (fun T => T.Id) := by
        by_cases hK : ∃ T ∈ M.LoadedThemes, T.Id = ThemeId
        · rw [hKnown hK]
          obtain ⟨T, hT, hId⟩ := hK
          exact List.mem_map.mpr ⟨T, hT, hId⟩
        · rw [hUnknown hK]
          obtain ⟨T, hT, hId⟩ := hCur
          exact List.mem_map.mpr ⟨T, hT, hId⟩
      rw [← hIds] at hIn
      obtain ⟨T, hT, hId⟩ := List.mem_map.mp hIn
      exact ⟨T, hT, hId⟩
    obtain ⟨Cur, hFind⟩ := Option.isSome_iff_exists.mp
      ((FindByKey_isSome_iff M1.LoadedThemes M1.CurrentThemeId).mpr hCur1)
    have hCurSized : Cur.LoadedDefaultColorSchemes.length = 0 ∨
        Cur.LoadedDefaultColorSchemes.length = NUM_FOLDER_SCHEMES := by
      rcases hMem Cur (FindByKey_some hFind).1 with h | h
      · exact hSized Cur h
      · exact Or.inl (by rw [h]; rfl)
    obtain ⟨Loaded, M2, eL, e2, hC2, hT2, _, hB2, _⟩ := LoadAndCopy_spec E M1 Cur hFind hCurSized
    obtain ⟨_, _, hLId, _⟩ := LoadThemeFolderSchemes_spec E M1.DefaultColorSchemes Cur hCurSized
    rw [e1]
    simp only [Option.some_bind]
    rw [e2]
    simp only [Option.map_some']
    refine ⟨_, rfl, ?_, ?_, ?_, ?_⟩
    · show M2.LoadedThemes.map (fun T => T.Id) = _
      rw [hT2, ← hIds]
      apply ModifyByKey_map_Id
      intro T _
      have := LoadThemeFolderSchemes_spec E M1.DefaultColorSchemes Cur hCurSized
      obtain ⟨Loaded1, eL1, hId1, _⟩ := this
      rw [eL] at eL1
      rw [Option.some.inj eL1, hId1]
      exact (FindByKey_some hFind).2
    · intro h
      show M2.CurrentThemeId = ThemeId
      rw [hC2]
      exact hKnown h.2
    · intro h
      show M2.CurrentThemeId = M.CurrentThemeId
      rw [hC2]
      exact hUnknown (fun hK => h ⟨by trivial, hK⟩)
    · show M2.ThemeChangedBroadcasts ++ [M2.CurrentThemeId] = _
      rw [hB2, hBc]

theorem LoadThemeFolderSchemes_some_Id (E : FEngine)
    (DefaultColorSchemes : Fin NUM_FOLDER_SCHEMES → FColorizedFolderColorScheme)
    (Theme Loaded : FColorizedFolderTheme)
    (h : LoadThemeFolderSchemes E DefaultColorSchemes Theme = some Loaded) :
    Loaded.Id = Theme.Id := by
  rw [LoadThemeFolderSchemes_eq] at h
  cases hS : ThemeFileSchemes E Theme.Filename with
  | none =>
    rw [hS] at h
    rw [← Option.some.inj h]
  | some SchemesObject =>
    rw [hS] at h
    simp only [Option.map_eq_some'] at h
    obtain ⟨_, _, h2⟩ := h
    rw [← h2]

theorem LoadAndCopy_some (E : FEngine) (M M2 : UColorizedFoldersManager)
    (h : ApplyTheme.LoadAndCopy E M = some M2) :
    M2.CurrentThemeId = M.CurrentThemeId ∧
    M2.LoadedThemes.map (fun T => T.Id) = M.LoadedThemes.map (fun T => T.Id) ∧
    M2.ThemeChangedBroadcasts = M.ThemeChangedBroadcasts := by
  unfold ApplyTheme.LoadAndCopy at h
  cases hF : FindByKey M.LoadedThemes M.CurrentThemeId with
  | none => rw [hF] at h; simp at h
  | some Cur =>
    rw [hF] at h
    simp only at h
    cases hL : LoadThemeFolderSchemes E M.DefaultColorSchemes Cur with
    | none => rw [hL] at h; simp at h
    | some Loaded =>
      rw [hL] at h
      simp only [Option.some_bind] at h
      have hIds : (ModifyByKey M.LoadedThemes M.CurrentThemeId (fun _ => Loaded)).map
          (fun T => T.Id) = M.LoadedThemes.map (fun T => T.Id) := by
        apply ModifyByKey_map_Id
        intro _ _
        rw [LoadThemeFolderSchemes_some_Id E _ Cur Loaded hL]
        exact (FindByKey_some hF).2
      split at h
      · split at h
        · rw [← Option.some.inj h]
          exact ⟨rfl, hIds, rfl⟩
        · simp at h
      · rw [← Option.some.inj h]
        exact ⟨rfl, hIds, rfl⟩

theorem SwitchTheme_some (ThemeId : FGuid) (M M1 : UColorizedFoldersManager)
    (h : ApplyTheme.SwitchTheme ThemeId M = some M1) :
    M1.LoadedThemes.map (fun T => T.Id) = M.LoadedThemes.map (fun T => T.Id) ∧
    ((∃ T ∈ M.LoadedThemes, T.Id = ThemeId) → M1.CurrentThemeId = ThemeId) ∧
    ((¬ ∃ T ∈ M.LoadedThemes, T.Id = ThemeId) → M1.CurrentThemeId = M.CurrentThemeId) ∧
    M1.ThemeChangedBroadcasts = M.ThemeChangedBroadcasts := by
  unfold ApplyTheme.SwitchTheme at h
  by_cases hEq : M.CurrentThemeId = ThemeId
  · rw [if_neg (not_not.mpr hEq)] at h
    rw [← Option.some.inj h]
    exact ⟨rfl, fun _ => hEq, fun _ => rfl, rfl⟩
  · rw [if_pos hEq] at h
    simp only [Option.map_eq_some'] at h
    obtain ⟨M0, h0, h1⟩ := h
    have hM0 : M0.LoadedThemes.map (fun T => T.Id) = M.LoadedThemes.map (fun T => T.Id) ∧
        M0.CurrentThemeId = M.CurrentThemeId ∧
        M0.ThemeChangedBroadcasts = M.ThemeChangedBroadcasts := by
      split at h0
      · cases hF : FindByKey M.LoadedThemes M.CurrentThemeId with
        | none => rw [hF] at h0; simp at h0
        | some Cur =>
          rw [hF] at h0
          rw [← Option.some.inj h0]
          exact ⟨ModifyByKey_map_Id _ _ _ (fun _ h => h), rfl, rfl⟩
      · rw [← Option.some.inj h0]
        exact ⟨rfl, rfl, rfl⟩
    have hKnownIff : (FindByKey M0.LoadedThemes ThemeId).isSome = true ↔
        ∃ T ∈ M.LoadedThemes, T.Id = ThemeId := by
      rw [FindByKey_isSome_iff]
      constructor
      · rintro ⟨T, hT, hId⟩
        have hIn : ThemeId ∈ M0.LoadedThemes.map (fun T => T.Id) :=
          List.mem_map.mpr ⟨T, hT, hId⟩
        rw [hM0.1] at hIn
        obtain ⟨T1, hT1, hT2⟩ := List.mem_map.mp hIn
        exact ⟨T1, hT1, hT2⟩
      · rintro ⟨T, hT, hId⟩
        have hIn : ThemeId ∈ M.LoadedThemes.map (fun T => T.Id) :=
          List.mem_map.mpr ⟨T, hT, hId⟩
        rw [← hM0.1] at hIn
        obtain ⟨T1, hT1, hT2⟩ := List.mem_map.mp hIn
        exact ⟨T1, hT1, hT2⟩
    cases hT : FindByKey M0.LoadedThemes ThemeId with
    | none =>
      rw [hT] at h1 hKnownIff
      rw [← h1]
      refine ⟨hM0.1, ?_, fun _ => hM0.2.1, hM0.2.2⟩
      intro hK
      exact absurd (hKnownIff.mpr hK) (by simp)
    | some Theme =>
      rw [hT] at h1 hKnownIff
      rw [← h1]
      refine ⟨hM0.1, fun _ => rfl, ?_, hM0.2.2⟩
      intro hK
      exact absurd (hKnownIff.mp rfl) hK

theorem ApplyTheme_some_spec (E : FEngine) (ThemeId : FGuid)
    (M M1 : UColorizedFoldersManager) (h : ApplyTheme E ThemeId M = some M1) :
    M1.LoadedThemes.map (fun T => T.Id) = M.LoadedThemes.map (fun T => T.Id) ∧
    ((ThemeId.IsValid = true ∧ ∃ T ∈ M.LoadedThemes, T.Id = ThemeId) →
      M1.CurrentThemeId = ThemeId) ∧
    ((¬ (ThemeId.IsValid = true ∧ ∃ T ∈ M.LoadedThemes, T.Id = ThemeId)) →
      M1.CurrentThemeId = M.CurrentThemeId) ∧
    M1.ThemeChangedBroadcasts = M.ThemeChangedBroadcasts ++ [M1.CurrentThemeId] := by
  unfold ApplyTheme at h
  simp only [Option.map_eq_some'] at h
  obtain ⟨M2, h2, hM1⟩ := h
  rw [← hM1]
  show M2.LoadedThemes.map (fun T => T.Id) = _ ∧
    ((ThemeId.IsValid = true ∧ ∃ T ∈ M.LoadedThemes, T.Id = ThemeId) →
      M2.CurrentThemeId = ThemeId) ∧
    ((¬ (ThemeId.IsValid = true ∧ ∃ T ∈ M.LoadedThemes, T.Id = ThemeId)) →
      M2.CurrentThemeId = M.CurrentThemeId) ∧
    M2.ThemeChangedBroadcasts ++ [M2.CurrentThemeId] =
      M.ThemeChangedBroadcasts ++ [M2.CurrentThemeId]
  by_cases hV : ThemeId.IsValid = true
  · rw [if_pos hV] at h2
    simp only [Option.bind_eq_some] at h2
    obtain ⟨M0, h0, h3⟩ := h2
    obtain ⟨hIds0, hK0, hU0, hB0⟩ := SwitchTheme_some ThemeId M M0 h0
    obtain ⟨hC2, hIds2, hB2⟩ := LoadAndCopy_some E M0 M2 h3
    refine ⟨hIds2.trans hIds0, ?_, ?_, by rw [hB2, hB0]⟩
    · intro hK
      rw [hC2]
      exact hK0 hK.2
    · intro hN
      rw [hC2]
      exact hU0 (fun hK => hN ⟨hV, hK⟩)
  · rw [if_neg hV] at h2
    rw [← Option.some.inj h2]
    exact ⟨rfl, fun hK => absurd hK.1 hV, fun _ => rfl, rfl⟩

/-- C5. In a state where the current theme id is the id of an entry of the theme list,
after `ApplyTheme(ThemeId)` the current theme id is `ThemeId` when `ThemeId` is valid and is
the id of an entry of the list, and is unchanged otherwise (`ThemeId` invalid or unknown);
the list has the same ids in the same order. This holds for every call that returns, and
the call does return when, in addition, every scheme array of the list has 0 or
`NUM_FOLDER_SCHEMES` slots (no index of `LoadThemeFolderSchemes` and no copy into
`ActiveSchemes` is then out of range). -/
theorem ApplyTheme_sets_current_theme_id (E : FEngine) (ThemeId : FGuid)
    (M : UColorizedFoldersManager)
    (hCur : ∃ T ∈ M.LoadedThemes, T.Id = M.CurrentThemeId) :
    (SchemeArraysSized M.LoadedThemes → ∃ M1, ApplyTheme E ThemeId M = some M1) ∧
    ∀ M1, ApplyTheme E ThemeId M = some M1 →
      ((ThemeId.IsValid = true ∧ ∃ T ∈ M.LoadedThemes, T.Id = ThemeId) →
        M1.CurrentThemeId = ThemeId) ∧
      ((¬ (ThemeId.IsValid = true ∧ ∃ T ∈ M.LoadedThemes, T.Id = ThemeId)) →
        M1.CurrentThemeId = M.CurrentThemeId) ∧
      M1.LoadedThemes.map (fun T => T.Id) = M.LoadedThemes.map (fun T => T.Id) := by
  constructor
  · intro hSized
    obtain ⟨M1, h1, _⟩ := ApplyTheme_spec E ThemeId M hCur hSized
    exact ⟨M1, h1⟩
  · intro M1 h
    obtain ⟨h1, h2, h3, _⟩ := ApplyTheme_some_spec E ThemeId M M1 h
    exact ⟨h2, h3, h1⟩

/-- Witness of C5: the theme of `T1.json` is applied while the built-in theme is current;
the call returns and the theme of `T1.json` is current afterwards. -/
theorem ApplyTheme_sets_current_theme_id_witness :
    ∃ M1, ApplyTheme ExampleUserEngine { D := 1 } ExampleLoaded = some M1 ∧
      M1.CurrentThemeId = { D := 1 } ∧
      M1.LoadedThemes.map (fun T => T.Id) = [{ D := 1 }, DefaultThemeId] := by
  have h := ApplyTheme_sets_current_theme_id ExampleUserEngine { D := 1 } ExampleLoaded
    (by decide)
  obtain ⟨M1, h1⟩ := h.1 (by unfold SchemeArraysSized; decide)
  obtain ⟨h2, _, h4⟩ := h.2 M1 h1
  exact ⟨M1, h1, h2 (by decide), h4.trans (by decide)⟩

/-- C6. Every call of `ApplyTheme` that returns appends exactly one broadcast to the
record of theme-changed notifications, and the broadcast carries the current theme id as it
is after the call; this includes the call with the id that is already current, which
leaves the current id as it is. The call returns for an invalid id in every state, and
for a valid id in every state where the current theme id is the id of an entry of the
theme list and the scheme arrays have 0 or `NUM_FOLDER_SCHEMES` slots. -/
theorem ApplyTheme_broadcasts_once (E : FEngine) (ThemeId : FGuid)
    (M : UColorizedFoldersManager) :
    (∀ M1, ApplyTheme E ThemeId M = some M1 →
      M1.ThemeChangedBroadcasts = M.ThemeChangedBroadcasts ++ [M1.CurrentThemeId]) ∧
    ((ThemeId.IsValid = true →
        (∃ T ∈ M.LoadedThemes, T.Id = M.CurrentThemeId) ∧ SchemeArraysSized M.LoadedThemes) →
      ∃ M1, ApplyTheme E ThemeId M = some M1 ∧
        M1.ThemeChangedBroadcasts = M.ThemeChangedBroadcasts ++ [M1.CurrentThemeId] ∧
        (ThemeId = M.CurrentThemeId → M1.CurrentThemeId = M.CurrentThemeId)) := by
  constructor
  · intro M1 h
    exact (ApplyTheme_some_spec E ThemeId M M1 h).2.2.2
  · intro hState
    cases hV : ThemeId.IsValid with
    | false =>
      exact ⟨{ M with
          ThemeChangedBroadcasts := M.ThemeChangedBroadcasts ++ [M.CurrentThemeId] },
        by simp [ApplyTheme, hV], rfl, fun _ => rfl⟩
    | true =>
      obtain ⟨hCur, hSized⟩ := hState hV
      obtain ⟨M1, h1, _, h3, _, h5⟩ := ApplyTheme_spec E ThemeId M hCur hSized
      refine ⟨M1, h1, h5, ?_⟩
      intro hSame
      rw [← hSame]
      apply h3
      refine ⟨hV, ?_⟩
      rw [hSame]
      exact hCur

/-- Witness of C6: the built-in theme is applied again while it is current. -/
theorem ApplyTheme_broadcasts_once_witness :
    ∃ M1, ApplyTheme ExampleUserEngine DefaultThemeId ExampleLoaded = some M1 ∧
      M1.ThemeChangedBroadcasts = [DefaultThemeId, DefaultThemeId] ∧
      M1.CurrentThemeId = DefaultThemeId := by
  obtain ⟨M1, h1, h2, h3⟩ :=
    (ApplyTheme_broadcasts_once ExampleUserEngine DefaultThemeId ExampleLoaded).2
      (fun _ => ⟨by decide, by unfold SchemeArraysSized; decide⟩)
  have hC : M1.CurrentThemeId = DefaultThemeId := h3 rfl
  refine ⟨M1, h1, ?_, hC⟩
  rw [h2, hC]
  rfl

/-- C7. When `ApplyTheme` is called with a valid id of a theme of the list whose schemes
are not loaded (its `LoadedDefaultColorSchemes` is empty), in a state where the current
theme id is the id of an entry of the list, the call returns with that theme current, and
every active scheme slot whose index is not a key of the `Schemes` object of the theme's
file equals the built-in default scheme of that index (`DefaultColorSchemes`). When the
file cannot be read, is not JSON, or has no `Schemes` object, all `NUM_FOLDER_SCHEMES`
active slots equal the built-in defaults. -/
theorem ApplyTheme_absent_slots_are_defaults (E : FEngine) (ThemeId : FGuid)
    (M : UColorizedFoldersManager) (Theme : FColorizedFolderTheme)
    (hValid : ThemeId.IsValid = true)
    (hCur : ∃ T ∈ M.LoadedThemes, T.Id = M.CurrentThemeId)
    (hKnown : FindByKey M.LoadedThemes ThemeId = some Theme)
    (hUnloaded : Theme.LoadedDefaultColorSchemes = []) :
    ∃ M1, ApplyTheme E ThemeId M = some M1 ∧ M1.CurrentThemeId = ThemeId ∧
      (∀ I : Fin NUM_FOLDER_SCHEMES,
        (∀ SchemesObject, ThemeFileSchemes E Theme.Filename = some SchemesObject →
          E.TryGetObjectField SchemesObject (FromInt I.val) = none) →
        M1.ActiveSchemes.Schemes I = M.DefaultColorSchemes I) ∧
      (ThemeFileSchemes E Theme.Filename = none →
        ∀ I : Fin NUM_FOLDER_SCHEMES, M1.ActiveSchemes.Schemes I = M.DefaultColorSchemes I) ∧
      (E.LoadFileToString Theme.Filename = none →
        ∀ I : Fin NUM_FOLDER_SCHEMES, M1.ActiveSchemes.Schemes I = M.DefaultColorSchemes I) ∧
      (∀ ThemeData ObjectPtr, E.LoadFileToString Theme.Filename = some ThemeData →
        E.Deserialize ThemeData = some ObjectPtr →
        E.TryGetObjectField ObjectPtr "Schemes" = none →
        ∀ I : Fin NUM_FOLDER_SCHEMES, M1.ActiveSchemes.Schemes I = M.DefaultColorSchemes I) := by
  obtain ⟨M1, e1, _, hSet, _, hDef, hAct, _, _, hFind1⟩ := SwitchTheme_spec ThemeId M hCur
  have hC1 : M1.CurrentThemeId = ThemeId := hSet ⟨Theme, FindByKey_some hKnown⟩
  have hFind : FindByKey M1.LoadedThemes M1.CurrentThemeId = some Theme := by
    rw [hC1]; exact hFind1 Theme hKnown hUnloaded
  have hLen0 : Theme.LoadedDefaultColorSchemes.length = 0 ∨
      Theme.LoadedDefaultColorSchemes.length = NUM_FOLDER_SCHEMES :=
    Or.inl (by rw [hUnloaded]; rfl)
  obtain ⟨Loaded, M2, eL, e2, hC2, _, hA2, _, _⟩ := LoadAndCopy_spec E M1 Theme hFind hLen0
  obtain ⟨Loaded1, eL1, _, _, _, _, hAbsent⟩ :=
    LoadThemeFolderSchemes_spec E M1.DefaultColorSchemes Theme hLen0
  rw [eL] at eL1
  have hLoaded : Loaded1 = Loaded := (Option.some.inj eL1).symm
  subst hLoaded
  have hSlots : ∀ I : Fin NUM_FOLDER_SCHEMES,
      (∀ SchemesObject, ThemeFileSchemes E Theme.Filename = some SchemesObject →
        E.TryGetObjectField SchemesObject (FromInt I.val) = none) →
      M2.ActiveSchemes.Schemes I = M.DefaultColorSchemes I := by
    intro I hI
    rw [hA2, ← hDef]
    exact Memcpy_of_getElem? _ _ I _ (hAbsent hUnloaded I hI)
  have hNone : ThemeFileSchemes E Theme.Filename = none →
      ∀ I : Fin NUM_FOLDER_SCHEMES, M2.ActiveSchemes.Schemes I = M.DefaultColorSchemes I := by
    intro h I
    apply hSlots I
    intro SchemesObject hS
    rw [h] at hS
    exact absurd hS (by simp)
  refine ⟨{ M2 with ThemeChangedBroadcasts := M2.ThemeChangedBroadcasts ++ [M2.CurrentThemeId] },
    ?_, hC2.trans hC1, hSlots, hNone, ?_, ?_⟩
  · unfold ApplyTheme
    rw [if_pos hValid, e1]
    simp only [Option.some_bind]
    rw [e2]
    rfl
  · intro h
    apply hNone
    unfold ThemeFileSchemes
    rw [h]
  · intro ThemeData ObjectPtr h1 h2 h3
    apply hNone
    unfold ThemeFileSchemes
    rw [h1]
    simp only
    rw [h2]
    exact h3

/-- Witness of C7: the theme of `T1.json`, not loaded, is applied; the `Schemes` object of
its file is empty. -/
theorem ApplyTheme_absent_slots_are_defaults_witness :
    ∃ M1, ApplyTheme ExampleUserEngine { D := 1 } ExampleLoaded = some M1 ∧
      M1.CurrentThemeId = { D := 1 } ∧
      ∀ I : Fin NUM_FOLDER_SCHEMES,
        M1.ActiveSchemes.Schemes I = ExampleLoaded.DefaultColorSchemes I := by
  obtain ⟨M1, h1, h2, h3, _⟩ := ApplyTheme_absent_slots_are_defaults ExampleUserEngine
    { D := 1 } ExampleLoaded
    { Id := { D := 1 }, DisplayName := "T1",
      Filename := "User/Editor/Slate/Themes/ContentBrowser/T1.json" }
    (by decide) (by decide) (by decide) rfl
  refine ⟨M1, h1, h2, fun I => h3 I ?_⟩
  intro SchemesObject hS
  have hEmpty : ThemeFileSchemes ExampleUserEngine
      "User/Editor/Slate/Themes/ContentBrowser/T1.json" = some [] := rfl
  rw [hEmpty] at hS
  rw [← Option.some.inj hS]
  rfl

/-! ## `EnsureValidCurrentTheme` (C9) -/

theorem Contains_iff (Themes : List FColorizedFolderTheme) (Key : FGuid) :
    Contains Themes Key = true ↔ ∃ T ∈ Themes, T.Id = Key :=
  FindByKey_isSome_iff Themes Key

theorem AddUnique_spec (Themes : List FColorizedFolderTheme) (Item : FColorizedFolderTheme) :
    (∃ T ∈ AddUnique Themes Item, T.Id = Item.Id) ∧
    (∃ Added, AddUnique Themes Item = Themes ++ Added ∧ (Added = [] ∨ Added = [Item])) := by
  unfold AddUnique
  cases hC : Contains Themes Item.Id with
  | true =>
    simp only [if_true]
    exact ⟨(Contains_iff Themes Item.Id).mp hC, [], by simp, Or.inl rfl⟩
  | false =>
    simp only [Bool.false_eq_true, if_false]
    exact ⟨⟨Item, by simp, rfl⟩, [Item], rfl, Or.inr rfl⟩

theorem EnsureValidCurrentTheme_facts (E : FEngine) (M : UColorizedFoldersManager) :
    (∃ T ∈ (EnsureValidCurrentTheme E M).LoadedThemes, T.Id = DefaultThemeId) ∧
    (∀ T ∈ M.LoadedThemes, T ∈ (EnsureValidCurrentTheme E M).LoadedThemes) ∧
    (∃ Added, (EnsureValidCurrentTheme E M).LoadedThemes = M.LoadedThemes ++ Added ∧
      (Added = [] ∨ ∃ T, Added = [T] ∧ T.Id = DefaultThemeId)) ∧
    ((M.CurrentThemeId.IsValid = true ∧ ∃ T ∈ M.LoadedThemes, T.Id = M.CurrentThemeId) →
      (EnsureValidCurrentTheme E M).CurrentThemeId = M.CurrentThemeId) ∧
    ((¬ (M.CurrentThemeId.IsValid = true ∧ ∃ T ∈ M.LoadedThemes, T.Id = M.CurrentThemeId)) →
      (EnsureValidCurrentTheme E M).CurrentThemeId = DefaultThemeId) := by
  obtain ⟨hHas, Added, hEq, hAdded⟩ := AddUnique_spec M.LoadedThemes
    { M.DefaultTheme with
      DisplayName := "No Theme"
      Id := DefaultThemeId
      Filename := E.PathCombine E.PluginBaseDir "Resources/Themes/NoTheme.json" }
  refine ⟨hHas, ?_, ⟨Added, hEq, ?_⟩, ?_, ?_⟩
  · intro T hT
    show T ∈ AddUnique M.LoadedThemes _
    rw [hEq]
    exact List.mem_append_left _ hT
  · rcases hAdded with h | h
    · exact Or.inl h
    · exact Or.inr ⟨_, h, rfl⟩
  · rintro ⟨hV, T, hT, hId⟩
    have hC : Contains (AddUnique M.LoadedThemes
        { M.DefaultTheme with
          DisplayName := "No Theme"
          Id := DefaultThemeId
          Filename := E.PathCombine E.PluginBaseDir "Resources/Themes/NoTheme.json" })
        M.CurrentThemeId = true := by
      rw [Contains_iff, hEq]
      exact ⟨T, List.mem_append_left _ hT, hId⟩
    show (if (!M.CurrentThemeId.IsValid || !Contains _ M.CurrentThemeId) = true then
      DefaultThemeId else M.CurrentThemeId) = M.CurrentThemeId
    rw [hV, hC]
    rfl
  · intro hNot
    show (if (!M.CurrentThemeId.IsValid || !Contains _ M.CurrentThemeId) = true then
      DefaultThemeId else M.CurrentThemeId) = DefaultThemeId
    split
    · rfl
    · rename_i hCond
      simp only [Bool.or_eq_true, Bool.not_eq_true', not_or, Bool.not_eq_false] at hCond
      obtain ⟨hV, hC⟩ := hCond
      rw [Contains_iff, hEq] at hC
      obtain ⟨T, hT, hId⟩ := hC
      rcases List.mem_append.mp hT with hT | hT
      · exact absurd ⟨hV, T, hT, hId⟩ hNot
      · rcases hAdded with h | h
        · rw [h] at hT
          simp at hT
        · rw [h] at hT
          simp only [List.mem_singleton] at hT
          rw [← hId, hT]

/-- C9. After `EnsureValidCurrentTheme`, for every prior theme list and current id: the
list has an entry with the built-in default id; the prior list is a prefix of the list
(every entry is still there, in its place, and at most the built-in entry is appended);
and the current theme id is unchanged when it was valid and the id of an entry of the
prior list, and is the built-in default id otherwise. -/
theorem EnsureValidCurrentTheme_keeps_themes_and_fixes_current (E : FEngine)
    (M : UColorizedFoldersManager) :
    (∃ T ∈ (EnsureValidCurrentTheme E M).LoadedThemes, T.Id = DefaultThemeId) ∧
    (∀ T ∈ M.LoadedThemes, T ∈ (EnsureValidCurrentTheme E M).LoadedThemes) ∧
    (∃ Added, (EnsureValidCurrentTheme E M).LoadedThemes = M.LoadedThemes ++ Added ∧
      (Added = [] ∨ ∃ T, Added = [T] ∧ T.Id = DefaultThemeId)) ∧
    ((M.CurrentThemeId.IsValid = true ∧ ∃ T ∈ M.LoadedThemes, T.Id = M.CurrentThemeId) →
      (EnsureValidCurrentTheme E M).CurrentThemeId = M.CurrentThemeId) ∧
    ((¬ (M.CurrentThemeId.IsValid = true ∧ ∃ T ∈ M.LoadedThemes, T.Id = M.CurrentThemeId)) →
      (EnsureValidCurrentTheme E M).CurrentThemeId = DefaultThemeId) :=
  EnsureValidCurrentTheme_facts E M

/-! ## `RemoveTheme` and the built-in entry (C10) -/

/-- Counterexample to C10. `LoadThemes` with the example engine followed by `ApplyTheme` of
the theme of `T1.json` gives the theme list and current id of `ExampleT1Active`: the list
holds the theme of `T1.json` and the built-in entry, and the theme of `T1.json` is current.
In that state `RemoveTheme` with the built-in default id removes the built-in entry. -/
theorem RemoveTheme_default_id_counterexample :
    ((LoadThemes ExampleUserEngine (ExampleManager {})).bind
        (ApplyTheme ExampleUserEngine { D := 1 })).map
      (fun M => (M.LoadedThemes, M.CurrentThemeId)) =
      some (ExampleT1Active.LoadedThemes, ExampleT1Active.CurrentThemeId) ∧
    (∃ T ∈ ExampleT1Active.LoadedThemes, T.Id = DefaultThemeId) ∧
    (∃ T ∈ ExampleT1Active.LoadedThemes, T.Id = ExampleT1Active.CurrentThemeId) ∧
    ¬ ∃ T ∈ (RemoveTheme DefaultThemeId ExampleT1Active).LoadedThemes,
        T.Id = DefaultThemeId := by
  decide

/-- C10, amended. In a state whose theme list holds the built-in entry, the list still
holds it after `RemoveTheme(ThemeId)` exactly when `ThemeId` is not the built-in default id
or the built-in theme is the current theme. -/
theorem RemoveTheme_keeps_default_iff (ThemeId : FGuid) (M : UColorizedFoldersManager)
    (hDefault : ∃ T ∈ M.LoadedThemes, T.Id = DefaultThemeId) :
    (∃ T ∈ (RemoveTheme ThemeId M).LoadedThemes, T.Id = DefaultThemeId) ↔
      (ThemeId ≠ DefaultThemeId ∨ M.CurrentThemeId = DefaultThemeId) := by
  unfold RemoveTheme
  by_cases hEq : M.CurrentThemeId = ThemeId
  · rw [if_neg (not_not.mpr hEq)]
    constructor
    · intro _
      by_cases h : ThemeId = DefaultThemeId
      · exact Or.inr (hEq.trans h)
      · exact Or.inl h
    · intro _
      exact hDefault
  · rw [if_pos hEq]
    simp only [RemoveAll]
    constructor
    · rintro ⟨T, hT, hId⟩
      have := (List.mem_filter.mp hT).2
      simp only [Bool.not_eq_true', decide_eq_false_iff_not] at this
      exact Or.inl (fun h => this (hId.trans h.symm))
    · rintro (h | h)
      · obtain ⟨T, hT, hId⟩ := hDefault
        refine ⟨T, List.mem_filter.mpr ⟨hT, ?_⟩, hId⟩
        simp only [Bool.not_eq_true', decide_eq_false_iff_not]
        rw [hId]
        exact Ne.symm h
      · obtain ⟨T, hT, hId⟩ := hDefault
        refine ⟨T, List.mem_filter.mpr ⟨hT, ?_⟩, hId⟩
        simp only [Bool.not_eq_true', decide_eq_false_iff_not]
        rw [hId, ← h]
        exact hEq

/-- Witness of the amended C10: in `ExampleT1Active` the id of the theme of `T1.json` is not
the built-in default id. -/
theorem RemoveTheme_keeps_default_iff_witness :
    (∃ T ∈ (RemoveTheme { D := 1 } ExampleT1Active).LoadedThemes, T.Id = DefaultThemeId) ↔
      (({ D := 1 } : FGuid) ≠ DefaultThemeId ∨
        ExampleT1Active.CurrentThemeId = DefaultThemeId) :=
  RemoveTheme_keeps_default_iff { D := 1 } ExampleT1Active (by decide)

/-! ## The current theme is always in the list (C8) -/

theorem current_in_list_of_ids {M M1 : UColorizedFoldersManager}
    (hIds : M1.LoadedThemes.map (fun T => T.Id) = M.LoadedThemes.map (fun T => T.Id))
    (hIn : ∃ T ∈ M.LoadedThemes, T.Id = M1.CurrentThemeId) :
    ∃ T ∈ M1.LoadedThemes, T.Id = M1.CurrentThemeId := by
  obtain ⟨T, hT, hId⟩ := hIn
  have : M1.CurrentThemeId ∈ M1.LoadedThemes.map (fun T => T.Id) := by
    rw [hIds]
    exact List.mem_map.mpr ⟨T, hT, hId⟩
  obtain ⟨T1, h1, h2⟩ := List.mem_map.mp this
  exact ⟨T1, h1, h2⟩

theorem ApplyTheme_some_current_in_list (E : FEngine) (ThemeId : FGuid)
    (M M1 : UColorizedFoldersManager)
    (hCur : ∃ T ∈ M.LoadedThemes, T.Id = M.CurrentThemeId)
    (h : ApplyTheme E ThemeId M = some M1) :
    ∃ T ∈ M1.LoadedThemes, T.Id = M1.CurrentThemeId := by
  obtain ⟨hIds, hK, hU, _⟩ := ApplyTheme_some_spec E ThemeId M M1 h
  apply current_in_list_of_ids hIds
  by_cases hC : ThemeId.IsValid = true ∧ ∃ T ∈ M.LoadedThemes, T.Id = ThemeId
  · rw [hK hC]
    exact hC.2
  · rw [hU hC]
    exact hCur

theorem EnsureValidCurrentTheme_current_in_list (E : FEngine)
    (M : UColorizedFoldersManager) :
    ∃ T ∈ (EnsureValidCurrentTheme E M).LoadedThemes,
      T.Id = (EnsureValidCurrentTheme E M).CurrentThemeId := by
  obtain ⟨hDef, hKeep, _, hSame, hReset⟩ := EnsureValidCurrentTheme_facts E M
  by_cases h : M.CurrentThemeId.IsValid = true ∧ ∃ T ∈ M.LoadedThemes, T.Id = M.CurrentThemeId
  · rw [hSame h]
    obtain ⟨_, T, hT, hId⟩ := h
    exact ⟨T, hKeep T hT, hId⟩
  · rw [hReset h]
    exact hDef

theorem Reachable_current_in_list (M : UColorizedFoldersManager) (h : Reachable M) :
    ∃ T ∈ M.LoadedThemes, T.Id = M.CurrentThemeId := by
  induction h with
  | LoadThemes E M0 M hLoad =>
    exact ApplyTheme_some_current_in_list E _ _ M
      (EnsureValidCurrentTheme_current_in_list E _) hLoad
  | ApplyTheme E ThemeId M M1 _ hStep ih =>
    exact ApplyTheme_some_current_in_list E ThemeId M M1 ih hStep
  | ApplyDefaultTheme E M M1 _ hStep ih =>
    exact ApplyTheme_some_current_in_list E _ M M1 ih hStep
  | RemoveTheme ThemeId M _ ih =>
    unfold RemoveTheme
    by_cases hEq : M.CurrentThemeId = ThemeId
    · rw [if_neg (not_not.mpr hEq)]
      exact ih
    · rw [if_pos hEq]
      obtain ⟨T, hT, hId⟩ := ih
      refine ⟨T, List.mem_filter.mpr ⟨hT, ?_⟩, hId⟩
      simp only [Bool.not_eq_true', decide_eq_false_iff_not]
      rw [hId]
      exact hEq
  | DuplicateActiveTheme NewThemeGuid M Result _ hStep ih =>
    unfold DuplicateActiveTheme at hStep
    cases hF : FindByKey M.LoadedThemes M.CurrentThemeId with
    | none => rw [hF] at hStep; simp at hStep
    | some Cur =>
      rw [hF] at hStep
      rw [← Option.some.inj hStep]
      obtain ⟨T, hT, hId⟩ := ih
      exact ⟨T, List.mem_append_left _ hT, hId⟩
  | SetCurrentThemeDisplayName NewDisplayName M M1 _ hStep ih =>
    unfold SetCurrentThemeDisplayName at hStep
    cases hF : FindByKey M.LoadedThemes M.CurrentThemeId with
    | none => rw [hF] at hStep; simp at hStep
    | some Cur =>
      rw [hF] at hStep
      rw [← Option.some.inj hStep]
      have hIds : (ModifyByKey M.LoadedThemes M.CurrentThemeId (fun CurrentTheme =>
          { CurrentTheme with DisplayName := NewDisplayName })).map (fun T => T.Id) =
          M.LoadedThemes.map (fun T => T.Id) :=
        ModifyByKey_map_Id _ _ _ (fun _ h => h)
      exact current_in_list_of_ids hIds ih
  | SaveCurrentThemeAs E InFilename M Result _ hStep ih =>
    unfold SaveCurrentThemeAs at hStep
    cases hF : FindByKey M.LoadedThemes M.CurrentThemeId with
    | none => rw [hF] at hStep; simp at hStep
    | some Cur =>
      rw [hF] at hStep
      have hIds : (ModifyByKey M.LoadedThemes M.CurrentThemeId (fun Theme =>
          { Theme with Filename := InFilename })).map (fun T => T.Id) =
          M.LoadedThemes.map (fun T => T.Id) :=
        ModifyByKey_map_Id _ _ _ (fun _ h => h)
      simp only at hStep
      split at hStep
      · split at hStep
        · rw [← Option.some.inj hStep]
          exact current_in_list_of_ids hIds ih
        · rw [← Option.some.inj hStep]
          exact current_in_list_of_ids hIds ih
      · rw [← Option.some.inj hStep]
        exact current_in_list_of_ids hIds ih

/-- C8. In every state reachable from `LoadThemes` by any sequence of `ApplyTheme`,
`ApplyDefaultTheme`, `RemoveTheme`, `DuplicateActiveTheme`, `SetCurrentThemeDisplayName` and
`SaveCurrentThemeAs`, the theme list has an entry whose id is the current theme id, so
the `FindByKey(CurrentThemeId)` of `GetCurrentTheme` finds an entry, with that id. -/
theorem Reachable_current_theme_in_list (M : UColorizedFoldersManager) (h : Reachable M) :
    (∃ T ∈ M.LoadedThemes, T.Id = M.CurrentThemeId) ∧
    ∃ Found, FindByKey M.LoadedThemes M.CurrentThemeId = some Found ∧
      Found.Id = M.CurrentThemeId := by
  have hIn := Reachable_current_in_list M h
  obtain ⟨Found, hF⟩ := Option.isSome_iff_exists.mp
    ((FindByKey_isSome_iff M.LoadedThemes M.CurrentThemeId).mpr hIn)
  exact ⟨hIn, Found, hF, (FindByKey_some hF).2⟩

/-- Witness of C8: `LoadThemes` with the example engine returns, and in the state it
returns the current theme (the built-in one) is in the list. -/
theorem Reachable_current_theme_in_list_witness :
    ∃ M, LoadThemes ExampleUserEngine (ExampleManager {}) = some M ∧
      (M.LoadedThemes.map (fun T => T.Id) = [{ D := 1 }, DefaultThemeId]) ∧
      M.CurrentThemeId = DefaultThemeId ∧
      (∃ T ∈ M.LoadedThemes, T.Id = M.CurrentThemeId) ∧
      ∃ Found, FindByKey M.LoadedThemes M.CurrentThemeId = some Found ∧
        Found.Id = M.CurrentThemeId := by
  have hSome : (LoadThemes ExampleUserEngine (ExampleManager {})).isSome = true := by decide
  obtain ⟨M, hM⟩ := Option.isSome_iff_exists.mp hSome
  have hIds : (LoadThemes ExampleUserEngine (ExampleManager {})).map
      (fun M => (M.LoadedThemes.map (fun T => T.Id), M.CurrentThemeId)) =
      some ([{ D := 1 }, DefaultThemeId], DefaultThemeId) := by decide
  rw [hM] at hIds
  simp only [Option.map_some', Option.some.injEq, Prod.mk.injEq] at hIds
  have hInv := Reachable_current_theme_in_list M
    (Reachable.LoadThemes ExampleUserEngine (ExampleManager {}) M hM)
  exact ⟨M, hM, hIds.1, hIds.2, hInv.1, hInv.2⟩

/-! ## `RemoveTheme` (C11, C12) -/

/-- C11. `RemoveTheme` called with the id of the current theme changes nothing: the manager
after the call is the manager before it, so the theme list (entries, order and content)
and the current theme id are as before. -/
theorem RemoveTheme_current_is_rejected (M : UColorizedFoldersManager) :
    RemoveTheme M.CurrentThemeId M = M ∧
    (RemoveTheme M.CurrentThemeId M).LoadedThemes = M.LoadedThemes ∧
    (RemoveTheme M.CurrentThemeId M).CurrentThemeId = M.CurrentThemeId := by
  have h : RemoveTheme M.CurrentThemeId M = M := by
    unfold RemoveTheme
    rw [if_neg (not_not.mpr rfl)]
  rw [h]
  exact ⟨rfl, rfl, rfl⟩

/-- C12. `RemoveTheme` called with an id that is not the current theme id removes exactly
the entries with that id: the list after the call is the list before it without the
entries with the id, so no entry has the id, every other entry is kept with its content,
the kept entries are in their former relative order, and the current theme id is
unchanged. -/
theorem RemoveTheme_non_active_removes_exactly (ThemeId : FGuid)
    (M : UColorizedFoldersManager) (hOther : ThemeId ≠ M.CurrentThemeId) :
    (RemoveTheme ThemeId M).LoadedThemes =
      M.LoadedThemes.filter (fun T => decide (T.Id ≠ ThemeId)) ∧
    (∀ T ∈ (RemoveTheme ThemeId M).LoadedThemes, T.Id ≠ ThemeId) ∧
    (∀ T ∈ M.LoadedThemes, T.Id ≠ ThemeId → T ∈ (RemoveTheme ThemeId M).LoadedThemes) ∧
    (RemoveTheme ThemeId M).LoadedThemes.Sublist M.LoadedThemes ∧
    (RemoveTheme ThemeId M).CurrentThemeId = M.CurrentThemeId := by
  have h : RemoveTheme ThemeId M =
      { M with LoadedThemes := M.LoadedThemes.filter (fun T => decide (T.Id ≠ ThemeId)) } := by
    unfold RemoveTheme
    rw [if_pos (Ne.symm hOther)]
    simp [RemoveAll]
  rw [h]
  refine ⟨rfl, ?_, ?_, List.filter_sublist _, rfl⟩
  · intro T hT
    simpa using (List.mem_filter.mp hT).2
  · intro T hT hId
    exact List.mem_filter.mpr ⟨hT, by simpa using hId⟩

/-- Witness of C12: in `ExampleLoaded` the built-in theme is current and the theme of
`T1.json` is removed. -/
theorem RemoveTheme_non_active_removes_exactly_witness :
    (RemoveTheme { D := 1 } ExampleLoaded).LoadedThemes.map (fun T => T.Id) =
      [DefaultThemeId] ∧
    (RemoveTheme { D := 1 } ExampleLoaded).CurrentThemeId = DefaultThemeId := by
  have h := RemoveTheme_non_active_removes_exactly { D := 1 } ExampleLoaded (by decide)
  refine ⟨?_, h.2.2.2.2⟩
  rw [h.1]
  decide

/-! ## `DuplicateActiveTheme` (C14) -/

theorem ModifyByKey_append_fresh (Themes : List FColorizedFolderTheme)
    (New : FColorizedFolderTheme) (Fn : FColorizedFolderTheme → FColorizedFolderTheme)
    (hFresh : ∀ T ∈ Themes, T.Id ≠ New.Id) :
    ModifyByKey (Themes ++ [New]) New.Id Fn = Themes ++ [Fn New] := by
  induction Themes with
  | nil => simp [ModifyByKey]
  | cons T Rest ih =>
    have hT : ¬ T.Id = New.Id := hFresh T (List.mem_cons_self _ _)
    have hRest := ih (fun X hX => hFresh X (List.mem_cons_of_mem _ hX))
    show ModifyByKey (T :: (Rest ++ [New])) New.Id Fn = T :: (Rest ++ [Fn New])
    rw [ModifyByKey, if_neg hT, hRest]

/-- C14. In a state where the current theme id is the id of an entry of the theme list,
`DuplicateActiveTheme` returns the newly generated id and appends exactly one entry to the
list: its id is the returned id, its `Filename` is empty, its name is the current theme's
name followed by ` - Copy`, and its schemes are `NUM_FOLDER_SCHEMES` slots equal, slot by
slot, to the active schemes at the time of the call. The existing entries, the current
theme id and the active schemes are unchanged. When the new id is not the id of an
existing entry, a later write to the duplicate (through `FindByKey` with its id) changes
the appended entry only; the active schemes are a separate member of the manager. -/
theorem DuplicateActiveTheme_appends_copy (NewThemeGuid : FGuid)
    (M : UColorizedFoldersManager)
    (hCur : ∃ T ∈ M.LoadedThemes, T.Id = M.CurrentThemeId) :
    ∃ Cur New M1, FindByKey M.LoadedThemes M.CurrentThemeId = some Cur ∧
      DuplicateActiveTheme NewThemeGuid M = some (NewThemeGuid, M1) ∧
      M1.LoadedThemes = M.LoadedThemes ++ [New] ∧
      New.Id = NewThemeGuid ∧
      New.Filename = "" ∧
      New.DisplayName = Cur.DisplayName ++ " - Copy" ∧
      New.LoadedDefaultColorSchemes.length = NUM_FOLDER_SCHEMES ∧
      (∀ I : Fin NUM_FOLDER_SCHEMES,
        New.LoadedDefaultColorSchemes[I.val]? = some (M.ActiveSchemes.Schemes I)) ∧
      M1.CurrentThemeId = M.CurrentThemeId ∧
      M1.ActiveSchemes = M.ActiveSchemes ∧
      M1.DefaultColorSchemes = M.DefaultColorSchemes ∧
      ((∀ T ∈ M.LoadedThemes, T.Id ≠ NewThemeGuid) →
        ∀ Fn : FColorizedFolderTheme → FColorizedFolderTheme,
          ModifyByKey M1.LoadedThemes NewThemeGuid Fn = M.LoadedThemes ++ [Fn New]) := by
  obtain ⟨Cur, hF⟩ := Option.isSome_iff_exists.mp
    ((FindByKey_isSome_iff M.LoadedThemes M.CurrentThemeId).mpr hCur)
  refine ⟨Cur,
    { Id := NewThemeGuid
      DisplayName := Cur.DisplayName ++ " - Copy"
      LoadedDefaultColorSchemes := MakeArrayView M.ActiveSchemes.Schemes },
    { M with LoadedThemes := M.LoadedThemes ++
        [{ Id := NewThemeGuid
           DisplayName := Cur.DisplayName ++ " - Copy"
           LoadedDefaultColorSchemes := MakeArrayView M.ActiveSchemes.Schemes }] },
    hF, ?_, rfl, rfl, rfl, rfl, MakeArrayView_length _,
    fun I => MakeArrayView_getElem? _ I, rfl, rfl, rfl, ?_⟩
  · unfold DuplicateActiveTheme
    rw [hF]
  · intro hFresh Fn
    exact ModifyByKey_append_fresh M.LoadedThemes
      { Id := NewThemeGuid
        DisplayName := Cur.DisplayName ++ " - Copy"
        LoadedDefaultColorSchemes := MakeArrayView M.ActiveSchemes.Schemes } Fn hFresh

/-- Witness of C14: the theme of `T1.json` is duplicated while it is current. -/
theorem DuplicateActiveTheme_appends_copy_witness :
    ∃ M1, DuplicateActiveTheme { D := 7 } ExampleT1Active = some ({ D := 7 }, M1) ∧
      M1.LoadedThemes.map (fun T => (T.Id, T.DisplayName, T.Filename)) =
        ExampleT1Active.LoadedThemes.map (fun T => (T.Id, T.DisplayName, T.Filename)) ++
          [({ D := 7 }, "T1 - Copy", "")] ∧
      M1.CurrentThemeId = { D := 1 } := by
  obtain ⟨Cur, New, M1, h0, h1, h2, h3, h4, h5, _, _, h8, _⟩ :=
    DuplicateActiveTheme_appends_copy { D := 7 } ExampleT1Active (by decide)
  have hCur : Cur.DisplayName = "T1" := by
    have : FindByKey ExampleT1Active.LoadedThemes ExampleT1Active.CurrentThemeId =
        some { Id := { D := 1 }, DisplayName := "T1",
               Filename := "User/Editor/Slate/Themes/ContentBrowser/T1.json",
               LoadedDefaultColorSchemes := MakeArrayView (fun _ => {}) } := by decide
    rw [this] at h0
    rw [← Option.some.inj h0]
  refine ⟨M1, h1, ?_, h8⟩
  rw [h2, List.map_append, List.map_cons, List.map_nil, h3, h4, h5, hCur]
  rfl

/-! ## `OnDeleteThemeClicked` (C13) -/

/-- Counterexample to C13. `LoadThemes` with the engine whose plugin directory holds
`T1.json`, then `ApplyTheme` of that theme: the current theme's `Filename` is the plugin
file. `OnDeleteThemeClicked`, confirmed, issues one `Delete`, of the per-user path built
from the display name, which is not the theme's `Filename`. -/
theorem OnDeleteThemeClicked_counterexample :
    (((LoadThemes ExamplePluginEngine (ExampleManager {})).bind
        (ApplyTheme ExamplePluginEngine { D := 1 })).bind
      (fun M => FindByKey M.LoadedThemes M.CurrentThemeId)).map (fun T => T.Filename) =
      some "Plugin/Slate/Themes/ContentBrowser/T1.json" ∧
    (((LoadThemes ExamplePluginEngine (ExampleManager {})).bind
        (ApplyTheme ExamplePluginEngine { D := 1 })).bind
      (OnDeleteThemeClicked ExamplePluginEngine true)).map (fun R => R.2) =
      some [FFileOp.Delete "User/Editor/Slate/Themes/ContentBrowser/T1.json"] ∧
    "User/Editor/Slate/Themes/ContentBrowser/T1.json" ≠
      "Plugin/Slate/Themes/ContentBrowser/T1.json" := by
  decide

/-- C13, amended. When a theme is deleted through `OnDeleteThemeClicked` (the dialog
confirmed, in a state where the current theme id is the id of an entry of the list and the
scheme arrays have 0 or `NUM_FOLDER_SCHEMES` slots), the default theme is applied, one
file-system call is issued, the `Delete` of `GetUserThemeDir() / DisplayName + ".json"`
built from the display name of the theme that was current, and `RemoveTheme` is called
with that theme's id. The deleted path is the theme's `Filename` when the `Filename` is
that path. When the dialog is not confirmed nothing changes and no call is issued. -/
theorem OnDeleteThemeClicked_deletes_file_named_after_DisplayName (E : FEngine)
    (M : UColorizedFoldersManager)
    (hCur : ∃ T ∈ M.LoadedThemes, T.Id = M.CurrentThemeId)
    (hSized : SchemeArraysSized M.LoadedThemes) :
    ∃ Prev M1, FindByKey M.LoadedThemes M.CurrentThemeId = some Prev ∧
      ApplyDefaultTheme E M = some M1 ∧
      OnDeleteThemeClicked E true M =
        some (RemoveTheme Prev.Id M1,
          [FFileOp.Delete (E.PathCombine (GetUserThemeDir E) Prev.DisplayName ++ ".json")]) ∧
      (Prev.Filename = E.PathCombine (GetUserThemeDir E) Prev.DisplayName ++ ".json" →
        OnDeleteThemeClicked E true M =
          some (RemoveTheme Prev.Id M1, [FFileOp.Delete Prev.Filename])) ∧
      OnDeleteThemeClicked E false M = some (M, []) := by
  obtain ⟨Prev, hF⟩ := Option.isSome_iff_exists.mp
    ((FindByKey_isSome_iff M.LoadedThemes M.CurrentThemeId).mpr hCur)
  obtain ⟨M1, h1, _⟩ := ApplyTheme_spec E M.DefaultTheme.Id M hCur hSized
  have hDel : OnDeleteThemeClicked E true M =
      some (RemoveTheme Prev.Id M1,
        [FFileOp.Delete (E.PathCombine (GetUserThemeDir E) Prev.DisplayName ++ ".json")]) := by
    unfold OnDeleteThemeClicked ApplyDefaultTheme
    rw [hF]
    simp only [if_true]
    rw [h1]
    rfl
  refine ⟨Prev, M1, hF, h1, hDel, ?_, ?_⟩
  · intro hName
    rw [hDel, ← hName]
  · unfold OnDeleteThemeClicked
    rw [hF]
    rfl

/-- Witness of the amended C13: the per-user theme `T1`, current in `ExampleT1Active`, is
deleted; its `Filename` is the path built from its display name. -/
theorem OnDeleteThemeClicked_deletes_file_named_after_DisplayName_witness :
    ∃ M2, OnDeleteThemeClicked ExampleUserEngine true ExampleT1Active =
        some (M2, [FFileOp.Delete "User/Editor/Slate/Themes/ContentBrowser/T1.json"]) ∧
      M2.LoadedThemes.map (fun T => T.Id) = [DefaultThemeId] ∧
      M2.CurrentThemeId = DefaultThemeId := by
  obtain ⟨Prev, M1, h0, h1, h2, _⟩ :=
    OnDeleteThemeClicked_deletes_file_named_after_DisplayName ExampleUserEngine
      ExampleT1Active (by decide) (by unfold SchemeArraysSized; decide)
  have hPrev : FindByKey ExampleT1Active.LoadedThemes ExampleT1Active.CurrentThemeId =
      some { Id := { D := 1 }, DisplayName := "T1",
             Filename := "User/Editor/Slate/Themes/ContentBrowser/T1.json",
             LoadedDefaultColorSchemes := MakeArrayView (fun _ => {}) } := by decide
  rw [hPrev] at h0
  have hP := Option.some.inj h0
  have hEval : (ApplyDefaultTheme ExampleUserEngine ExampleT1Active).map
      (fun M => ((RemoveTheme { D := 1 } M).LoadedThemes.map (fun T => T.Id),
        (RemoveTheme { D := 1 } M).CurrentThemeId)) =
      some ([DefaultThemeId], DefaultThemeId) := by decide
  rw [h1] at hEval
  simp only [Option.map_some', Option.some.injEq, Prod.mk.injEq] at hEval
  refine ⟨RemoveTheme Prev.Id M1, ?_, ?_, ?_⟩
  · rw [h2, ← hP]
    rfl
  · rw [← hP]
    exact hEval.1
  · rw [← hP]
    exact hEval.2

/-! ## `SaveCurrentThemeAs` (C15, C17) -/

theorem SaveCurrentThemeAs_eq (E : FEngine) (InFilename : String)
    (M : UColorizedFoldersManager) (Found : FColorizedFolderTheme)
    (hFind : FindByKey M.LoadedThemes M.CurrentThemeId = some Found) :
    SaveCurrentThemeAs E InFilename M =
      some ({ M with LoadedThemes := (ModifyByKey M.LoadedThemes M.CurrentThemeId
                (fun Theme => { Theme with Filename := InFilename })) },
        if E.FileExists InFilename = true then
          if E.PathCombine (GetUserThemeDir E) Found.DisplayName ++ ".json" ≠ InFilename then
            [FFileOp.SetReadOnly InFilename false,
             FFileOp.Move (E.PathCombine (GetUserThemeDir E) Found.DisplayName ++ ".json")
               InFilename,
             FFileOp.SaveStringToFile
               (E.JsonWriterOutput (SaveCurrentThemeAs.WriterCalls E
                 { Found with Filename := InFilename } M.ActiveSchemes))
               (E.PathCombine (GetUserThemeDir E) Found.DisplayName ++ ".json")]
          else
            [FFileOp.SetReadOnly InFilename false,
             FFileOp.SaveStringToFile
               (E.JsonWriterOutput (SaveCurrentThemeAs.WriterCalls E
                 { Found with Filename := InFilename } M.ActiveSchemes))
               (E.PathCombine (GetUserThemeDir E) Found.DisplayName ++ ".json")]
        else
          [FFileOp.SaveStringToFile
            (E.JsonWriterOutput (SaveCurrentThemeAs.WriterCalls E
              { Found with Filename := InFilename } M.ActiveSchemes))
            InFilename]) := by
  unfold SaveCurrentThemeAs
  rw [hFind]
  simp only
  split
  · split <;> rfl
  · rfl

theorem filterMap_flatMap_eq {α β γ : Type} (Items : List α) (Each : α → List β)
    (Pick : β → Option γ) :
    (Items.flatMap Each).filterMap Pick = Items.flatMap (fun X => (Each X).filterMap Pick) := by
  induction Items with
  | nil => rfl
  | cons X Rest ih => simp [List.flatMap_cons, List.filterMap_append, ih]

theorem SchemeCalls_keys (E : FEngine) (SchemeIndex : Nat)
    (Scheme : FColorizedFolderColorScheme) :
    (SaveCurrentThemeAs.SchemeCalls E SchemeIndex Scheme).filterMap
      FJsonWriterCall.ObjectKey = [FromInt SchemeIndex] := by
  unfold SaveCurrentThemeAs.SchemeCalls
  simp [List.filterMap_append, List.filterMap_map, FJsonWriterCall.ObjectKey,
    List.filterMap_cons, Function.comp_def]

theorem WriterCalls_keys (E : FEngine) (CurrentTheme : FColorizedFolderTheme)
    (ActiveSchemes : FColorizedFolderColorSchemeList) :
    (SaveCurrentThemeAs.WriterCalls E CurrentTheme ActiveSchemes).filterMap
      FJsonWriterCall.ObjectKey =
      "Schemes" :: (List.finRange NUM_FOLDER_SCHEMES).map (fun I => FromInt I.val) := by
  unfold SaveCurrentThemeAs.WriterCalls
  rw [List.filterMap_append, List.filterMap_append, filterMap_flatMap_eq]
  simp only [SchemeCalls_keys]
  have hFlat : ∀ Items : List (Fin NUM_FOLDER_SCHEMES),
      Items.flatMap (fun I => [FromInt I.val]) = Items.map (fun I => FromInt I.val) := by
    intro Items
    induction Items with
    | nil => rfl
    | cons X Rest ih => simp [List.flatMap_cons, ih]
  rw [hFlat]
  simp [FJsonWriterCall.ObjectKey, List.filterMap_cons]

theorem SchemeKeys_literal :
    (List.finRange NUM_FOLDER_SCHEMES).map (fun I => FromInt I.val) =
      ["0", "1", "2", "3", "4", "5", "6", "7", "8", "9", "10", "11", "12", "13", "14", "15",
       "16", "17", "18", "19", "20", "21", "22", "23", "24", "25", "26", "27", "28", "29",
       "30", "31"] := by
  decide

/-- C15. In a state where the current theme id is the id of an entry of the theme list,
`SaveCurrentThemeAs` issues exactly one `SaveStringToFile`, as its last file-system call,
and the string it writes is what the JSON writer produced from these calls: the root
object with `Version` 1, `Id` the current theme's id and `DisplayName` the current theme's
name, then the object `Schemes` with one object per scheme index, keyed `0` to `31` in
index order and no other key, where the object of index `I` holds `SchemeColor`,
`FolderNames` and `ExplicitPaths` of slot `I` of `ActiveSchemes`. The calls do not depend
on the `LoadedDefaultColorSchemes` of any theme. -/
theorem SaveCurrentThemeAs_serializes_active_schemes (E : FEngine) (InFilename : String)
    (M : UColorizedFoldersManager)
    (hCur : ∃ T ∈ M.LoadedThemes, T.Id = M.CurrentThemeId) :
    ∃ Cur M1 Before Path Calls,
      FindByKey M.LoadedThemes M.CurrentThemeId = some Cur ∧
      SaveCurrentThemeAs E InFilename M =
        some (M1, Before ++ [FFileOp.SaveStringToFile (E.JsonWriterOutput Calls) Path]) ∧
      (∀ Op ∈ Before, ∀ Content Filename, Op ≠ FFileOp.SaveStringToFile Content Filename) ∧
      Calls =
        [FJsonWriterCall.WriteObjectStart,
         FJsonWriterCall.WriteValueInt "Version" 1,
         FJsonWriterCall.WriteValueString "Id" (E.GuidToString Cur.Id),
         FJsonWriterCall.WriteValueString "DisplayName" Cur.DisplayName,
         FJsonWriterCall.WriteObjectStartNamed "Schemes"]
        ++ (List.finRange NUM_FOLDER_SCHEMES).flatMap (fun I =>
          [FJsonWriterCall.WriteObjectStartNamed (FromInt I.val),
           FJsonWriterCall.WriteValueString "SchemeColor"
             (E.ColorToString (M.ActiveSchemes.Schemes I).SchemeColor),
           FJsonWriterCall.WriteArrayStart "FolderNames"]
          ++ ((M.ActiveSchemes.Schemes I).ResolveFolderNames E).map
              FJsonWriterCall.WriteArrayValue
          ++ [FJsonWriterCall.WriteArrayEnd,
              FJsonWriterCall.WriteArrayStart "ExplicitPaths"]
          ++ ((M.ActiveSchemes.Schemes I).ResolveExplicitPaths E).map
              FJsonWriterCall.WriteArrayValue
          ++ [FJsonWriterCall.WriteArrayEnd,
              FJsonWriterCall.WriteObjectEnd])
        ++ [FJsonWriterCall.WriteObjectEnd,
            FJsonWriterCall.WriteObjectEnd,
            FJsonWriterCall.Close] ∧
      Calls.filterMap FJsonWriterCall.ObjectKey =
        ["Schemes",
         "0", "1", "2", "3", "4", "5", "6", "7", "8", "9", "10", "11", "12", "13", "14", "15",
         "16", "17", "18", "19", "20", "21", "22", "23", "24", "25", "26", "27", "28", "29",
         "30", "31"] := by
  obtain ⟨Cur, hF⟩ := Option.isSome_iff_exists.mp
    ((FindByKey_isSome_iff M.LoadedThemes M.CurrentThemeId).mpr hCur)
  have hKeys := WriterCalls_keys E { Cur with Filename := InFilename } M.ActiveSchemes
  rw [SchemeKeys_literal] at hKeys
  have hEq := SaveCurrentThemeAs_eq E InFilename M Cur hF
  by_cases hExists : E.FileExists InFilename = true
  · rw [if_pos hExists] at hEq
    by_cases hPath : E.PathCombine (GetUserThemeDir E) Cur.DisplayName ++ ".json" ≠ InFilename
    · rw [if_pos hPath] at hEq
      refine ⟨Cur, _,
        [FFileOp.SetReadOnly InFilename false,
         FFileOp.Move (E.PathCombine (GetUserThemeDir E) Cur.DisplayName ++ ".json")
           InFilename], _, _, hF, hEq, ?_, rfl, hKeys⟩
      intro Op hOp Content Filename hSave
      rw [hSave] at hOp
      simp at hOp
    · rw [if_neg hPath] at hEq
      refine ⟨Cur, _, [FFileOp.SetReadOnly InFilename false], _, _, hF, hEq, ?_, rfl, hKeys⟩
      intro Op hOp Content Filename hSave
      rw [hSave] at hOp
      simp at hOp
  · rw [if_neg hExists] at hEq
    refine ⟨Cur, _, [], _, _, hF, hEq, ?_, rfl, hKeys⟩
    intro Op hOp
    simp at hOp

/-- Witness of C15: the theme `T1`, current in `ExampleT1Active`, is saved to a path where
no file exists. -/
theorem SaveCurrentThemeAs_serializes_active_schemes_witness :
    ∃ M1 Before Path Calls,
      SaveCurrentThemeAs ExampleUserEngine "Export/New.json" ExampleT1Active =
        some (M1, Before ++
          [FFileOp.SaveStringToFile (ExampleUserEngine.JsonWriterOutput Calls) Path]) ∧
      Calls.filterMap FJsonWriterCall.ObjectKey =
        ["Schemes",
         "0", "1", "2", "3", "4", "5", "6", "7", "8", "9", "10", "11", "12", "13", "14", "15",
         "16", "17", "18", "19", "20", "21", "22", "23", "24", "25", "26", "27", "28", "29",
         "30", "31"] := by
  obtain ⟨_, M1, Before, Path, Calls, _, h1, _, _, h4⟩ :=
    SaveCurrentThemeAs_serializes_active_schemes ExampleUserEngine "Export/New.json"
      ExampleT1Active (by decide)
  exact ⟨M1, Before, Path, Calls, h1, h4⟩

theorem append_json_ne_empty (S : String) : S ++ ".json" ≠ "" := by
  intro h
  have hLen := congrArg String.length h
  simp only [String.length_append] at hLen
  have h5 : ".json".length = 5 := by decide
  have h0 : "".length = 0 := by decide
  omega

theorem ValidateThemeName_nonempty (M : UColorizedFoldersManager)
    (CurrentActiveThemeDisplayName ThemeName : String) (hName : ThemeName ≠ "") :
    ValidateThemeName M CurrentActiveThemeDisplayName ThemeName = (true, none) := by
  unfold ValidateThemeName
  rw [if_neg hName, if_pos (by decide)]

theorem ValidateThemeName_empty (M : UColorizedFoldersManager)
    (CurrentActiveThemeDisplayName : String) :
    ValidateThemeName M CurrentActiveThemeDisplayName "" =
      (false, some "Theme name cannot be empty.") := by
  unfold ValidateThemeName
  rw [if_pos rfl]

theorem OnSaveClicked_valid_eq (E : FEngine)
    (CurrentActiveThemeDisplayName EditableThemeName : String)
    (M : UColorizedFoldersManager) (Cur : FColorizedFolderTheme)
    (hFind : FindByKey M.LoadedThemes M.CurrentThemeId = some Cur)
    (hName : EditableThemeName ≠ "") :
    OnSaveClicked E CurrentActiveThemeDisplayName EditableThemeName M =
      some
        { Manager :=
            { M with LoadedThemes :=
                (ModifyByKey
                  (ModifyByKey M.LoadedThemes M.CurrentThemeId
                    (fun CurrentTheme => { CurrentTheme with DisplayName := EditableThemeName }))
                  M.CurrentThemeId
                  (fun Theme => { Theme with
                    Filename :=
                      E.PathCombine (GetUserThemeDir E) EditableThemeName ++ ".json" })) }
          FileOps :=
            (if E.FileExists
                (E.PathCombine (GetUserThemeDir E) EditableThemeName ++ ".json") = true then
              [FFileOp.SetReadOnly
                (E.PathCombine (GetUserThemeDir E) EditableThemeName ++ ".json") false]
            else [])
            ++ [FFileOp.SaveStringToFile
                  (E.JsonWriterOutput (SaveCurrentThemeAs.WriterCalls E
                    { Cur with
                      DisplayName := EditableThemeName
                      Filename :=
                        E.PathCombine (GetUserThemeDir E) EditableThemeName ++ ".json" }
                    M.ActiveSchemes))
                  (E.PathCombine (GetUserThemeDir E) EditableThemeName ++ ".json")]
            ++ (if Cur.Filename ≠ "" ∧
                  Cur.Filename ≠
                    E.PathCombine (GetUserThemeDir E) EditableThemeName ++ ".json" then
                [FFileOp.DeleteFile Cur.Filename]
              else [])
          bSaved := true
          Error := some "" } := by
  have hRenamed : FindByKey
      (ModifyByKey M.LoadedThemes M.CurrentThemeId
        (fun CurrentTheme => { CurrentTheme with DisplayName := EditableThemeName }))
      M.CurrentThemeId = some { Cur with DisplayName := EditableThemeName } := by
    rw [FindByKey_ModifyByKey_self M.LoadedThemes M.CurrentThemeId
      (fun CurrentTheme => { CurrentTheme with DisplayName := EditableThemeName })
      (fun _ h => h), hFind]
    rfl
  have hRename : SetCurrentThemeDisplayName EditableThemeName M =
      some { M with LoadedThemes :=
        (ModifyByKey M.LoadedThemes M.CurrentThemeId
          (fun CurrentTheme => { CurrentTheme with DisplayName := EditableThemeName })) } := by
    unfold SetCurrentThemeDisplayName
    rw [hFind]
  have hSave := SaveCurrentThemeAs_eq E
    (E.PathCombine (GetUserThemeDir E) EditableThemeName ++ ".json")
    { M with LoadedThemes :=
        (ModifyByKey M.LoadedThemes M.CurrentThemeId
          (fun CurrentTheme => { CurrentTheme with DisplayName := EditableThemeName })) }
    { Cur with DisplayName := EditableThemeName } hRenamed
  have hSaveBlock : ∀ Prev : String, OnSaveClicked.Save E
      (E.PathCombine (GetUserThemeDir E) EditableThemeName ++ ".json") Prev
      { M with LoadedThemes :=
        (ModifyByKey M.LoadedThemes M.CurrentThemeId
          (fun CurrentTheme => { CurrentTheme with DisplayName := EditableThemeName })) } =
      some
        { Manager :=
            { M with LoadedThemes :=
                (ModifyByKey
                  (ModifyByKey M.LoadedThemes M.CurrentThemeId
                    (fun CurrentTheme => { CurrentTheme with DisplayName := EditableThemeName }))
                  M.CurrentThemeId
                  (fun Theme => { Theme with
                    Filename :=
                      E.PathCombine (GetUserThemeDir E) EditableThemeName ++ ".json" })) }
          FileOps :=
            (if E.FileExists
                (E.PathCombine (GetUserThemeDir E) EditableThemeName ++ ".json") = true then
              [FFileOp.SetReadOnly
                (E.PathCombine (GetUserThemeDir E) EditableThemeName ++ ".json") false]
            else [])
            ++ [FFileOp.SaveStringToFile
                  (E.JsonWriterOutput (SaveCurrentThemeAs.WriterCalls E
                    { Cur with
                      DisplayName := EditableThemeName
                      Filename :=
                        E.PathCombine (GetUserThemeDir E) EditableThemeName ++ ".json" }
                    M.ActiveSchemes))
                  (E.PathCombine (GetUserThemeDir E) EditableThemeName ++ ".json")]
            ++ (if Prev ≠ "" ∧
                  Prev ≠ E.PathCombine (GetUserThemeDir E) EditableThemeName ++ ".json" then
                [FFileOp.DeleteFile Prev]
              else [])
          bSaved := true
          Error := some "" } := by
    intro Prev
    unfold OnSaveClicked.Save
    rw [if_pos (append_json_ne_empty _), hSave]
    simp only [Option.map_some', ne_eq, not_true_eq_false, if_false]
    by_cases hE : E.FileExists
        (E.PathCombine (GetUserThemeDir E) EditableThemeName ++ ".json") = true
    · by_cases hP : Prev ≠ "" ∧
          Prev ≠ E.PathCombine (GetUserThemeDir E) EditableThemeName ++ ".json"
      · simp [hE, hP]
      · simp only [ne_eq] at hP
        simp [hE, hP]
    · by_cases hP : Prev ≠ "" ∧
          Prev ≠ E.PathCombine (GetUserThemeDir E) EditableThemeName ++ ".json"
      · simp [hE, hP]
      · simp only [ne_eq] at hP
        simp [hE, hP]
  unfold OnSaveClicked
  rw [hFind]
  simp only
  rw [ValidateThemeName_nonempty M _ _ hName]
  simp only [Bool.true_eq_false, if_false]
  rw [hRename]
  simp only [Option.some_bind]
  rw [hRenamed]
  simp only
  by_cases hEmpty : Cur.Filename = ""
  · rw [if_pos hEmpty, hSaveBlock "", hEmpty]
  · rw [if_neg hEmpty, hSaveBlock Cur.Filename]

/-- Counterexample to C18. The theme `T1`, stored at the per-user `T1.json`, is renamed to
`Renamed` and saved, in a file system in which the write to the per-user `Renamed.json`
fails. `OnSaveClicked` issues the write and then the delete of the old file: after the
call the old file, which existed before, does not exist, and no new file exists. -/
theorem OnSaveClicked_failed_write_counterexample :
    ExampleFailingWriteFiles.Files "User/Editor/Slate/Themes/ContentBrowser/T1.json" =
      some ExampleTextT1 ∧
    ExampleFailingWriteFiles.Writable
      "User/Editor/Slate/Themes/ContentBrowser/Renamed.json" = false ∧
    (OnSaveClicked (ExampleUserEngine.OnFiles ExampleFailingWriteFiles) "T1" "Renamed"
        ExampleT1Active).map
      (fun R => (R.FileOps,
        (ExampleFailingWriteFiles.Run R.FileOps).Files
          "User/Editor/Slate/Themes/ContentBrowser/T1.json",
        (ExampleFailingWriteFiles.Run R.FileOps).Files
          "User/Editor/Slate/Themes/ContentBrowser/Renamed.json")) =
      some ([FFileOp.SaveStringToFile "theme document"
               "User/Editor/Slate/Themes/ContentBrowser/Renamed.json",
             FFileOp.DeleteFile "User/Editor/Slate/Themes/ContentBrowser/T1.json"],
            none, none) := by
  decide

/-- C18, amended. When the current theme, stored at a path that is not empty and is not
`GetUserThemeDir() / Name + ".json"`, is saved through `OnSaveClicked` under the non-empty
name `Name`, the file-system calls end with the write of the new file followed by the
delete of the old file: the write precedes the delete, and nothing is deleted before the
write. The delete is issued whether or not the write succeeded: after the call the old
file does not exist; the new file holds the document when the write succeeded and is as
it was before the call when the write failed. -/
theorem OnSaveClicked_write_precedes_delete (E : FEngine) (FS : FFileSystem)
    (CurrentActiveThemeDisplayName Name : String) (M : UColorizedFoldersManager)
    (Cur : FColorizedFolderTheme)
    (hFind : FindByKey M.LoadedThemes M.CurrentThemeId = some Cur)
    (hName : Name ≠ "")
    (hStored : Cur.Filename ≠ "")
    (hMoved : Cur.Filename ≠ E.PathCombine (GetUserThemeDir E) Name ++ ".json") :
    ∃ R Before Output,
      OnSaveClicked E CurrentActiveThemeDisplayName Name M = some R ∧
      R.FileOps = Before ++
        [FFileOp.SaveStringToFile Output (E.PathCombine (GetUserThemeDir E) Name ++ ".json"),
         FFileOp.DeleteFile Cur.Filename] ∧
      (Before = [] ∨
        Before = [FFileOp.SetReadOnly
          (E.PathCombine (GetUserThemeDir E) Name ++ ".json") false]) ∧
      (FS.Run R.FileOps).Files Cur.Filename = none ∧
      (FS.Writable (E.PathCombine (GetUserThemeDir E) Name ++ ".json") = true →
        (FS.Run R.FileOps).Files (E.PathCombine (GetUserThemeDir E) Name ++ ".json") =
          some Output) ∧
      (FS.Writable (E.PathCombine (GetUserThemeDir E) Name ++ ".json") = false →
        (FS.Run R.FileOps).Files (E.PathCombine (GetUserThemeDir E) Name ++ ".json") =
          FS.Files (E.PathCombine (GetUserThemeDir E) Name ++ ".json")) := by
  have hEq := OnSaveClicked_valid_eq E CurrentActiveThemeDisplayName Name M Cur hFind hName
  have hCond : Cur.Filename ≠ "" ∧
      Cur.Filename ≠ E.PathCombine (GetUserThemeDir E) Name ++ ".json" := ⟨hStored, hMoved⟩
  rw [if_pos hCond] at hEq
  refine ⟨_,
    (if E.FileExists (E.PathCombine (GetUserThemeDir E) Name ++ ".json") = true then
      [FFileOp.SetReadOnly (E.PathCombine (GetUserThemeDir E) Name ++ ".json") false]
    else []),
    E.JsonWriterOutput (SaveCurrentThemeAs.WriterCalls E
      { Cur with
        DisplayName := Name
        Filename := E.PathCombine (GetUserThemeDir E) Name ++ ".json" }
      M.ActiveSchemes),
    hEq, ?_, ?_, ?_, ?_, ?_⟩
  · show _ ++ [_] ++ [_] = _ ++ [_, _]
    rw [List.append_assoc]
    rfl
  · by_cases hE : E.FileExists (E.PathCombine (GetUserThemeDir E) Name ++ ".json") = true
    · exact Or.inr (if_pos hE)
    · exact Or.inl (if_neg hE)
  · by_cases hE : E.FileExists (E.PathCombine (GetUserThemeDir E) Name ++ ".json") = true
    · simp [FFileSystem.Run, FFileSystem.Apply, hE]
    · simp [FFileSystem.Run, FFileSystem.Apply, hE]
  · intro hW
    by_cases hE : E.FileExists (E.PathCombine (GetUserThemeDir E) Name ++ ".json") = true
    · simp [FFileSystem.Run, FFileSystem.Apply, hE, hW, Ne.symm hMoved]
    · simp [FFileSystem.Run, FFileSystem.Apply, hE, hW, Ne.symm hMoved]
  · intro hW
    by_cases hE : E.FileExists (E.PathCombine (GetUserThemeDir E) Name ++ ".json") = true
    · simp [FFileSystem.Run, FFileSystem.Apply, hE, hW, Ne.symm hMoved]
    · simp [FFileSystem.Run, FFileSystem.Apply, hE, hW, Ne.symm hMoved]

/-- Witness of the amended C18: the theme `T1` is renamed to `Renamed` and saved in a file
system where every write succeeds. -/
theorem OnSaveClicked_write_precedes_delete_witness :
    ∃ R, OnSaveClicked ExampleUserEngine "T1" "Renamed" ExampleT1Active = some R ∧
      R.FileOps =
        [FFileOp.SaveStringToFile "theme document"
           "User/Editor/Slate/Themes/ContentBrowser/Renamed.json",
         FFileOp.DeleteFile "User/Editor/Slate/Themes/ContentBrowser/T1.json"] := by
  obtain ⟨R, Before, Output, h1, h2, _, _⟩ :=
    OnSaveClicked_write_precedes_delete ExampleUserEngine ExampleExportFiles "T1" "Renamed"
      ExampleT1Active
      { Id := { D := 1 }, DisplayName := "T1",
        Filename := "User/Editor/Slate/Themes/ContentBrowser/T1.json",
        LoadedDefaultColorSchemes := MakeArrayView (fun _ => {}) }
      (by decide) (by decide) (by decide) (by decide)
  have hOps : (OnSaveClicked ExampleUserEngine "T1" "Renamed" ExampleT1Active).map
      (fun R => R.FileOps) =
      some [FFileOp.SaveStringToFile "theme document"
              "User/Editor/Slate/Themes/ContentBrowser/Renamed.json",
            FFileOp.DeleteFile "User/Editor/Slate/Themes/ContentBrowser/T1.json"] := by
    decide
  rw [h1] at hOps
  exact ⟨R, h1, Option.some.inj hOps⟩

/-- C19, the code at the failing input. In `ExampleT1Active` the current theme is `T1` and
the built-in theme, with another id, is named `No Theme`. For the name `No Theme`
`ValidateThemeName` returns true without setting an error (the statement
`if (1) return 1;` returns before the loop that compares the names), and `OnSaveClicked`
renames the current theme to `No Theme` and calls `SaveCurrentThemeAs`: both themes are
then named `No Theme`, the new file is written and the old file is deleted. -/
theorem ValidateThemeName_accepts_used_name :
    (∃ T ∈ ExampleT1Active.LoadedThemes,
      T.DisplayName = "No Theme" ∧ T.Id ≠ ExampleT1Active.CurrentThemeId) ∧
    ValidateThemeName ExampleT1Active "T1" "No Theme" = (true, none) ∧
    (OnSaveClicked ExampleUserEngine "T1" "No Theme" ExampleT1Active).map
      (fun R => (R.bSaved, R.FileOps,
        R.Manager.LoadedThemes.map (fun T => (T.Id, T.DisplayName)))) =
      some (true,
        [FFileOp.SaveStringToFile "theme document"
           "User/Editor/Slate/Themes/ContentBrowser/No Theme.json",
         FFileOp.DeleteFile "User/Editor/Slate/Themes/ContentBrowser/T1.json"],
        [({ D := 1 }, "No Theme"), (DefaultThemeId, "No Theme")]) := by
  decide

/-- C20. For the empty name `ValidateThemeName` returns false (and sets the error `Theme
name cannot be empty.`). `OnSaveClicked` with the empty name in the name box then leaves
the manager as it was, so the current theme keeps its display name; it does not call
`SaveCurrentThemeAs` and issues no file-system call, so no file is written or deleted.
The call returns in every state where the current theme id is the id of an entry of the
theme list. -/
theorem OnSaveClicked_empty_name_rejected (E : FEngine)
    (CurrentActiveThemeDisplayName : String) (M : UColorizedFoldersManager) :
    (ValidateThemeName M CurrentActiveThemeDisplayName "").1 = false ∧
    (∀ R, OnSaveClicked E CurrentActiveThemeDisplayName "" M = some R →
      R.Manager = M ∧ R.FileOps = [] ∧ R.bSaved = false ∧
      R.Error = some "Theme name cannot be empty.") ∧
    ((∃ T ∈ M.LoadedThemes, T.Id = M.CurrentThemeId) →
      ∃ R, OnSaveClicked E CurrentActiveThemeDisplayName "" M = some R) := by
  have hV := ValidateThemeName_empty M CurrentActiveThemeDisplayName
  have hEq : ∀ Cur, FindByKey M.LoadedThemes M.CurrentThemeId = some Cur →
      OnSaveClicked E CurrentActiveThemeDisplayName "" M =
        some { Manager := M, FileOps := [], bSaved := false,
               Error := some "Theme name cannot be empty." } := by
    intro Cur hF
    unfold OnSaveClicked
    rw [hF]
    simp only
    rw [hV]
    rfl
  refine ⟨by rw [hV], ?_, ?_⟩
  · intro R hR
    cases hF : FindByKey M.LoadedThemes M.CurrentThemeId with
    | none =>
      unfold OnSaveClicked at hR
      rw [hF] at hR
      simp at hR
    | some Cur =>
      rw [hEq Cur hF] at hR
      rw [← Option.some.inj hR]
      exact ⟨rfl, rfl, rfl, rfl⟩
  · intro hCur
    obtain ⟨Cur, hF⟩ := Option.isSome_iff_exists.mp
      ((FindByKey_isSome_iff M.LoadedThemes M.CurrentThemeId).mpr hCur)
    exact ⟨_, hEq Cur hF⟩

/-- Witness of C20: the name box is empty while the theme `T1` is current. -/
theorem OnSaveClicked_empty_name_rejected_witness :
    ∃ R, OnSaveClicked ExampleUserEngine "T1" "" ExampleT1Active = some R ∧
      R.Manager = ExampleT1Active ∧ R.FileOps = [] ∧ R.bSaved = false := by
  obtain ⟨_, hAll, hSome⟩ :=
    OnSaveClicked_empty_name_rejected ExampleUserEngine "T1" ExampleT1Active
  obtain ⟨R, hR⟩ := hSome (by decide)
  obtain ⟨h1, h2, h3, _⟩ := hAll R hR
  exact ⟨R, hR, h1, h2, h3⟩

/-! ## Folder names written and read back (C16) -/

theorem splitOnP_mem {α : Type} (P : α → Bool) (Items : List α) :
    ∀ Piece ∈ Items.splitOnP P, ∀ X ∈ Piece, P X = false ∧ X ∈ Items := by
  induction Items with
  | nil =>
    intro Piece hPiece X hX
    simp [List.splitOnP_nil] at hPiece
    rw [hPiece] at hX
    simp at hX
  | cons A Rest ih =>
    intro Piece hPiece X hX
    rw [List.splitOnP_cons] at hPiece
    by_cases hA : P A = true
    · rw [if_pos hA] at hPiece
      rcases List.mem_cons.mp hPiece with h | h
      · rw [h] at hX
        simp at hX
      · obtain ⟨h1, h2⟩ := ih Piece h X hX
        exact ⟨h1, List.mem_cons_of_mem _ h2⟩
    · rw [if_neg hA] at hPiece
      cases hSplit : Rest.splitOnP P with
      | nil =>
        rw [hSplit] at hPiece
        simp [List.modifyHead] at hPiece
      | cons Head Tail =>
        rw [hSplit] at hPiece
        simp only [List.modifyHead] at hPiece
        rcases List.mem_cons.mp hPiece with h | h
        · rw [h] at hX
          rcases List.mem_cons.mp hX with hX | hX
          · rw [hX]
            exact ⟨by simpa using hA, List.mem_cons_self _ _⟩
          · obtain ⟨h1, h2⟩ := ih Head (by rw [hSplit]; exact List.mem_cons_self _ _) X hX
            exact ⟨h1, List.mem_cons_of_mem _ h2⟩
        · obtain ⟨h1, h2⟩ := ih Piece (by rw [hSplit]; exact List.mem_cons_of_mem _ h) X hX
          exact ⟨h1, List.mem_cons_of_mem _ h2⟩

theorem ParseIntoArray_mem (S Name : String) (h : Name ∈ ParseIntoArray S) :
    Name ≠ "" ∧ ',' ∉ Name.data ∧ ∀ Ch ∈ Name.data, Ch ∈ S.data := by
  unfold ParseIntoArray at h
  obtain ⟨Piece, hPiece, hName⟩ := List.mem_map.mp h
  obtain ⟨hSplit, hNonEmpty⟩ := List.mem_filter.mp hPiece
  rw [← hName]
  refine ⟨?_, ?_, ?_⟩
  · intro hEq
    have hData : Piece = [] := congrArg String.data hEq
    rw [hData] at hNonEmpty
    simp at hNonEmpty
  · intro hComma
    have := (splitOnP_mem (fun Ch => Ch == ',') S.data Piece hSplit ',' hComma).1
    simp at this
  · intro Ch hCh
    exact (splitOnP_mem (fun Ch => Ch == ',') S.data Piece hSplit Ch hCh).2

theorem OnItemDataUpdated_Loop_eq (E : FEngine) (Dirs : List String)
    (M : UColorizedFoldersManager) (DataUpdates : List FContentBrowserItemDataUpdate) :
    OnItemDataUpdated.Loop E Dirs M DataUpdates =
      if ∃ Data ∈ DataUpdates, Data.IsFolder = true then [RequestFolderColorUpdate E Dirs M]
      else [] := by
  induction DataUpdates with
  | nil => simp [OnItemDataUpdated.Loop]
  | cons Data Rest ih =>
    unfold OnItemDataUpdated.Loop
    by_cases hFolder : Data.IsFolder = true
    · rw [if_pos hFolder, if_pos ⟨Data, List.mem_cons_self _ _, hFolder⟩]
    · rw [if_neg hFolder, ih]
      by_cases hRest : ∃ D ∈ Rest, D.IsFolder = true
      · obtain ⟨D, hD, hF⟩ := hRest
        rw [if_pos ⟨D, hD, hF⟩, if_pos ⟨D, List.mem_cons_of_mem _ hD, hF⟩]
      · rw [if_neg hRest, if_neg]
        rintro ⟨D, hD, hF⟩
        rcases List.mem_cons.mp hD with h | h
        · exact hFolder (h ▸ hF)
        · exact hRest ⟨D, h, hF⟩

/-- C24. `OnItemDataUpdated` runs a colorization pass if and only if live update is enabled
and at least one of the updated items is a folder, and then runs exactly one pass, however
many folders the update holds; `OnRequestUpdate`, the handler of the theme-changed event,
runs exactly one pass when live update is enabled and none otherwise. -/
theorem change_signal_runs_one_pass_iff_live_update (E : FEngine)
    (Settings : UColorizedFoldersSettings) (Dirs : List String)
    (M : UColorizedFoldersManager) :
    (∀ DataUpdates : List FContentBrowserItemDataUpdate,
      OnItemDataUpdated E Settings Dirs M DataUpdates =
        (if Settings.IsLiveUpdateFoldersEnabled = true ∧
            ∃ Data ∈ DataUpdates, Data.IsFolder = true then
          [RequestFolderColorUpdate E Dirs M]
        else []) ∧
      ((OnItemDataUpdated E Settings Dirs M DataUpdates).length = 1 ↔
        (Settings.IsLiveUpdateFoldersEnabled = true ∧
          ∃ Data ∈ DataUpdates, Data.IsFolder = true)) ∧
      (OnItemDataUpdated E Settings Dirs M DataUpdates).length ≤ 1) ∧
    (∀ Id : FGuid,
      OnRequestUpdate E Settings Dirs M Id =
        (if Settings.IsLiveUpdateFoldersEnabled = true then
          [RequestFolderColorUpdate E Dirs M]
        else []) ∧
      (OnRequestUpdate E Settings Dirs M Id).length =
        if Settings.IsLiveUpdateFoldersEnabled = true then 1 else 0) := by
  constructor
  · intro DataUpdates
    have hEq : OnItemDataUpdated E Settings Dirs M DataUpdates =
        (if Settings.IsLiveUpdateFoldersEnabled = true ∧
            ∃ Data ∈ DataUpdates, Data.IsFolder = true then
          [RequestFolderColorUpdate E Dirs M]
        else []) := by
      unfold OnItemDataUpdated
      rw [OnItemDataUpdated_Loop_eq]
      cases hLive : Settings.IsLiveUpdateFoldersEnabled with
      | false => simp
      | true => simp
    refine ⟨hEq, ?_, ?_⟩
    · rw [hEq]
      by_cases h : Settings.IsLiveUpdateFoldersEnabled = true ∧
          ∃ Data ∈ DataUpdates, Data.IsFolder = true
      · rw [if_pos h]
        exact ⟨fun _ => h, fun _ => rfl⟩
      · rw [if_neg h]
        exact ⟨fun h0 => absurd h0 (by simp), fun h1 => absurd h1 h⟩
    · rw [hEq]
      split <;> simp
  · intro Id
    have hEq : OnRequestUpdate E Settings Dirs M Id =
        (if Settings.IsLiveUpdateFoldersEnabled = true then
          [RequestFolderColorUpdate E Dirs M]
        else []) := by
      unfold OnRequestUpdate
      cases hLive : Settings.IsLiveUpdateFoldersEnabled with
      | false => simp
      | true => simp
    refine ⟨hEq, ?_⟩
    rw [hEq]
    split <;> rfl

/-! ## Resolved folder names and paths (C25, C26) -/

/-- Counterexample to C25. A `FolderNames` string with spaces around the names, as it can
be typed in the scheme's text property, resolves to names that keep the spaces:
`ResolveFolderNames` splits at the commas and sorts, and trims nothing. The same holds for
`ResolveExplicitPaths`. -/
theorem Resolve_untrimmed_counterexample :
    FColorizedFolderColorScheme.ResolveFolderNames ExampleUserEngine
        { FolderNames := " Art, Maps " } = [" Art", " Maps "] ∧
    IsTrimmed " Art" = false ∧ IsTrimmed " Maps " = false ∧
    FColorizedFolderColorScheme.ResolveExplicitPaths ExampleUserEngine
        { ExplicitPaths := "Art/Props ,Maps" } = ["Art/Props ", "Maps"] ∧
    IsTrimmed "Art/Props " = false := by
  decide

theorem ParseIntoArray_RemoveSpaces_no_space (S Name : String)
    (h : Name ∈ ParseIntoArray (RemoveSpaces S)) : ' ' ∉ Name.data := by
  intro hSpace
  have hIn := (ParseIntoArray_mem _ _ h).2.2 ' ' hSpace
  unfold RemoveSpaces at hIn
  simp at hIn

theorem ParseIntoArray_empty (Name : String) : Name ∉ ParseIntoArray "" := by
  intro h
  have hMem := ParseIntoArray_mem _ _ h
  apply hMem.1
  have hData : Name.data = [] := by
    cases hD : Name.data with
    | nil => rfl
    | cons Ch Rest =>
      have := hMem.2.2 Ch (by rw [hD]; exact List.mem_cons_self _ _)
      simp at this
  show Name = String.mk []
  rw [← hData]

/-- C25, amended. In a `FolderNames` or `ExplicitPaths` string stored by
`SaveArrayToFolders` or `SaveArrayToPaths`, which is how `LoadThemeFolderSchemes` stores the
names of a theme file, every element returned by `ResolveFolderNames` or
`ResolveExplicitPaths` is free of the space character, so it has no leading and no trailing
space. The engine's `Sort` is assumed to return only elements of its argument. -/
theorem Resolve_after_SaveArray_has_no_space (E : FEngine)
    (hSort : ∀ Names Name, Name ∈ E.SortStrings Names → Name ∈ Names)
    (S : FColorizedFolderColorScheme) (InNames : List String) :
    (∀ Name ∈ (S.SaveArrayToFolders InNames).ResolveFolderNames E,
      ' ' ∉ Name.data ∧ Name.data.head? ≠ some ' ' ∧ Name.data.getLast? ≠ some ' ') ∧
    (∀ Name ∈ (S.SaveArrayToPaths InNames).ResolveExplicitPaths E,
      ' ' ∉ Name.data ∧ Name.data.head? ≠ some ' ' ∧ Name.data.getLast? ≠ some ' ') := by
  have hEnds : ∀ Name : String, ' ' ∉ Name.data →
      ' ' ∉ Name.data ∧ Name.data.head? ≠ some ' ' ∧ Name.data.getLast? ≠ some ' ' := by
    intro Name hNo
    refine ⟨hNo, ?_, ?_⟩
    · intro hHead
      exact hNo (List.mem_of_mem_head? hHead)
    · intro hLast
      exact hNo (List.mem_of_mem_getLast? hLast)
  have hStored : ∀ Name : String,
      Name ∈ ParseIntoArray
        (if InNames.length = 0 then "" else RemoveSpaces (JoinWithCommas InNames)) →
      ' ' ∉ Name.data := by
    intro Name hName
    by_cases hLen : InNames.length = 0
    · rw [if_pos hLen] at hName
      exact absurd hName (ParseIntoArray_empty Name)
    · rw [if_neg hLen] at hName
      exact ParseIntoArray_RemoveSpaces_no_space _ _ hName
  constructor
  · intro Name hName
    apply hEnds
    apply hStored
    have hIn := hSort _ _ hName
    unfold FColorizedFolderColorScheme.SaveArrayToFolders at hIn
    by_cases hLen : InNames.length = 0
    · rw [if_pos hLen] at hIn ⊢
      exact hIn
    · rw [if_neg hLen] at hIn ⊢
      exact hIn
  · intro Name hName
    apply hEnds
    apply hStored
    have hIn := hSort _ _ hName
    unfold FColorizedFolderColorScheme.SaveArrayToPaths at hIn
    by_cases hLen : InNames.length = 0
    · rw [if_pos hLen] at hIn ⊢
      exact hIn
    · rw [if_neg hLen] at hIn ⊢
      exact hIn

/-- Witness of the amended C25: the names ` Art` and `Level Maps` are stored by
`SaveArrayToFolders` and resolve to `Art` and `LevelMaps`. -/
theorem Resolve_after_SaveArray_has_no_space_witness :
    ((({} : FColorizedFolderColorScheme).SaveArrayToFolders
        [" Art", "Level Maps"]).ResolveFolderNames ExampleUserEngine = ["Art", "LevelMaps"]) ∧
    ∀ Name ∈ (({} : FColorizedFolderColorScheme).SaveArrayToFolders
        [" Art", "Level Maps"]).ResolveFolderNames ExampleUserEngine, ' ' ∉ Name.data :=
  ⟨by decide, fun Name hName =>
    ((Resolve_after_SaveArray_has_no_space ExampleUserEngine (fun _ _ h => h) {}
      [" Art", "Level Maps"]).1 Name hName).1⟩

/-- C26, the code at the failing input. The `FolderNames` string `Art,Art` resolves to a
list that holds the name `Art` twice, and the `ExplicitPaths` string `Art/Props,Art/Props`
to a list that holds the path twice: `ResolveFolderNames` and `ResolveExplicitPaths` split
at the commas and sort (the sort of the example engine leaves the order as it is), and
remove no duplicate. -/
theorem Resolve_keeps_duplicates :
    FColorizedFolderColorScheme.ResolveFolderNames ExampleUserEngine
        { FolderNames := "Art,Art" } = ["Art", "Art"] ∧
    ¬ (FColorizedFolderColorScheme.ResolveFolderNames ExampleUserEngine
        { FolderNames := "Art,Art" }).Nodup ∧
    FColorizedFolderColorScheme.ResolveExplicitPaths ExampleUserEngine
        { ExplicitPaths := "Art/Props,Art/Props" } = ["Art/Props", "Art/Props"] ∧
    ¬ (FColorizedFolderColorScheme.ResolveExplicitPaths ExampleUserEngine
        { ExplicitPaths := "Art/Props,Art/Props" }).Nodup := by
  decide

/-! ## `ReadTheme` (C27) -/

/-- C27. `ReadTheme` returns true if and only if the theme data deserializes to a JSON
object that has a numeric field `Version`, a string field `Id` that parses as a GUID, a
string field `DisplayName` and a field `Schemes`. When it returns true, the out-parameter
holds the parsed id and the display name of the document, and its file name and its scheme
array are those it had before the call: no scheme data is read. -/
theorem ReadTheme_true_iff_document_has_all_fields (E : FEngine) (ThemeData : String)
    (OutTheme : FColorizedFolderTheme) :
    ((ReadTheme E ThemeData OutTheme).1 = true ↔
      ∃ ObjectPtr Version IdString Id DisplayString,
        E.Deserialize ThemeData = some ObjectPtr ∧
        E.TryGetNumberField ObjectPtr "Version" = some Version ∧
        E.TryGetStringField ObjectPtr "Id" = some IdString ∧
        E.GuidParse IdString = some Id ∧
        E.TryGetStringField ObjectPtr "DisplayName" = some DisplayString ∧
        E.HasField ObjectPtr "Schemes" = true) ∧
    ((ReadTheme E ThemeData OutTheme).1 = true →
      ∃ ObjectPtr IdString Id DisplayString,
        E.Deserialize ThemeData = some ObjectPtr ∧
        E.TryGetStringField ObjectPtr "Id" = some IdString ∧
        E.GuidParse IdString = some Id ∧
        E.TryGetStringField ObjectPtr "DisplayName" = some DisplayString ∧
        (ReadTheme E ThemeData OutTheme).2 =
          { Id := Id
            DisplayName := DisplayString
            Filename := OutTheme.Filename
            LoadedDefaultColorSchemes := OutTheme.LoadedDefaultColorSchemes }) := by
  unfold ReadTheme
  cases hJson : E.Deserialize ThemeData with
  | none => simp
  | some ObjectPtr =>
    cases hVersion : E.TryGetNumberField ObjectPtr "Version" with
    | none => simp [hVersion]
    | some Version =>
      cases hId : E.TryGetStringField ObjectPtr "Id" with
      | none => simp [hVersion, hId]
      | some IdString =>
        cases hParse : E.GuidParse IdString with
        | none => simp [hVersion, hId, hParse]
        | some Id =>
          cases hName : E.TryGetStringField ObjectPtr "DisplayName" with
          | none => simp [hVersion, hId, hParse, hName]
          | some DisplayString =>
            cases hSchemes : E.HasField ObjectPtr "Schemes" with
            | false => simp [hVersion, hId, hParse, hName, hSchemes]
            | true => simp [hVersion, hId, hParse, hName, hSchemes]

/-! ## A save whose write fails (C21) -/

theorem ModifyByKey_append_found (Before After : List FColorizedFolderTheme)
    (Found : FColorizedFolderTheme) (Key : FGuid)
    (Fn : FColorizedFolderTheme → FColorizedFolderTheme)
    (hBefore : ∀ T ∈ Before, T.Id ≠ Key) (hFound : Found.Id = Key) :
    ModifyByKey (Before ++ Found :: After) Key Fn = Before ++ Fn Found :: After := by
  induction Before with
  | nil =>
    show ModifyByKey (Found :: After) Key Fn = Fn Found :: After
    rw [ModifyByKey, if_pos hFound]
  | cons T Rest ih =>
    have hT : ¬ T.Id = Key := hBefore T (List.mem_cons_self _ _)
    show ModifyByKey (T :: (Rest ++ Found :: After)) Key Fn = T :: (Rest ++ Fn Found :: After)
    rw [ModifyByKey, if_neg hT, ih (fun X hX => hBefore X (List.mem_cons_of_mem _ hX))]

/-- Counterexample to C21. The theme `T1`, stored at the per-user `T1.json`, is current. In
a file system in which the write to the per-user `Renamed.json` fails, `OnSaveClicked` with
the name `Renamed` leaves no file `Renamed.json` behind, and the current theme of the
registry is named `Renamed` and stored at `Renamed.json`: both differ from what they were
before the save. `SaveCurrentThemeAs` alone, with the path of `Renamed.json`, changes the
file name of the current theme in the same way. -/
theorem failed_save_changes_registry_counterexample :
    (FindByKey ExampleT1Active.LoadedThemes ExampleT1Active.CurrentThemeId).map
        (fun T => (T.DisplayName, T.Filename)) =
      some ("T1", "User/Editor/Slate/Themes/ContentBrowser/T1.json") ∧
    ExampleFailingWriteFiles.Writable
      "User/Editor/Slate/Themes/ContentBrowser/Renamed.json" = false ∧
    (OnSaveClicked (ExampleUserEngine.OnFiles ExampleFailingWriteFiles) "T1" "Renamed"
        ExampleT1Active).map
      (fun R =>
        ((ExampleFailingWriteFiles.Run R.FileOps).Files
            "User/Editor/Slate/Themes/ContentBrowser/Renamed.json",
          (FindByKey R.Manager.LoadedThemes R.Manager.CurrentThemeId).map
            (fun T => (T.DisplayName, T.Filename)))) =
      some (none,
        some ("Renamed", "User/Editor/Slate/Themes/ContentBrowser/Renamed.json")) ∧
    (SaveCurrentThemeAs (ExampleUserEngine.OnFiles ExampleFailingWriteFiles)
        "User/Editor/Slate/Themes/ContentBrowser/Renamed.json" ExampleT1Active).map
      (fun R =>
        ((ExampleFailingWriteFiles.Run R.2).Files
            "User/Editor/Slate/Themes/ContentBrowser/Renamed.json",
          (FindByKey R.1.LoadedThemes R.1.CurrentThemeId).map
            (fun T => (T.DisplayName, T.Filename)))) =
      some (none, some ("T1", "User/Editor/Slate/Themes/ContentBrowser/Renamed.json")) := by
  decide

/-- C21, amended. A save changes the registry before the file is written and whatever the
outcome of the write, which the code does not read. In a state whose current theme `Cur`
is in the list: after `SaveCurrentThemeAs(InFilename)` the current theme's `Filename` is
`InFilename`; after `OnSaveClicked` with the non-empty name `Name` the current theme's
`DisplayName` is `Name` and its `Filename` is `GetUserThemeDir() / Name + ".json"`. The
current theme's id and scheme array, every other theme of the list, the order of the list
and every other member of the manager are the same as before the save was attempted. -/
theorem save_changes_only_name_and_file_of_current_theme (E : FEngine)
    (CurrentActiveThemeDisplayName Name : String) (M : UColorizedFoldersManager)
    (Cur : FColorizedFolderTheme)
    (hFind : FindByKey M.LoadedThemes M.CurrentThemeId = some Cur)
    (hName : Name ≠ "") :
    ∃ Before After,
      M.LoadedThemes = Before ++ Cur :: After ∧
      (∀ T ∈ Before, T.Id ≠ M.CurrentThemeId) ∧
      (∀ InFilename, ∃ Ops,
        SaveCurrentThemeAs E InFilename M =
          some ({ M with LoadedThemes :=
                    Before ++ { Cur with Filename := InFilename } :: After }, Ops)) ∧
      (∃ R, OnSaveClicked E CurrentActiveThemeDisplayName Name M = some R ∧
        R.Manager =
          { M with LoadedThemes :=
              Before ++
                { Cur with
                  DisplayName := Name
                  Filename := E.PathCombine (GetUserThemeDir E) Name ++ ".json" } ::
                After }) := by
  obtain ⟨Before, After, hSplit, hBefore, _⟩ :=
    ModifyByKey_split (fun T => T) hFind
  have hCurId : Cur.Id = M.CurrentThemeId := (FindByKey_some hFind).2
  refine ⟨Before, After, hSplit, hBefore, ?_, ?_⟩
  · intro InFilename
    have hEq := SaveCurrentThemeAs_eq E InFilename M Cur hFind
    rw [hSplit, ModifyByKey_append_found Before After Cur M.CurrentThemeId _ hBefore hCurId]
      at hEq
    exact ⟨_, hEq⟩
  · have hEq := OnSaveClicked_valid_eq E CurrentActiveThemeDisplayName Name M Cur hFind hName
    refine ⟨_, hEq, ?_⟩
    show { M with LoadedThemes := _ } = _
    rw [hSplit, ModifyByKey_append_found Before After Cur M.CurrentThemeId _ hBefore hCurId,
      ModifyByKey_append_found Before After { Cur with DisplayName := Name }
        M.CurrentThemeId _ hBefore hCurId]

/-- Witness of the amended C21: the theme `T1` is saved under the name `Renamed` in the file
system in which the write to `Renamed.json` fails. The built-in theme, the other entry of
the list, is as it was. -/
theorem save_changes_only_name_and_file_of_current_theme_witness :
    ∃ R, OnSaveClicked (ExampleUserEngine.OnFiles ExampleFailingWriteFiles) "T1" "Renamed"
        ExampleT1Active = some R ∧
      R.Manager.LoadedThemes =
        [{ Id := { D := 1 }, DisplayName := "Renamed",
           Filename := "User/Editor/Slate/Themes/ContentBrowser/Renamed.json",
           LoadedDefaultColorSchemes := MakeArrayView (fun _ => {}) },
         { Id := DefaultThemeId, DisplayName := "No Theme",
           Filename := "Base/Resources/Themes/NoTheme.json" }] := by
  obtain ⟨Before, After, hSplit, hBefore, _, R, hR, hM⟩ :=
    save_changes_only_name_and_file_of_current_theme
      (ExampleUserEngine.OnFiles ExampleFailingWriteFiles) "T1" "Renamed" ExampleT1Active
      { Id := { D := 1 }, DisplayName := "T1",
        Filename := "User/Editor/Slate/Themes/ContentBrowser/T1.json",
        LoadedDefaultColorSchemes := MakeArrayView (fun _ => {}) }
      (by decide) (by decide)
  refine ⟨R, hR, ?_⟩
  have hList : (OnSaveClicked (ExampleUserEngine.OnFiles ExampleFailingWriteFiles) "T1"
      "Renamed" ExampleT1Active).map (fun R => R.Manager.LoadedThemes) =
      some [{ Id := { D := 1 }, DisplayName := "Renamed",
              Filename := "User/Editor/Slate/Themes/ContentBrowser/Renamed.json",
              LoadedDefaultColorSchemes := MakeArrayView (fun _ => {}) },
            { Id := DefaultThemeId, DisplayName := "No Theme",
              Filename := "Base/Resources/Themes/NoTheme.json" }] := by
    decide
  rw [hR] at hList
  exact Option.some.inj hList

/-! ## The colorization pass (C22, C23) -/

theorem ColorizeDir_foldl_spec (E : FEngine) (Scheme : FColorizedFolderColorScheme)
    (Ds : List String) :
    ∀ Pass : FColorizePass,
      (∀ P, P ∈ (Ds.foldl (ColorizeDir E Scheme) Pass).Tracking ↔
        P ∈ Pass.Tracking ∧ ¬ (P ∈ Ds ∧ SchemeMatches E Scheme P = true)) ∧
      (∀ P, (Ds.foldl (ColorizeDir E Scheme) Pass).PathColors.filter
            (fun Call => Call.1 == P) =
          Pass.PathColors.filter (fun Call => Call.1 == P) ++
            if P ∈ Ds ∧ P ∈ Pass.Tracking ∧ SchemeMatches E Scheme P = true then
              [(P, Scheme.SchemeColor)]
            else []) := by
  induction Ds with
  | nil =>
    intro Pass
    simp
  | cons D Rest ih =>
    intro Pass
    rw [List.foldl_cons]
    obtain ⟨hT, hC⟩ := ih (ColorizeDir E Scheme Pass D)
    by_cases hCond : D ∈ Pass.Tracking ∧ SchemeMatches E Scheme D = true
    · have hStep : ColorizeDir E Scheme Pass D =
          { Tracking := Pass.Tracking.filter (fun Tracked => Tracked != D)
            PathColors := Pass.PathColors ++ [(D, Scheme.SchemeColor)] } := by
        unfold ColorizeDir
        simp [hCond.1, hCond.2]
      rw [hStep] at hT hC ⊢
      constructor
      · intro P
        rw [hT P]
        by_cases hPD : P = D
        · subst hPD
          simp [hCond.2]
        · simp [hPD]
      · intro P
        rw [hC P]
        by_cases hPD : P = D
        · subst hPD
          simp [hCond.1, hCond.2]
        · have hDP : ¬ D = P := fun h => hPD h.symm
          simp [hPD, hDP]
    · have hStep : ColorizeDir E Scheme Pass D = Pass := by
        unfold ColorizeDir
        rw [if_neg]
        simpa using hCond
      rw [hStep] at hT hC ⊢
      constructor
      · intro P
        rw [hT P]
        by_cases hPD : P = D
        · subst hPD
          constructor
          · rintro ⟨h1, _⟩
            exact ⟨h1, fun h => hCond ⟨h1, h.2⟩⟩
          · rintro ⟨h1, h2⟩
            exact ⟨h1, fun h => h2 ⟨List.mem_cons_self _ _, h.2⟩⟩
        · simp [hPD]
      · intro P
        rw [hC P]
        by_cases hPD : P = D
        · subst hPD
          by_cases hIn : P ∈ Pass.Tracking
          · have hNo : ¬ SchemeMatches E Scheme P = true := fun h => hCond ⟨hIn, h⟩
            simp [hNo]
          · simp [hIn]
        · simp [hPD]

theorem ColorizeSchemes_foldl_spec (E : FEngine) (Dirs : List String)
    (Schemes : List FColorizedFolderColorScheme) :
    ∀ Pass : FColorizePass,
      (∀ P, P ∈ (Schemes.foldl
            (fun Pass1 Scheme => ColorizeDirsAccordingToScheme E Dirs Scheme Pass1)
            Pass).Tracking ↔
        P ∈ Pass.Tracking ∧
          ¬ (P ∈ Dirs ∧ ∃ Scheme ∈ Schemes, SchemeMatches E Scheme P = true)) ∧
      (∀ P, (Schemes.foldl
            (fun Pass1 Scheme => ColorizeDirsAccordingToScheme E Dirs Scheme Pass1)
            Pass).PathColors.filter (fun Call => Call.1 == P) =
          Pass.PathColors.filter (fun Call => Call.1 == P) ++
            if P ∈ Dirs ∧ P ∈ Pass.Tracking then
              ((Schemes.find? (fun Scheme => SchemeMatches E Scheme P)).map
                (fun Scheme => (P, Scheme.SchemeColor))).toList
            else []) := by
  induction Schemes with
  | nil =>
    intro Pass
    simp
  | cons S Rest ih =>
    intro Pass
    rw [List.foldl_cons]
    obtain ⟨hT, hC⟩ := ih (ColorizeDirsAccordingToScheme E Dirs S Pass)
    obtain ⟨hT1, hC1⟩ := ColorizeDir_foldl_spec E S Dirs Pass
    constructor
    · intro P
      rw [hT P]
      unfold ColorizeDirsAccordingToScheme
      rw [hT1 P]
      constructor
      · rintro ⟨⟨h1, h2⟩, h3⟩
        refine ⟨h1, ?_⟩
        rintro ⟨hD, S1, hS1, hM⟩
        rcases List.mem_cons.mp hS1 with h | h
        · exact h2 ⟨hD, h ▸ hM⟩
        · exact h3 ⟨hD, S1, h, hM⟩
      · rintro ⟨h1, h2⟩
        exact ⟨⟨h1, fun h => h2 ⟨h.1, S, List.mem_cons_self _ _, h.2⟩⟩,
          fun h => h2 ⟨h.1, h.2.choose, List.mem_cons_of_mem _ h.2.choose_spec.1,
            h.2.choose_spec.2⟩⟩
    · intro P
      rw [hC P]
      unfold ColorizeDirsAccordingToScheme
      rw [hC1 P, List.append_assoc]
      congr 1
      by_cases hD : P ∈ Dirs
      · by_cases hIn : P ∈ Pass.Tracking
        · by_cases hM : SchemeMatches E S P = true
          · simp [hD, hIn, hM, hT1 P]
          · simp [hD, hIn, hM, hT1 P]
        · simp [hD, hIn, hT1 P]
      · simp [hD]

theorem RequestFolderColorUpdate_eq (E : FEngine) (Dirs : List String)
    (M : UColorizedFoldersManager) :
    RequestFolderColorUpdate E Dirs M =
      (List.ofFn M.ActiveSchemes.Schemes).foldl
        (fun Pass Scheme => ColorizeDirsAccordingToScheme E Dirs Scheme Pass)
        { Tracking := Dirs, PathColors := [] } := by
  unfold RequestFolderColorUpdate UColorizedFoldersManager.GetScheme
  rw [List.ofFn_eq_map, List.foldl_map]

theorem RequestFolderColorUpdate_spec (E : FEngine) (Dirs : List String)
    (M : UColorizedFoldersManager) (P : String) :
    (P ∈ (RequestFolderColorUpdate E Dirs M).Tracking ↔
      P ∈ Dirs ∧ ∀ I, SchemeMatches E (M.ActiveSchemes.Schemes I) P = false) ∧
    (RequestFolderColorUpdate E Dirs M).PathColors.filter (fun Call => Call.1 == P) =
      (if P ∈ Dirs then
        ((MatchColor E M.ActiveSchemes.Schemes P).map (fun Color => (P, Color))).toList
      else []) ∧
    PathColorAfter (RequestFolderColorUpdate E Dirs M).PathColors P =
      if P ∈ Dirs then MatchColor E M.ActiveSchemes.Schemes P else none := by
  obtain ⟨hT, hC⟩ := ColorizeSchemes_foldl_spec E Dirs (List.ofFn M.ActiveSchemes.Schemes)
    { Tracking := Dirs, PathColors := [] }
  rw [← RequestFolderColorUpdate_eq] at hT hC
  have hCalls : (RequestFolderColorUpdate E Dirs M).PathColors.filter
      (fun Call => Call.1 == P) =
      (if P ∈ Dirs then
        ((MatchColor E M.ActiveSchemes.Schemes P).map (fun Color => (P, Color))).toList
      else []) := by
    rw [hC P]
    unfold MatchColor
    by_cases hD : P ∈ Dirs
    · simp only [hD, List.filter_nil, List.nil_append, and_self, if_true, Option.map_map]
      rfl
    · simp [hD]
  refine ⟨?_, hCalls, ?_⟩
  · rw [hT P]
    simp only [List.mem_ofFn, Set.mem_range]
    constructor
    · rintro ⟨h1, h2⟩
      refine ⟨h1, fun I => ?_⟩
      cases hM : SchemeMatches E (M.ActiveSchemes.Schemes I) P with
      | false => rfl
      | true => exact absurd ⟨h1, _, ⟨I, rfl⟩, hM⟩ h2
    · rintro ⟨h1, h2⟩
      refine ⟨h1, ?_⟩
      rintro ⟨_, S, ⟨I, hI⟩, hM⟩
      rw [← hI, h2 I] at hM
      exact absurd hM (by simp)
  · unfold PathColorAfter
    rw [hCalls]
    by_cases hD : P ∈ Dirs
    · rw [if_pos hD, if_pos hD]
      cases MatchColor E M.ActiveSchemes.Schemes P <;> rfl
    · rw [if_neg hD, if_neg hD]
      rfl

theorem find?_of_first_index {α : Type} (Test : α → Bool) :
    ∀ (Items : List α) (Index : Nat) (Item : α), Items[Index]? = some Item →
      Test Item = true →
      (∀ K, K < Index → ∀ Other, Items[K]? = some Other → Test Other = false) →
      Items.find? Test = some Item := by
  intro Items
  induction Items with
  | nil =>
    intro Index Item h _ _
    simp at h
  | cons X Rest ih =>
    intro Index Item h hTest hBefore
    cases Index with
    | zero =>
      simp only [List.getElem?_cons_zero, Option.some.injEq] at h
      subst h
      simp [hTest]
    | succ N =>
      have hX : Test X = false := hBefore 0 (Nat.succ_pos _) X (by simp)
      rw [List.find?_cons_of_neg _ (by simp [hX])]
      apply ih N Item (by simpa using h) hTest
      intro K hK Other hOther
      exact hBefore (K + 1) (by omega) Other (by simpa using hOther)

theorem MatchColor_of_first (E : FEngine)
    (Schemes : Fin NUM_FOLDER_SCHEMES → FColorizedFolderColorScheme) (P : String)
    (I : Fin NUM_FOLDER_SCHEMES) (hI : SchemeMatches E (Schemes I) P = true)
    (hFirst : ∀ K, K < I → SchemeMatches E (Schemes K) P = false) :
    MatchColor E Schemes P = some (Schemes I).SchemeColor := by
  unfold MatchColor
  rw [find?_of_first_index _ _ I.val (Schemes I) (ofFn_getElem?_val Schemes I) hI]
  · rfl
  · intro K hK Other hOther
    have hLt : K < NUM_FOLDER_SCHEMES := Nat.lt_trans hK I.isLt
    have hAt := ofFn_getElem?_val Schemes ⟨K, hLt⟩
    rw [hAt] at hOther
    rw [← Option.some.inj hOther]
    exact hFirst ⟨K, hLt⟩ hK

theorem MatchColor_of_some_match (E : FEngine)
    (Schemes : Fin NUM_FOLDER_SCHEMES → FColorizedFolderColorScheme) (P : String)
    (h : ∃ I, SchemeMatches E (Schemes I) P = true) :
    ∃ I, SchemeMatches E (Schemes I) P = true ∧
      (∀ K, K < I → SchemeMatches E (Schemes K) P = false) ∧
      MatchColor E Schemes P = some (Schemes I).SchemeColor := by
  classical
  have hEx : ∃ N, ∃ hN : N < NUM_FOLDER_SCHEMES, SchemeMatches E (Schemes ⟨N, hN⟩) P = true := by
    obtain ⟨I, hI⟩ := h
    exact ⟨I.val, I.isLt, hI⟩
  obtain ⟨hN, hMatch⟩ := Nat.find_spec hEx
  have hFirst : ∀ K, K < (⟨Nat.find hEx, hN⟩ : Fin NUM_FOLDER_SCHEMES) →
      SchemeMatches E (Schemes K) P = false := by
    intro K hK
    cases hM : SchemeMatches E (Schemes K) P with
    | false => rfl
    | true => exact absurd ⟨K.isLt, hM⟩ (Nat.find_min hEx hK)
  exact ⟨⟨Nat.find hEx, hN⟩, hMatch, hFirst, MatchColor_of_first E Schemes P _ hMatch hFirst⟩

theorem MatchColor_of_no_match (E : FEngine)
    (Schemes : Fin NUM_FOLDER_SCHEMES → FColorizedFolderColorScheme) (P : String)
    (h : ∀ I, SchemeMatches E (Schemes I) P = false) :
    MatchColor E Schemes P = none := by
  unfold MatchColor
  rw [Option.map_eq_none', List.find?_eq_none]
  intro Scheme hScheme
  obtain ⟨I, hI⟩ := (List.mem_ofFn _ _).mp hScheme
  rw [← hI, h I]
  simp

theorem SchemeMatches_iff (E : FEngine) (Scheme : FColorizedFolderColorScheme)
    (P : String) :
    SchemeMatches E Scheme P = true ↔
      (RootRelativePath P ∈ Scheme.ResolveExplicitPaths E ∨
        LeafName P ∈ Scheme.ResolveFolderNames E) := by
  unfold SchemeMatches
  simp

set_option maxRecDepth 100000 in
/-- Counterexample to C22. In `ExampleThreeMatching` the schemes 0 (red), 1 (green) and 2
(blue) all name the folder `Art`. The discovered folder `Game/Art` is matched by the schemes
1 and 2, and it does not end with the colour of scheme 1: it ends red, the colour of
scheme 0, which coloured it first and removed it from the tracking set. Swapping the slots
1 and 2 does not change the colour it gets. -/
theorem RequestFolderColorUpdate_lower_scheme_counterexample :
    SchemeMatches ExampleUserEngine (ExampleThreeMatching.GetScheme 1) "Game/Art" = true ∧
    SchemeMatches ExampleUserEngine (ExampleThreeMatching.GetScheme 2) "Game/Art" = true ∧
    PathColorAfter
        (RequestFolderColorUpdate ExampleUserEngine ExampleDirs ExampleThreeMatching).PathColors
        "Game/Art" = some ExampleRed ∧
    some ExampleRed ≠ some (ExampleThreeMatching.GetScheme 1).SchemeColor ∧
    PathColorAfter
        (RequestFolderColorUpdate ExampleUserEngine ExampleDirs
          { ExampleThreeMatching with ActiveSchemes :=
            { ExampleThreeMatching.ActiveSchemes with
              Schemes :=
                SwapSchemes ExampleThreeMatching.ActiveSchemes.Schemes 1 2 } }).PathColors
        "Game/Art" = some ExampleRed := by
  decide

/-- C22, amended. The colorization pass of `RequestFolderColorUpdate` applies the active
schemes in index order over the discovered paths; with `ColorizeDirsAccordingToScheme` as
the spec describes it, a path that is coloured is removed from the tracking set and is not
coloured again. For a discovered path `P` matched by the schemes `I < J`: `P` is not in the
tracking set after the pass, it is coloured exactly once, by the matching scheme of lowest
index, which is at most `I`, and it ends with that scheme's colour. When `I` is the first
scheme that matches, `P` ends with the colour of scheme `I`, and after the two slots are
swapped it ends with the colour of the scheme that was at `J`. When a scheme `K` before `I`
is the first that matches, `P` ends with the colour of scheme `K`, before and after the
swap. -/
theorem RequestFolderColorUpdate_first_match_wins (E : FEngine) (Dirs : List String)
    (M : UColorizedFoldersManager) (P : String) (I J : Fin NUM_FOLDER_SCHEMES)
    (hP : P ∈ Dirs) (hIJ : I < J)
    (hI : SchemeMatches E (M.GetScheme I) P = true)
    (hJ : SchemeMatches E (M.GetScheme J) P = true) :
    P ∉ (RequestFolderColorUpdate E Dirs M).Tracking ∧
    (∃ K, K ≤ I ∧ SchemeMatches E (M.GetScheme K) P = true ∧
      (∀ L, L < K → SchemeMatches E (M.GetScheme L) P = false) ∧
      (RequestFolderColorUpdate E Dirs M).PathColors.filter (fun Call => Call.1 == P) =
        [(P, (M.GetScheme K).SchemeColor)] ∧
      PathColorAfter (RequestFolderColorUpdate E Dirs M).PathColors P =
        some (M.GetScheme K).SchemeColor) ∧
    ((∀ K, K < I → SchemeMatches E (M.GetScheme K) P = false) →
      PathColorAfter (RequestFolderColorUpdate E Dirs M).PathColors P =
        some (M.GetScheme I).SchemeColor ∧
      PathColorAfter (RequestFolderColorUpdate E Dirs
          { M with ActiveSchemes :=
            { M.ActiveSchemes with
              Schemes := SwapSchemes M.ActiveSchemes.Schemes I J } }).PathColors P =
        some (M.GetScheme J).SchemeColor) ∧
    (∀ K, K < I → SchemeMatches E (M.GetScheme K) P = true →
      (∀ L, L < K → SchemeMatches E (M.GetScheme L) P = false) →
      PathColorAfter (RequestFolderColorUpdate E Dirs M).PathColors P =
        some (M.GetScheme K).SchemeColor ∧
      PathColorAfter (RequestFolderColorUpdate E Dirs
          { M with ActiveSchemes :=
            { M.ActiveSchemes with
              Schemes := SwapSchemes M.ActiveSchemes.Schemes I J } }).PathColors P =
        some (M.GetScheme K).SchemeColor) := by
  simp only [UColorizedFoldersManager.GetScheme] at hI hJ ⊢
  obtain ⟨hTrack, hCalls, hColor⟩ := RequestFolderColorUpdate_spec E Dirs M P
  rw [if_pos hP] at hCalls hColor
  obtain ⟨_, _, hColor1⟩ := RequestFolderColorUpdate_spec E Dirs
    { M with ActiveSchemes :=
      { M.ActiveSchemes with
        Schemes := SwapSchemes M.ActiveSchemes.Schemes I J } } P
  rw [if_pos hP] at hColor1
  have hAtI : SwapSchemes M.ActiveSchemes.Schemes I J I = M.ActiveSchemes.Schemes J := by
    unfold SwapSchemes
    rw [if_pos rfl]
  have hBelow : ∀ K, K < I →
      SwapSchemes M.ActiveSchemes.Schemes I J K = M.ActiveSchemes.Schemes K := by
    intro K hK
    unfold SwapSchemes
    rw [if_neg (ne_of_lt hK), if_neg (ne_of_lt (lt_trans hK hIJ))]
  refine ⟨?_, ?_, ?_, ?_⟩
  · intro hIn
    have hNo := (hTrack.mp hIn).2 I
    rw [hI] at hNo
    exact absurd hNo (by simp)
  · obtain ⟨K, hK, hFirst, hMatch⟩ :=
      MatchColor_of_some_match E M.ActiveSchemes.Schemes P ⟨I, hI⟩
    refine ⟨K, ?_, hK, hFirst, ?_, ?_⟩
    · by_contra hLt
      have hNo := hFirst I (lt_of_not_ge hLt)
      rw [hI] at hNo
      exact absurd hNo (by simp)
    · rw [hCalls, hMatch]
      rfl
    · rw [hColor, hMatch]
  · intro hFirst
    constructor
    · rw [hColor]
      exact MatchColor_of_first E M.ActiveSchemes.Schemes P I hI hFirst
    · rw [hColor1]
      show MatchColor E (SwapSchemes M.ActiveSchemes.Schemes I J) P = _
      rw [MatchColor_of_first E (SwapSchemes M.ActiveSchemes.Schemes I J) P I
        (by rw [hAtI]; exact hJ) (fun K hK => by rw [hBelow K hK]; exact hFirst K hK), hAtI]
  · intro K hKI hK hFirst
    constructor
    · rw [hColor]
      exact MatchColor_of_first E M.ActiveSchemes.Schemes P K hK hFirst
    · rw [hColor1]
      show MatchColor E (SwapSchemes M.ActiveSchemes.Schemes I J) P = _
      rw [MatchColor_of_first E (SwapSchemes M.ActiveSchemes.Schemes I J) P K
        (by rw [hBelow K hKI]; exact hK)
        (fun L hL => by rw [hBelow L (lt_trans hL hKI)]; exact hFirst L hL), hBelow K hKI]

set_option maxRecDepth 100000 in
/-- Witness of the amended C22: in `ExampleTwoMatching` the schemes 0 (red) and 1 (green)
both name the folder `Art`, and scheme 0 is the first that matches. The discovered folder
`Game/Art` ends red; with the two slots swapped it ends green. -/
theorem RequestFolderColorUpdate_first_match_wins_witness :
    PathColorAfter
        (RequestFolderColorUpdate ExampleUserEngine ExampleDirs ExampleTwoMatching).PathColors
        "Game/Art" = some ExampleRed ∧
    PathColorAfter
        (RequestFolderColorUpdate ExampleUserEngine ExampleDirs
          { ExampleTwoMatching with ActiveSchemes :=
            { ExampleTwoMatching.ActiveSchemes with
              Schemes := SwapSchemes ExampleTwoMatching.ActiveSchemes.Schemes 0 1 } }).PathColors
        "Game/Art" = some ExampleGreen :=
  (RequestFolderColorUpdate_first_match_wins ExampleUserEngine ExampleDirs ExampleTwoMatching
    "Game/Art" 0 1 (by decide) (by decide) (by decide) (by decide)).2.2.1 (by decide)

set_option maxRecDepth 100000 in
/-- Counterexample to C23. In `ExampleTwoMatching` the leaf name of the discovered folder
`Game/Art` is one of the folder names of scheme 1, whose colour is green, and the folder is
not given that scheme's colour: after the pass it is red, the colour of scheme 0, which
also names `Art` and has the lower index. -/
theorem RequestFolderColorUpdate_not_every_matching_scheme_counterexample :
    "Game/Art" ∈ ExampleDirs ∧
    LeafName "Game/Art" ∈
      (ExampleTwoMatching.GetScheme 1).ResolveFolderNames ExampleUserEngine ∧
    (ExampleTwoMatching.GetScheme 1).SchemeColor = ExampleGreen ∧
    PathColorAfter
        (RequestFolderColorUpdate ExampleUserEngine ExampleDirs ExampleTwoMatching).PathColors
        "Game/Art" = some ExampleRed ∧
    some ExampleRed ≠ some (ExampleTwoMatching.GetScheme 1).SchemeColor := by
  decide

/-- C23, amended. For every discovered folder path `P` and every active scheme array, after
the colorization pass (with `ColorizeDirsAccordingToScheme` and the matching rules as the
spec describes them): when the leaf name of `P` is one of the folder names of scheme `I`, or
the path of `P` relative to its content root is one of the explicit paths of scheme `I`,
and no scheme before `I` matches, `P` holds the colour of scheme `I`; when some scheme
matches, `P` holds the colour of the matching scheme of lowest index; when no scheme
matches, `P` is given no colour (no assignment of the pass names it, and it stays in the
tracking set). In every case the colour is the one `MatchColor` resolves. -/
theorem RequestFolderColorUpdate_colours_matched_folders (E : FEngine) (Dirs : List String)
    (M : UColorizedFoldersManager) (P : String) (hP : P ∈ Dirs) :
    (∀ I : Fin NUM_FOLDER_SCHEMES,
      (LeafName P ∈ (M.GetScheme I).ResolveFolderNames E ∨
        RootRelativePath P ∈ (M.GetScheme I).ResolveExplicitPaths E) →
      (∀ K, K < I →
        ¬ (LeafName P ∈ (M.GetScheme K).ResolveFolderNames E ∨
          RootRelativePath P ∈ (M.GetScheme K).ResolveExplicitPaths E)) →
      PathColorAfter (RequestFolderColorUpdate E Dirs M).PathColors P =
        some (M.GetScheme I).SchemeColor) ∧
    ((∃ I : Fin NUM_FOLDER_SCHEMES,
        LeafName P ∈ (M.GetScheme I).ResolveFolderNames E ∨
          RootRelativePath P ∈ (M.GetScheme I).ResolveExplicitPaths E) →
      ∃ I : Fin NUM_FOLDER_SCHEMES,
        (LeafName P ∈ (M.GetScheme I).ResolveFolderNames E ∨
          RootRelativePath P ∈ (M.GetScheme I).ResolveExplicitPaths E) ∧
        (∀ K, K < I →
          ¬ (LeafName P ∈ (M.GetScheme K).ResolveFolderNames E ∨
            RootRelativePath P ∈ (M.GetScheme K).ResolveExplicitPaths E)) ∧
        (RequestFolderColorUpdate E Dirs M).PathColors.filter (fun Call => Call.1 == P) =
          [(P, (M.GetScheme I).SchemeColor)] ∧
        PathColorAfter (RequestFolderColorUpdate E Dirs M).PathColors P =
          some (M.GetScheme I).SchemeColor) ∧
    ((∀ I : Fin NUM_FOLDER_SCHEMES,
        ¬ (LeafName P ∈ (M.GetScheme I).ResolveFolderNames E ∨
          RootRelativePath P ∈ (M.GetScheme I).ResolveExplicitPaths E)) →
      PathColorAfter (RequestFolderColorUpdate E Dirs M).PathColors P = none ∧
      (∀ Call ∈ (RequestFolderColorUpdate E Dirs M).PathColors, Call.1 ≠ P) ∧
      P ∈ (RequestFolderColorUpdate E Dirs M).Tracking) ∧
    PathColorAfter (RequestFolderColorUpdate E Dirs M).PathColors P =
      MatchColor E M.ActiveSchemes.Schemes P := by
  simp only [UColorizedFoldersManager.GetScheme]
  obtain ⟨hTrack, hCalls, hColor⟩ := RequestFolderColorUpdate_spec E Dirs M P
  rw [if_pos hP] at hCalls hColor
  have hRule : ∀ I : Fin NUM_FOLDER_SCHEMES,
      (LeafName P ∈ (M.ActiveSchemes.Schemes I).ResolveFolderNames E ∨
        RootRelativePath P ∈ (M.ActiveSchemes.Schemes I).ResolveExplicitPaths E) ↔
      SchemeMatches E (M.ActiveSchemes.Schemes I) P = true := by
    intro I
    rw [SchemeMatches_iff]
    exact Or.comm
  have hNot : ∀ I : Fin NUM_FOLDER_SCHEMES,
      ¬ (LeafName P ∈ (M.ActiveSchemes.Schemes I).ResolveFolderNames E ∨
        RootRelativePath P ∈ (M.ActiveSchemes.Schemes I).ResolveExplicitPaths E) →
      SchemeMatches E (M.ActiveSchemes.Schemes I) P = false := by
    intro I h
    cases hM : SchemeMatches E (M.ActiveSchemes.Schemes I) P with
    | false => rfl
    | true => exact absurd ((hRule I).mpr hM) h
  refine ⟨?_, ?_, ?_, hColor⟩
  · intro I hI hFirst
    rw [hColor]
    exact MatchColor_of_first E _ P I ((hRule I).mp hI) (fun K hK => hNot K (hFirst K hK))
  · rintro ⟨I, hI⟩
    obtain ⟨K, hK, hFirst, hMatch⟩ :=
      MatchColor_of_some_match E M.ActiveSchemes.Schemes P ⟨I, (hRule I).mp hI⟩
    refine ⟨K, (hRule K).mpr hK, ?_, ?_, by rw [hColor, hMatch]⟩
    · intro L hL hMatchL
      have hNo := hFirst L hL
      rw [(hRule L).mp hMatchL] at hNo
      exact absurd hNo (by simp)
    · rw [hCalls, hMatch]
      rfl
  · intro hNone
    have hNo : MatchColor E M.ActiveSchemes.Schemes P = none :=
      MatchColor_of_no_match E _ P (fun I => hNot I (hNone I))
    refine ⟨by rw [hColor, hNo], ?_, ?_⟩
    · intro Call hCall hEq
      have hIn : Call ∈ (RequestFolderColorUpdate E Dirs M).PathColors.filter
          (fun Call => Call.1 == P) := by
        rw [List.mem_filter]
        exact ⟨hCall, by simpa using hEq⟩
      rw [hCalls, hNo] at hIn
      simp at hIn
    · exact hTrack.mpr ⟨hP, fun I => hNot I (hNone I)⟩

set_option maxRecDepth 100000 in
/-- Witness of the amended C23, the scenario of the spec: the theme file of `ExampleArtEngine` gives
scheme 0 the colour red and the folder name `Art`. After the theme is activated, the pass
over the discovered folders leaves `Game/Art` red and gives `Game/Design` no colour. -/
theorem RequestFolderColorUpdate_colours_matched_folders_witness :
    ∃ M1, ApplyTheme ExampleArtEngine { D := 1 } ExampleLoaded = some M1 ∧
      M1.GetScheme 0 = { FolderNames := "Art", SchemeColor := ExampleRed } ∧
      PathColorAfter (RequestFolderColorUpdate ExampleArtEngine ExampleDirs M1).PathColors
        "Game/Art" = some ExampleRed ∧
      PathColorAfter (RequestFolderColorUpdate ExampleArtEngine ExampleDirs M1).PathColors
        "Game/Design" = none := by
  have hScheme : (ApplyTheme ExampleArtEngine { D := 1 } ExampleLoaded).map
      (fun M1 => M1.GetScheme 0) =
      some { FolderNames := "Art", SchemeColor := ExampleRed } := by decide
  have hDesign : (ApplyTheme ExampleArtEngine { D := 1 } ExampleLoaded).map
      (fun M1 => decide (∀ I : Fin NUM_FOLDER_SCHEMES,
        ¬ (LeafName "Game/Design" ∈ (M1.GetScheme I).ResolveFolderNames ExampleArtEngine ∨
          RootRelativePath "Game/Design" ∈
            (M1.GetScheme I).ResolveExplicitPaths ExampleArtEngine))) = some true := by
    decide
  cases hApply : ApplyTheme ExampleArtEngine { D := 1 } ExampleLoaded with
  | none =>
    rw [hApply] at hScheme
    exact absurd hScheme (by simp)
  | some M1 =>
    rw [hApply] at hScheme hDesign
    have h0 : M1.GetScheme 0 = { FolderNames := "Art", SchemeColor := ExampleRed } :=
      Option.some.inj hScheme
    have hNone : ∀ I : Fin NUM_FOLDER_SCHEMES,
        ¬ (LeafName "Game/Design" ∈ (M1.GetScheme I).ResolveFolderNames ExampleArtEngine ∨
          RootRelativePath "Game/Design" ∈
            (M1.GetScheme I).ResolveExplicitPaths ExampleArtEngine) :=
      of_decide_eq_true (Option.some.inj hDesign)
    refine ⟨M1, rfl, h0, ?_, ?_⟩
    · have hArt := (RequestFolderColorUpdate_colours_matched_folders ExampleArtEngine
        ExampleDirs M1 "Game/Art" (by decide)).1 0
        (by rw [h0]; decide) (fun K hK => absurd hK (by simp))
      rw [hArt, h0]
    · exact ((RequestFolderColorUpdate_colours_matched_folders ExampleArtEngine ExampleDirs M1
        "Game/Design" (by decide)).2.2.1 hNone).1

/-! ## Sizes of the scheme arrays (C28) -/

theorem SwitchTheme_current_entry (ThemeId : FGuid) (M : UColorizedFoldersManager)
    (Cur0 : FColorizedFolderTheme)
    (hFind : FindByKey M.LoadedThemes M.CurrentThemeId = some Cur0) :
    ∃ M1 Prev T, ApplyTheme.SwitchTheme ThemeId M = some M1 ∧
      FindByKey M1.LoadedThemes M1.CurrentThemeId = some Prev ∧
      FindByKey M.LoadedThemes M1.CurrentThemeId = some T ∧
      (Prev = T ∨ Prev = { T with LoadedDefaultColorSchemes := [] }) ∧
      (M.CurrentThemeId = ThemeId → Prev = Cur0) ∧
      M1.DefaultTheme = M.DefaultTheme ∧
      M1.DefaultColorSchemes = M.DefaultColorSchemes ∧
      M1.ActiveSchemes = M.ActiveSchemes ∧
      (∀ X ∈ M1.LoadedThemes, X ∈ M.LoadedThemes ∨ X.LoadedDefaultColorSchemes = []) := by
  by_cases hEq : M.CurrentThemeId = ThemeId
  · refine ⟨M, Cur0, Cur0, ?_, hFind, hFind, Or.inl rfl, fun _ => rfl, rfl, rfl, rfl,
      fun X hX => Or.inl hX⟩
    unfold ApplyTheme.SwitchTheme
    rw [if_neg (not_not.mpr hEq)]
  · have hOther : FindByKey
        (ModifyByKey M.LoadedThemes M.CurrentThemeId (fun CurrentTheme =>
          { CurrentTheme with LoadedDefaultColorSchemes := [] })) ThemeId =
        FindByKey M.LoadedThemes ThemeId :=
      FindByKey_ModifyByKey_ne M.LoadedThemes M.CurrentThemeId ThemeId
        (fun CurrentTheme => { CurrentTheme with LoadedDefaultColorSchemes := [] })
        (fun _ h => h) hEq
    have hSelf : FindByKey
        (ModifyByKey M.LoadedThemes M.CurrentThemeId (fun CurrentTheme =>
          { CurrentTheme with LoadedDefaultColorSchemes := [] })) M.CurrentThemeId =
        some { Cur0 with LoadedDefaultColorSchemes := [] } := by
      rw [FindByKey_ModifyByKey_self M.LoadedThemes M.CurrentThemeId
        (fun CurrentTheme => { CurrentTheme with LoadedDefaultColorSchemes := [] })
        (fun _ h => h), hFind]
      rfl
    have hMem : ∀ X ∈ ModifyByKey M.LoadedThemes M.CurrentThemeId (fun CurrentTheme =>
        { CurrentTheme with LoadedDefaultColorSchemes := [] }),
        X ∈ M.LoadedThemes ∨ X.LoadedDefaultColorSchemes = [] := by
      intro X hX
      rcases mem_ModifyByKey hX with h | ⟨T0, _, _, h⟩
      · exact Or.inl h
      · exact Or.inr (by rw [h])
    by_cases hV : M.CurrentThemeId.IsValid = true
    · cases hK : FindByKey M.LoadedThemes ThemeId with
      | some X =>
        refine ⟨SaveConfig
          { M with
            LoadedThemes := (ModifyByKey M.LoadedThemes M.CurrentThemeId (fun CurrentTheme =>
              { CurrentTheme with LoadedDefaultColorSchemes := [] }))
            CurrentThemeId := ThemeId }, X, X, ?_, ?_, hK, Or.inl rfl,
          fun h => absurd h hEq, rfl, rfl, rfl, hMem⟩
        · unfold ApplyTheme.SwitchTheme
          rw [if_pos hEq, if_pos hV, hFind]
          simp only [Option.map_some']
          rw [hOther, hK]
        · show FindByKey (ModifyByKey M.LoadedThemes M.CurrentThemeId _) ThemeId = some X
          rw [hOther, hK]
      | none =>
        refine ⟨{ M with
            LoadedThemes := (ModifyByKey M.LoadedThemes M.CurrentThemeId (fun CurrentTheme =>
              { CurrentTheme with LoadedDefaultColorSchemes := [] })) },
          { Cur0 with LoadedDefaultColorSchemes := [] }, Cur0, ?_, hSelf, hFind, Or.inr rfl,
          fun h => absurd h hEq, rfl, rfl, rfl, hMem⟩
        unfold ApplyTheme.SwitchTheme
        rw [if_pos hEq, if_pos hV, hFind]
        simp only [Option.map_some']
        rw [hOther, hK]
    · cases hK : FindByKey M.LoadedThemes ThemeId with
      | some X =>
        refine ⟨SaveConfig { M with CurrentThemeId := ThemeId }, X, X, ?_, hK, hK, Or.inl rfl,
          fun h => absurd h hEq, rfl, rfl, rfl, fun Y hY => Or.inl hY⟩
        unfold ApplyTheme.SwitchTheme
        rw [if_pos hEq, if_neg hV]
        simp only [Option.map_some']
        rw [hK]
      | none =>
        refine ⟨M, Cur0, Cur0, ?_, hFind, hFind, Or.inl rfl,
          fun h => absurd h hEq, rfl, rfl, rfl, fun Y hY => Or.inl hY⟩
        unfold ApplyTheme.SwitchTheme
        rw [if_pos hEq, if_neg hV]
        simp only [Option.map_some']
        rw [hK]

theorem LoadAndCopy_some_DefaultTheme (E : FEngine) (M M2 : UColorizedFoldersManager)
    (h : ApplyTheme.LoadAndCopy E M = some M2) : M2.DefaultTheme = M.DefaultTheme := by
  unfold ApplyTheme.LoadAndCopy at h
  cases hF : FindByKey M.LoadedThemes M.CurrentThemeId with
  | none => rw [hF] at h; simp at h
  | some Cur =>
    rw [hF] at h
    simp only at h
    cases hL : LoadThemeFolderSchemes E M.DefaultColorSchemes Cur with
    | none => rw [hL] at h; simp at h
    | some Loaded =>
      rw [hL] at h
      simp only [Option.some_bind] at h
      split at h
      · split at h
        · rw [← Option.some.inj h]
        · simp at h
      · rw [← Option.some.inj h]

theorem eq_MakeArrayView_of_getElem?
    (Schemes : List FColorizedFolderColorScheme)
    (Slots : Fin NUM_FOLDER_SCHEMES → FColorizedFolderColorScheme)
    (hLen : Schemes.length = NUM_FOLDER_SCHEMES)
    (hSlots : ∀ I : Fin NUM_FOLDER_SCHEMES, Schemes[I.val]? = some (Slots I)) :
    Schemes = MakeArrayView Slots := by
  apply List.ext_getElem?
  intro N
  by_cases hN : N < NUM_FOLDER_SCHEMES
  · rw [hSlots ⟨N, hN⟩, MakeArrayView_getElem? Slots ⟨N, hN⟩]
  · rw [List.getElem?_eq_none (by rw [hLen]; exact Nat.le_of_not_lt hN),
      List.getElem?_eq_none (by rw [MakeArrayView_length]; exact Nat.le_of_not_lt hN)]

theorem ApplyTheme_loaded_spec (E : FEngine) (ThemeId : FGuid)
    (M : UColorizedFoldersManager) (Cur0 : FColorizedFolderTheme)
    (hValid : ThemeId.IsValid = true)
    (hFind : FindByKey M.LoadedThemes M.CurrentThemeId = some Cur0)
    (hSized : SchemeArraysSized M.LoadedThemes) :
    ∃ M1 Prev T Cur, ApplyTheme E ThemeId M = some M1 ∧
      FindByKey M.LoadedThemes M1.CurrentThemeId = some T ∧
      (Prev = T ∨ Prev = { T with LoadedDefaultColorSchemes := [] }) ∧
      (M.CurrentThemeId = ThemeId → Prev = Cur0) ∧
      LoadThemeFolderSchemes E M.DefaultColorSchemes Prev = some Cur ∧
      FindByKey M1.LoadedThemes M1.CurrentThemeId = some Cur ∧
      Cur.LoadedDefaultColorSchemes = MakeArrayView M1.ActiveSchemes.Schemes ∧
      SchemeArraysSized M1.LoadedThemes ∧
      M1.DefaultTheme = M.DefaultTheme := by
  obtain ⟨M1, Prev, T, e1, hFind1, hT, hPrev, hSame, hDefT, hDefS, _, hMem⟩ :=
    SwitchTheme_current_entry ThemeId M Cur0 hFind
  have hSized1 : SchemeArraysSized M1.LoadedThemes := by
    intro X hX
    rcases hMem X hX with h | h
    · exact hSized X h
    · exact Or.inl (by rw [h]; rfl)
  have hPrevSized := hSized1 Prev (FindByKey_some hFind1).1
  obtain ⟨Loaded, M2, eL, e2, hC2, hL2, hA2, _, _⟩ :=
    LoadAndCopy_spec E M1 Prev hFind1 hPrevSized
  obtain ⟨Loaded1, eL1, hId, _, _, hLen, _⟩ :=
    LoadThemeFolderSchemes_spec E M1.DefaultColorSchemes Prev hPrevSized
  rw [eL] at eL1
  have hLoaded : Loaded1 = Loaded := (Option.some.inj eL1).symm
  subst hLoaded
  have hPrevId : Prev.Id = M1.CurrentThemeId := (FindByKey_some hFind1).2
  have hFind2 : FindByKey M2.LoadedThemes M2.CurrentThemeId = some Loaded1 := by
    rw [hL2, hC2, FindByKey_ModifyByKey_self M1.LoadedThemes M1.CurrentThemeId
      (fun _ => Loaded1) (fun _ _ => hId.trans hPrevId), hFind1]
    rfl
  have hSlots : Loaded1.LoadedDefaultColorSchemes = MakeArrayView M2.ActiveSchemes.Schemes := by
    apply eq_MakeArrayView_of_getElem? _ _ hLen
    intro I
    have hLt : I.val < Loaded1.LoadedDefaultColorSchemes.length := by
      rw [hLen]; exact I.isLt
    rw [List.getElem?_eq_getElem hLt, hA2]
    exact congrArg some
      (Memcpy_of_getElem? _ _ I _ (List.getElem?_eq_getElem hLt)).symm
  have hSized2 : SchemeArraysSized M2.LoadedThemes := by
    intro X hX
    rw [hL2] at hX
    rcases mem_ModifyByKey hX with h | ⟨_, _, _, h⟩
    · exact hSized1 X h
    · exact Or.inr (by rw [h]; exact hLen)
  refine ⟨{ M2 with ThemeChangedBroadcasts := M2.ThemeChangedBroadcasts ++ [M2.CurrentThemeId] },
    Prev, T, Loaded1, ?_, ?_, hPrev, hSame, ?_, hFind2, hSlots, hSized2, ?_⟩
  · unfold ApplyTheme
    rw [if_pos hValid, e1]
    simp only [Option.some_bind]
    rw [e2]
    rfl
  · show FindByKey M.LoadedThemes M2.CurrentThemeId = some T
    rw [hC2]
    exact hT
  · rw [← hDefS]
    exact eL
  · show M2.DefaultTheme = M.DefaultTheme
    rw [LoadAndCopy_some_DefaultTheme E M1 M2 e2, hDefT]

theorem ApplyTheme_keeps_sized (E : FEngine) (ThemeId : FGuid)
    (M : UColorizedFoldersManager)
    (hCur : ∃ T ∈ M.LoadedThemes, T.Id = M.CurrentThemeId)
    (hSized : SchemeArraysSized M.LoadedThemes) :
    ∃ M1, ApplyTheme E ThemeId M = some M1 ∧ SchemeArraysSized M1.LoadedThemes ∧
      M1.DefaultTheme = M.DefaultTheme := by
  by_cases hValid : ThemeId.IsValid = true
  · obtain ⟨Cur0, hFind⟩ := Option.isSome_iff_exists.mp
      ((FindByKey_isSome_iff M.LoadedThemes M.CurrentThemeId).mpr hCur)
    obtain ⟨M1, _, _, _, e1, _, _, _, _, _, _, hS, hD⟩ :=
      ApplyTheme_loaded_spec E ThemeId M Cur0 hValid hFind hSized
    exact ⟨M1, e1, hS, hD⟩
  · refine ⟨{ M with ThemeChangedBroadcasts := M.ThemeChangedBroadcasts ++ [M.CurrentThemeId] },
      ?_, hSized, rfl⟩
    unfold ApplyTheme
    rw [if_neg hValid]
    rfl

theorem ReachableFromConstructor_Reachable (M : UColorizedFoldersManager)
    (h : ReachableFromConstructor M) : Reachable M := by
  induction h with
  | Startup E M0 M _ hLoad => exact Reachable.LoadThemes E M0 M hLoad
  | LoadThemes E M M1 _ hLoad _ => exact Reachable.LoadThemes E M M1 hLoad
  | ApplyTheme E ThemeId M M1 _ hStep ih => exact Reachable.ApplyTheme E ThemeId M M1 ih hStep
  | ApplyDefaultTheme E M M1 _ hStep ih => exact Reachable.ApplyDefaultTheme E M M1 ih hStep
  | RemoveTheme ThemeId M _ ih => exact Reachable.RemoveTheme ThemeId M ih
  | DuplicateActiveTheme NewThemeGuid M Result _ hStep ih =>
    exact Reachable.DuplicateActiveTheme NewThemeGuid M Result ih hStep
  | SetCurrentThemeDisplayName NewDisplayName M M1 _ hStep ih =>
    exact Reachable.SetCurrentThemeDisplayName NewDisplayName M M1 ih hStep
  | SaveCurrentThemeAs E InFilename M Result _ hStep ih =>
    exact Reachable.SaveCurrentThemeAs E InFilename M Result ih hStep

theorem ReadTheme_keeps_schemes (E : FEngine) (ThemeData : String)
    (OutTheme : FColorizedFolderTheme) :
    (ReadTheme E ThemeData OutTheme).2.LoadedDefaultColorSchemes =
      OutTheme.LoadedDefaultColorSchemes := by
  unfold ReadTheme
  cases E.Deserialize ThemeData with
  | none => rfl
  | some ObjectPtr =>
    simp only
    cases E.TryGetNumberField ObjectPtr "Version" with
    | none => rfl
    | some Version =>
      simp only
      cases E.TryGetStringField ObjectPtr "Id" with
      | none => rfl
      | some IdString =>
        simp only
        cases E.GuidParse IdString with
        | none => rfl
        | some Id =>
          simp only
          cases E.TryGetStringField ObjectPtr "DisplayName" with
          | none => rfl
          | some DisplayString =>
            simp only
            cases E.HasField ObjectPtr "Schemes" <;> rfl

theorem ReadThemeFile_unloaded (E : FEngine) (Directory ThemeFile : String)
    (Theme : FColorizedFolderTheme) (h : ReadThemeFile E Directory ThemeFile = some Theme) :
    Theme.LoadedDefaultColorSchemes = [] := by
  unfold ReadThemeFile at h
  cases hL : E.LoadFileToString (E.PathCombine Directory ThemeFile) with
  | none => rw [hL] at h; simp at h
  | some ThemeData =>
    rw [hL] at h
    simp only at h
    have hKeep := ReadTheme_keeps_schemes E ThemeData {}
    rcases hR : ReadTheme E ThemeData {} with ⟨Flag, Out⟩
    rw [hR] at h hKeep
    cases Flag with
    | false => simp at h
    | true =>
      simp only [Option.some.injEq] at h
      rw [← h]
      exact hKeep

theorem SchemeArraysSized_ModifyByKey (Themes : List FColorizedFolderTheme) (Key : FGuid)
    (Fn : FColorizedFolderTheme → FColorizedFolderTheme)
    (hFn : ∀ T, (Fn T).LoadedDefaultColorSchemes = T.LoadedDefaultColorSchemes)
    (hSized : SchemeArraysSized Themes) :
    SchemeArraysSized (ModifyByKey Themes Key Fn) := by
  intro X hX
  rcases mem_ModifyByKey hX with h | ⟨T0, hT0, _, h⟩
  · exact hSized X h
  · rw [h, hFn T0]
    exact hSized T0 hT0

theorem LoadThemeFile_sized (E : FEngine) (Directory : String)
    (LoadedThemes : List FColorizedFolderTheme) (ThemeFile : String)
    (hSized : SchemeArraysSized LoadedThemes) :
    SchemeArraysSized (LoadThemeFile E Directory LoadedThemes ThemeFile) := by
  rw [LoadThemeFile_eq]
  cases hR : ReadThemeFile E Directory ThemeFile with
  | none => exact hSized
  | some Theme =>
    simp only
    cases hF : FindByKey LoadedThemes Theme.Id with
    | some Existing =>
      exact SchemeArraysSized_ModifyByKey _ _ _ (fun _ => rfl) hSized
    | none =>
      intro X hX
      rcases List.mem_append.mp hX with h | h
      · exact hSized X h
      · rw [List.mem_singleton.mp h]
        exact Or.inl (by
          show Theme.LoadedDefaultColorSchemes.length = 0
          rw [ReadThemeFile_unloaded E Directory ThemeFile Theme hR]
          rfl)

theorem LoadThemesFromDirectory_sized (E : FEngine) (Directory : String)
    (M : UColorizedFoldersManager) (hSized : SchemeArraysSized M.LoadedThemes) :
    SchemeArraysSized (LoadThemesFromDirectory E Directory M).LoadedThemes ∧
    (LoadThemesFromDirectory E Directory M).DefaultTheme = M.DefaultTheme ∧
    (LoadThemesFromDirectory E Directory M).CurrentThemeId = M.CurrentThemeId := by
  refine ⟨?_, rfl, rfl⟩
  show SchemeArraysSized
    ((E.FindFiles Directory ".json").foldl (LoadThemeFile E Directory) M.LoadedThemes)
  generalize E.FindFiles Directory ".json" = Files
  generalize M.LoadedThemes = Themes at hSized
  induction Files generalizing Themes with
  | nil => exact hSized
  | cons File Rest ih =>
    exact ih _ (LoadThemeFile_sized E Directory Themes File hSized)

theorem EnsureValidCurrentTheme_sized (E : FEngine) (M : UColorizedFoldersManager)
    (hSized : SchemeArraysSized M.LoadedThemes)
    (hDefault : M.DefaultTheme.LoadedDefaultColorSchemes = []) :
    SchemeArraysSized (EnsureValidCurrentTheme E M).LoadedThemes ∧
    (EnsureValidCurrentTheme E M).DefaultTheme.LoadedDefaultColorSchemes = [] := by
  refine ⟨?_, hDefault⟩
  obtain ⟨_, Added, hEq, hAdded⟩ := AddUnique_spec M.LoadedThemes
    { M.DefaultTheme with
      DisplayName := "No Theme"
      Id := DefaultThemeId
      Filename := E.PathCombine E.PluginBaseDir "Resources/Themes/NoTheme.json" }
  show SchemeArraysSized (AddUnique M.LoadedThemes _)
  rw [hEq]
  intro X hX
  rcases List.mem_append.mp hX with h | h
  · exact hSized X h
  · rcases hAdded with hA | hA
    · rw [hA] at h
      simp at h
    · rw [hA] at h
      rw [List.mem_singleton.mp h]
      exact Or.inl (by
        show M.DefaultTheme.LoadedDefaultColorSchemes.length = 0
        rw [hDefault]
        rfl)

theorem LoadThemes_sized (E : FEngine) (M0 : UColorizedFoldersManager)
    (hDefault : M0.DefaultTheme.LoadedDefaultColorSchemes = []) :
    ∃ M, LoadThemes E M0 = some M ∧ SchemeArraysSized M.LoadedThemes ∧
      M.DefaultTheme.LoadedDefaultColorSchemes = [] := by
  have hEmpty : SchemeArraysSized
      ({ M0 with LoadedThemes := [] } : UColorizedFoldersManager).LoadedThemes := by
    intro X hX
    simp at hX
  obtain ⟨h1, d1, _⟩ := LoadThemesFromDirectory_sized E (GetPluginThemeDir E) _ hEmpty
  obtain ⟨h2, d2, _⟩ := LoadThemesFromDirectory_sized E (GetEngineThemeDir E) _ h1
  obtain ⟨h3, d3, _⟩ := LoadThemesFromDirectory_sized E (GetProjectThemeDir E) _ h2
  obtain ⟨h4, d4, _⟩ := LoadThemesFromDirectory_sized E (GetUserThemeDir E) _ h3
  have hD4 : (LoadThemesFromDirectory E (GetUserThemeDir E)
      (LoadThemesFromDirectory E (GetProjectThemeDir E)
        (LoadThemesFromDirectory E (GetEngineThemeDir E)
          (LoadThemesFromDirectory E (GetPluginThemeDir E)
            { M0 with LoadedThemes := [] })))).DefaultTheme.LoadedDefaultColorSchemes = [] := by
    rw [d4, d3, d2, d1]
    exact hDefault
  obtain ⟨h5, d5⟩ := EnsureValidCurrentTheme_sized E _ h4 hD4
  obtain ⟨M, hM, hS, hD⟩ := ApplyTheme_keeps_sized E
    (EnsureValidCurrentTheme E _).CurrentThemeId _
    (EnsureValidCurrentTheme_current_in_list E _) h5
  refine ⟨M, hM, hS, ?_⟩
  rw [hD]
  exact d5

theorem ApplyTheme_some_sized (E : FEngine) (ThemeId : FGuid)
    (M M1 : UColorizedFoldersManager)
    (hCur : ∃ T ∈ M.LoadedThemes, T.Id = M.CurrentThemeId)
    (hSized : SchemeArraysSized M.LoadedThemes)
    (hDefault : M.DefaultTheme.LoadedDefaultColorSchemes = [])
    (hStep : ApplyTheme E ThemeId M = some M1) :
    SchemeArraysSized M1.LoadedThemes ∧ M1.DefaultTheme.LoadedDefaultColorSchemes = [] := by
  obtain ⟨M2, h2, hS, hD⟩ := ApplyTheme_keeps_sized E ThemeId M hCur hSized
  rw [hStep] at h2
  rw [Option.some.inj h2]
  exact ⟨hS, by rw [hD]; exact hDefault⟩

theorem ReachableFromConstructor_sized (M : UColorizedFoldersManager)
    (h : ReachableFromConstructor M) :
    SchemeArraysSized M.LoadedThemes ∧ M.DefaultTheme.LoadedDefaultColorSchemes = [] := by
  induction h with
  | Startup E M0 M hDefault hLoad =>
    obtain ⟨M1, h1, hS, hD⟩ := LoadThemes_sized E M0 hDefault
    rw [hLoad] at h1
    rw [Option.some.inj h1]
    exact ⟨hS, hD⟩
  | LoadThemes E M M1 _ hLoad ih =>
    obtain ⟨M2, h2, hS, hD⟩ := LoadThemes_sized E M ih.2
    rw [hLoad] at h2
    rw [Option.some.inj h2]
    exact ⟨hS, hD⟩
  | ApplyTheme E ThemeId M M1 hM hStep ih =>
    exact ApplyTheme_some_sized E ThemeId M M1
      (Reachable_current_in_list M (ReachableFromConstructor_Reachable M hM)) ih.1 ih.2 hStep
  | ApplyDefaultTheme E M M1 hM hStep ih =>
    exact ApplyTheme_some_sized E _ M M1
      (Reachable_current_in_list M (ReachableFromConstructor_Reachable M hM)) ih.1 ih.2 hStep
  | RemoveTheme ThemeId M _ ih =>
    unfold RemoveTheme
    by_cases hEq : M.CurrentThemeId = ThemeId
    · rw [if_neg (not_not.mpr hEq)]
      exact ih
    · rw [if_pos hEq]
      refine ⟨?_, ih.2⟩
      intro X hX
      exact ih.1 X (List.mem_filter.mp hX).1
  | DuplicateActiveTheme NewThemeGuid M Result _ hStep ih =>
    unfold DuplicateActiveTheme at hStep
    cases hF : FindByKey M.LoadedThemes M.CurrentThemeId with
    | none => rw [hF] at hStep; simp at hStep
    | some Cur =>
      rw [hF] at hStep
      rw [← Option.some.inj hStep]
      refine ⟨?_, ih.2⟩
      intro X hX
      rcases List.mem_append.mp hX with h | h
      · exact ih.1 X h
      · rw [List.mem_singleton.mp h]
        exact Or.inr (MakeArrayView_length _)
  | SetCurrentThemeDisplayName NewDisplayName M M1 _ hStep ih =>
    unfold SetCurrentThemeDisplayName at hStep
    cases hF : FindByKey M.LoadedThemes M.CurrentThemeId with
    | none => rw [hF] at hStep; simp at hStep
    | some Cur =>
      rw [hF] at hStep
      rw [← Option.some.inj hStep]
      exact ⟨SchemeArraysSized_ModifyByKey _ _ _ (fun _ => rfl) ih.1, ih.2⟩
  | SaveCurrentThemeAs E InFilename M Result _ hStep ih =>
    cases hF : FindByKey M.LoadedThemes M.CurrentThemeId with
    | none =>
      unfold SaveCurrentThemeAs at hStep
      rw [hF] at hStep
      simp at hStep
    | some Cur =>
      rw [SaveCurrentThemeAs_eq E InFilename M Cur hF] at hStep
      rw [← Option.some.inj hStep]
      exact ⟨SchemeArraysSized_ModifyByKey _ _ _ (fun _ => rfl) ih.1, ih.2⟩

/-- C28. In every state reachable from `LoadThemes` by `ApplyTheme`, `RemoveTheme` and
`DuplicateActiveTheme` (and by `LoadThemes` again, `ApplyDefaultTheme`,
`SetCurrentThemeDisplayName` and `SaveCurrentThemeAs`), every theme's
`LoadedDefaultColorSchemes` has length 0 or `NUM_FOLDER_SCHEMES`. Hence no call of
`ApplyTheme` in such a state faults: for every engine and every id the call returns, so
neither the slots 0..31 indexed by `LoadThemeFolderSchemes` nor the `Num()` slots copied
into `ActiveSchemes` are out of range; and `LoadThemeFolderSchemes` on any theme of the list
returns with an array of `NUM_FOLDER_SCHEMES` slots, which fits `ActiveSchemes`. -/
theorem ReachableFromConstructor_scheme_arrays_sized (M : UColorizedFoldersManager)
    (h : ReachableFromConstructor M) :
    (∀ T ∈ M.LoadedThemes, T.LoadedDefaultColorSchemes.length = 0 ∨
      T.LoadedDefaultColorSchemes.length = NUM_FOLDER_SCHEMES) ∧
    (∀ (E : FEngine) (ThemeId : FGuid), ∃ M1, ApplyTheme E ThemeId M = some M1) ∧
    (∀ (E : FEngine), ∀ T ∈ M.LoadedThemes,
      ∃ Loaded, LoadThemeFolderSchemes E M.DefaultColorSchemes T = some Loaded ∧
        Loaded.LoadedDefaultColorSchemes.length = NUM_FOLDER_SCHEMES) := by
  obtain ⟨hSized, _⟩ := ReachableFromConstructor_sized M h
  have hCur := Reachable_current_in_list M (ReachableFromConstructor_Reachable M h)
  refine ⟨hSized, ?_, ?_⟩
  · intro E ThemeId
    obtain ⟨M1, h1, _⟩ := ApplyTheme_keeps_sized E ThemeId M hCur hSized
    exact ⟨M1, h1⟩
  · intro E T hT
    obtain ⟨Loaded, hL, _, _, _, hLen, _⟩ :=
      LoadThemeFolderSchemes_spec E M.DefaultColorSchemes T (hSized T hT)
    exact ⟨Loaded, hL, hLen⟩

/-- Witness of C28: `LoadThemes` with the example engine, from the state the constructor
leaves, returns a state whose two themes have 0 and `NUM_FOLDER_SCHEMES` slots, and
`ApplyTheme` with the id of the theme `T1` returns in it. -/
theorem ReachableFromConstructor_scheme_arrays_sized_witness :
    ∃ M, LoadThemes ExampleUserEngine (ExampleManager {}) = some M ∧
      M.LoadedThemes.map (fun T => T.LoadedDefaultColorSchemes.length) =
        [0, NUM_FOLDER_SCHEMES] ∧
      (∀ T ∈ M.LoadedThemes, T.LoadedDefaultColorSchemes.length = 0 ∨
        T.LoadedDefaultColorSchemes.length = NUM_FOLDER_SCHEMES) ∧
      ∃ M1, ApplyTheme ExampleUserEngine { D := 1 } M = some M1 := by
  have hSome : (LoadThemes ExampleUserEngine (ExampleManager {})).isSome = true := by decide
  obtain ⟨M, hM⟩ := Option.isSome_iff_exists.mp hSome
  have hLens : (LoadThemes ExampleUserEngine (ExampleManager {})).map
      (fun M => M.LoadedThemes.map (fun T => T.LoadedDefaultColorSchemes.length)) =
      some [0, NUM_FOLDER_SCHEMES] := by decide
  rw [hM] at hLens
  have hInv := ReachableFromConstructor_scheme_arrays_sized M
    (ReachableFromConstructor.Startup ExampleUserEngine (ExampleManager {}) M rfl hM)
  exact ⟨M, hM, Option.some.inj hLens, hInv.1, hInv.2.1 ExampleUserEngine { D := 1 }⟩

end ColorizedFolders
